import Mathlib

/-!
Verification development for the CoreArbiter server.

The repository snapshot provides the server's data model and operation
declarations in `src/CoreArbiterServer.h`, together with two client programs
(`CoreArbiterClientMain.cc`, `CoreArbiterRequestTest.cc`).  The server's
handler bodies are not part of the snapshot, so the data model below is
embedded from the header, and each handler carries a doc comment starting
`Modelled from the spec:` naming the section of the specification it is
taken from.  Pointers between arena-allocated structs are replaced by the
stable keys the header itself designates: threads are keyed by their socket
descriptor, processes by their process id, cores by their core id.
-/

set_option maxHeartbeats 1000000

namespace CoreArbiter

/-- `NUM_PRIORITIES` from CoreArbiterCommon.h; the spec's glossary fixes it at 8. -/
def NUM_PRIORITIES : Nat := 8

/-- The `ThreadState` enum of `CoreArbiterServer.h`. -/
inductive ThreadState where
  | RUNNING_EXCLUSIVE
  | RUNNING_UNMANAGED
  | RUNNING_PREEMPTED
  | BLOCKED
deriving DecidableEq, Repr

open ThreadState

/-- `struct CoreInfo` of `CoreArbiterServer.h`: core id and the session running
exclusively on the core (`NULL` if the core is available).  The pointer
`exclusiveThread` is represented by the session's socket (the key of
`threadSocketToInfo`); the `cpusetFile` stream is an I/O handle and carries no
state relevant to the claims. -/
structure CoreInfo where
  id : Nat
  exclusiveThread : Option Nat
deriving DecidableEq, Repr

/-- `struct ThreadInfo` of `CoreArbiterServer.h`: self-reported thread id,
owning process (by process id), socket descriptor, assigned core (by core id,
`none` when not running exclusively), and state. -/
structure ThreadInfo where
  id : Nat
  processId : Nat
  socket : Nat
  core : Option Nat
  state : ThreadState
deriving DecidableEq, Repr

/-- The `ThreadInfo(threadId, process, socket)` constructor from the header:
`core(NULL)`, `state(RUNNING_UNMANAGED)`. -/
def ThreadInfo.make (threadId processId socket : Nat) : ThreadInfo :=
  { id := threadId, processId := processId, socket := socket,
    core := none, state := RUNNING_UNMANAGED }

/-- `struct ProcessInfo` of `CoreArbiterServer.h`.  The two shared-memory
fields (`coreReleaseRequestCount`, `threadPreempted`) are stored inline; the
`sharedMemFd` descriptor and the derived `threadStateToSet` index are omitted
(the state field of each thread is the authoritative datum, per the header's
`changeThreadState` design). -/
structure ProcessInfo where
  id : Nat
  coreReleaseRequestCount : Nat
  threadPreempted : Bool
  coreReleaseCount : Nat
  totalCoresOwned : Nat
  desiredCorePriorities : List Nat
deriving DecidableEq, Repr

/-- The `ProcessInfo` constructor from the header together with the zeroed
shared-memory region of spec section 4.1: both release counters start at 0,
`threadPreempted` is false, no cores owned, desired counts all zero. -/
def ProcessInfo.make (pid : Nat) : ProcessInfo :=
  { id := pid, coreReleaseRequestCount := 0, threadPreempted := false,
    coreReleaseCount := 0, totalCoresOwned := 0,
    desiredCorePriorities := List.replicate NUM_PRIORITIES 0 }

/-- The server state: the fields of `CoreArbiterServer` that the claims are
about.  `pendingReleaseCores` and `grantedAt` are modelled bookkeeping: the
spec's allocator (section 4.3) guards release requests by "no release is
already pending against H for this core" and speaks of the priority at which
a core is held, so the model records, per occupied core, whether a release is
pending and the priority at which the core was granted. -/
structure ServerState where
  exclusiveCores : List CoreInfo
  threads : List ThreadInfo
  processes : List ProcessInfo
  corePriorityQueues : List (List Nat)
  timerFdToProcessId : List (Nat × Nat)
  nextTimerFd : Nat
  pendingReleaseCores : List Nat
  grantedAt : List (Nat × Nat)
deriving DecidableEq, Repr

/-- Lookup in `threadSocketToInfo`. -/
def findThread (s : ServerState) (sk : Nat) : Option ThreadInfo :=
  s.threads.find? (fun t => decide (t.socket = sk))

/-- Lookup in `processIdToInfo`. -/
def findProcess (s : ServerState) (pid : Nat) : Option ProcessInfo :=
  s.processes.find? (fun P => decide (P.id = pid))

/-- Lookup of a managed core by id. -/
def findCore (s : ServerState) (c : Nat) : Option CoreInfo :=
  s.exclusiveCores.find? (fun co => decide (co.id = c))

/-- Update the (unique) element with the given key in a keyed list. -/
def updKey {α : Type} (key : α → Nat) (k : Nat) (f : α → α) (l : List α) :
    List α :=
  l.map (fun x => if key x = k then f x else x)

def updateThread (s : ServerState) (sk : Nat) (f : ThreadInfo → ThreadInfo) :
    ServerState :=
  { s with threads := updKey (fun t => t.socket) sk f s.threads }

def updateProcess (s : ServerState) (pid : Nat)
    (f : ProcessInfo → ProcessInfo) : ServerState :=
  { s with processes := updKey (fun P => P.id) pid f s.processes }

def updateCore (s : ServerState) (c : Nat) (f : CoreInfo → CoreInfo) :
    ServerState :=
  { s with exclusiveCores := updKey (fun co => co.id) c f s.exclusiveCores }

/-- Association-list lookup (used for `timerFdToProcessId` and `grantedAt`). -/
def alistGet (l : List (Nat × Nat)) (k : Nat) : Option Nat :=
  (l.find? (fun e => decide (e.1 = k))).map (fun e => e.2)

/-- Association-list removal. -/
def alistRemove (l : List (Nat × Nat)) (k : Nat) : List (Nat × Nat) :=
  l.filter (fun e => decide (e.1 ≠ k))

/-- The header's `changeThreadState`: the sole mutator of a thread's state
field. -/
def changeThreadState (s : ServerState) (sk : Nat) (st : ThreadState) :
    ServerState :=
  updateThread s sk (fun t => { t with state := st })

/-- Modelled from the spec: `moveThreadToExclusiveCore` (section 4.4) for a
BLOCKED session and a free core: both sides of the session-core link are
set and the state becomes `RUNNING_EXCLUSIVE`.  The cpuset write and the
wakeup byte are external I/O; the priority `p` at which the grant happens is
recorded in `grantedAt`. -/
def moveThreadToExclusiveCore (s : ServerState) (sk c p : Nat) : ServerState :=
  let s1 := updateThread s sk
    (fun t => { t with core := some c, state := RUNNING_EXCLUSIVE })
  let s2 := updateCore s1 c (fun co => { co with exclusiveThread := some sk })
  { s2 with grantedAt := (c, p) :: alistRemove s2.grantedAt c }

/-- Modelled from the spec: `removeThreadFromExclusiveCore` (section 4.4):
clears the session-core link (the thread id is written to the unmanaged
cpuset, an external effect) and leaves ownership counters and the thread
state for the caller.  The modelled per-core bookkeeping (pending release,
grant priority) is cleared with the link. -/
def removeThreadFromExclusiveCore (s : ServerState) (sk : Nat) : ServerState :=
  match findThread s sk with
  | none => s
  | some t =>
    match t.core with
    | none => s
    | some c =>
      let s1 := updateThread s sk (fun u => { u with core := none })
      let s2 := updateCore s1 c (fun co => { co with exclusiveThread := none })
      { s2 with grantedAt := alistRemove s2.grantedAt c,
                pendingReleaseCores := s2.pendingReleaseCores.erase c }

/-- Modelled from the spec: the common core-release path (sections 4.1, 4.3,
4.5).  The exclusive thread `sk` leaves its core into state `st`: the owner's
`totalCoresOwned` drops by one and, when the process owes a release
(`coreReleaseRequestCount > coreReleaseCount`), the release is counted by
incrementing `coreReleaseCount` (section 4.3 for voluntary release; section
4.5 step 3 for preemption; on disconnect, section 4.1 leaves the counters to
the caller of 4.4 and spec invariant 3 of section 8 requires the owed release
of an evicted thread to be counted). -/
def evictCore (s : ServerState) (sk : Nat) (st : ThreadState) : ServerState :=
  match findThread s sk with
  | none => s
  | some t =>
    match t.core with
    | none => s
    | some _ =>
      let s1 := updateProcess s t.processId (fun P =>
        { P with totalCoresOwned := P.totalCoresOwned - 1,
                 coreReleaseCount :=
                   if P.coreReleaseCount < P.coreReleaseRequestCount then
                     P.coreReleaseCount + 1
                   else P.coreReleaseCount })
      changeThreadState (removeThreadFromExclusiveCore s1 sk) sk st

/-- The priority at which a thread's current core was granted (0 when the
thread holds no core). -/
def threadGrantPriority (s : ServerState) (t : ThreadInfo) : Nat :=
  match t.core with
  | some c => (alistGet s.grantedAt c).getD 0
  | none => 0

/-- Modelled from the spec: `granted_at_or_above(p)` of section 4.2, the count
of the process's `RUNNING_EXCLUSIVE` sessions at priority at least as high as
`p` (numerically at most `p`; index 0 is the highest priority). -/
def grantedAtOrAbove (s : ServerState) (pid p : Nat) : Nat :=
  s.threads.countP (fun t =>
    decide (t.processId = pid ∧ t.state = RUNNING_EXCLUSIVE ∧
            threadGrantPriority s t ≤ p))

/-- Modelled from the spec: `unsatisfied(p) = desired[p] > granted_at_or_above(p)`
(section 4.2). -/
def unsatisfiedDemand (s : ServerState) (pid p : Nat) : Bool :=
  match findProcess s pid with
  | some P => decide (grantedAtOrAbove s pid p < P.desiredCorePriorities.getD p 0)
  | none => false

/-- Modelled from the spec: the demand re-accounting of section 4.2.  After an
event that changes a process's desired counts or ownership, the process is
enqueued at the tail of queue `p` when it has unsatisfied demand at `p` and is
not already present, and is removed from queue `p` otherwise. -/
def updateQueueMembership (s : ServerState) (pid : Nat) : ServerState :=
  { s with corePriorityQueues :=
      s.corePriorityQueues.enum.map (fun e =>
        if unsatisfiedDemand s pid e.1 then
          (if pid ∈ e.2 then e.2 else e.2 ++ [pid])
        else e.2.erase pid) }

/-- The first `BLOCKED` session of a process, in insertion order. -/
def firstBlockedThread (s : ServerState) (pid : Nat) : Option Nat :=
  (s.threads.find? (fun t =>
    decide (t.processId = pid ∧ t.state = BLOCKED))).map (fun t => t.socket)

/-- First process of a queue (FIFO order) with at least one BLOCKED session,
paired with that session's socket. -/
def chooseFromQueue (s : ServerState) : List Nat → Option (Nat × Nat)
  | [] => none
  | pid :: rest =>
    match firstBlockedThread s pid with
    | some sk => some (pid, sk)
    | none => chooseFromQueue s rest

/-- Scan the priority queues from the highest priority (index 0) downward. -/
def chooseCandidateGo (s : ServerState) : Nat → List (List Nat) →
    Option (Nat × Nat × Nat)
  | _, [] => none
  | p, q :: rest =>
    match chooseFromQueue s q with
    | some (pid, sk) => some (p, pid, sk)
    | none => chooseCandidateGo s (p + 1) rest

/-- Modelled from the spec: the candidate selection of `distributeCores`
phase 1 (section 4.3): scan priority queues from highest (0) to lowest and
choose the first process with at least one BLOCKED session; the result is
(priority, process id, socket of the chosen BLOCKED session). -/
def chooseCandidate (s : ServerState) : Option (Nat × Nat × Nat) :=
  chooseCandidateGo s 0 s.corePriorityQueues

/-- Modelled from the spec: one phase-1 grant (section 4.3): the chosen
BLOCKED session is granted the idle core via `moveThreadToExclusiveCore`, the
process's ownership counter is updated and its queue membership re-evaluated. -/
def grantCore (s : ServerState) (c p pid sk : Nat) : ServerState :=
  let s1 := moveThreadToExclusiveCore s sk c p
  let s2 := updateProcess s1 pid
    (fun P => { P with totalCoresOwned := P.totalCoresOwned + 1 })
  updateQueueMembership s2 pid

/-- Ids of the managed cores whose `exclusiveThread` is none. -/
def freeCoreIds (s : ServerState) : List Nat :=
  (s.exclusiveCores.filter
    (fun co => decide (co.exclusiveThread = none))).map (fun co => co.id)

/-- Modelled from the spec: phase 1 of `distributeCores` (section 4.3): for
each idle managed core, grant it to the chosen candidate; stop when no
candidate exists. -/
def phase1Go (s : ServerState) : List Nat → ServerState
  | [] => s
  | c :: rest =>
    match chooseCandidate s with
    | none => s
    | some (p, pid, sk) => phase1Go (grantCore s c p pid sk) rest

def distributeCoresPhase1 (s : ServerState) : ServerState :=
  phase1Go s (freeCoreIds s)

/-- The process owning core `c` through its exclusive thread, if any. -/
def coreOwnerPid (s : ServerState) (c : Nat) : Option Nat :=
  match findCore s c with
  | none => none
  | some co =>
    match co.exclusiveThread with
    | none => none
    | some sk => (findThread s sk).map (fun t => t.processId)

/-- Modelled from the spec: does some other process have unsatisfied demand at
a priority strictly higher than `ph` (numerically smaller index), i.e. appear
in one of the queues above `ph`?  (Section 4.3 phase 2.) -/
def higherPriorityDemand (s : ServerState) (pid ph : Nat) : Bool :=
  (s.corePriorityQueues.take ph).any (fun q => q.any (fun w => decide (w ≠ pid)))

/-- Modelled from the spec: `requestCoreRelease` (section 4.3): increment the
owning process's shared-memory `coreReleaseRequestCount` by one, arm a
one-shot preemption timer registered in `timerFdToProcessId`, and record the
release as pending against this core. -/
def requestCoreRelease (s : ServerState) (c : Nat) : ServerState :=
  match coreOwnerPid s c with
  | none => s
  | some pid =>
    let s1 := updateProcess s pid (fun P =>
      { P with coreReleaseRequestCount := P.coreReleaseRequestCount + 1 })
    { s1 with pendingReleaseCores := s1.pendingReleaseCores ++ [c],
              timerFdToProcessId := s1.timerFdToProcessId ++ [(s1.nextTimerFd, pid)],
              nextTimerFd := s1.nextTimerFd + 1 }

/-- Modelled from the spec: the phase-2 per-core test (section 4.3): the core
is occupied, no release is already pending against it, and some other process
at a higher priority than the one the core is held at has unsatisfied
demand. -/
def shouldRequestRelease (s : ServerState) (c : Nat) : Bool :=
  decide (c ∉ s.pendingReleaseCores) &&
  (match coreOwnerPid s c with
   | some pid => higherPriorityDemand s pid ((alistGet s.grantedAt c).getD 0)
   | none => false)

/-- Modelled from the spec: phase 2 of `distributeCores` (section 4.3):
for each managed core currently held, request a release when warranted. -/
def distributeCoresPhase2 (s : ServerState) : ServerState :=
  ((s.exclusiveCores.filter
      (fun co => decide (co.exclusiveThread ≠ none))).map (fun co => co.id)).foldl
    (fun s2 c => if shouldRequestRelease s2 c then requestCoreRelease s2 c else s2)
    s

/-- Modelled from the spec: `distributeCores` (section 4.3), phase 1 then
phase 2. -/
def distributeCores (s : ServerState) : ServerState :=
  distributeCoresPhase2 (distributeCoresPhase1 s)

/-- Modelled from the spec: the `THREAD_REGISTER` handling of section 4.1
(the message is read inside `acceptConnection`): a new process entry with a
zeroed shared-memory region is created when the process id is new, and the
session is added in state `RUNNING_UNMANAGED` with no core.  Registration
does not trigger the allocator. -/
def threadRegister (s : ServerState) (pid tid sk : Nat) : ServerState :=
  match findThread s sk with
  | some _ => s
  | none =>
    let s1 :=
      match findProcess s pid with
      | some _ => s
      | none => { s with processes := s.processes ++ [ProcessInfo.make pid] }
    { s1 with threads := s1.threads ++ [ThreadInfo.make tid pid sk] }

/-- Modelled from the spec: the `CORES_REQUESTED` handler (sections 4.1, 4.2):
store the new desired counts, re-evaluate the process's queue membership, and
run the allocator. -/
def coresRequested (s : ServerState) (sk : Nat) (desired : List Nat) :
    ServerState :=
  match findThread s sk with
  | none => s
  | some t =>
    let s1 := updateProcess s t.processId
      (fun P => { P with desiredCorePriorities := desired })
    distributeCores (updateQueueMembership s1 t.processId)

/-- Modelled from the spec: the `THREAD_BLOCK` handler (sections 4.1, 4.3,
4.5).  A `RUNNING_EXCLUSIVE` thread whose process owes a release gives its
core back (counting the release) and becomes BLOCKED; a thread on the
unmanaged core becomes BLOCKED, clearing `threadPreempted` when it was
preempted and no other preemption is outstanding; the allocator then runs.
A n exclusive thread whose process owes nothing, or an already BLOCKED
thread, is a protocol anomaly and leaves the state unchanged. -/
def threadBlocking (s : ServerState) (sk : Nat) : ServerState :=
  match findThread s sk with
  | none => s
  | some t =>
    match t.state with
    | RUNNING_EXCLUSIVE =>
      match findProcess s t.processId with
      | none => s
      | some P =>
        if P.coreReleaseCount < P.coreReleaseRequestCount then
          distributeCores
            (updateQueueMembership (evictCore s sk BLOCKED) t.processId)
        else s
    | BLOCKED => s
    | RUNNING_UNMANAGED => distributeCores (changeThreadState s sk BLOCKED)
    | RUNNING_PREEMPTED =>
      let hasOther := s.threads.any (fun u =>
        decide (u.processId = t.processId ∧ u.socket ≠ sk ∧
                u.state = RUNNING_PREEMPTED))
      let s1 :=
        if hasOther then s
        else updateProcess s t.processId
          (fun P => { P with threadPreempted := false })
      distributeCores (changeThreadState s1 sk BLOCKED)

/-- One comparison step of the victim scan: keep the session whose grant
priority is numerically larger (lower priority); earlier sessions win ties. -/
def betterVictim (s : ServerState) (acc : Option ThreadInfo) (t : ThreadInfo) :
    Option ThreadInfo :=
  match acc with
  | none => some t
  | some u =>
    if threadGrantPriority s u < threadGrantPriority s t then some t else acc

/-- The lowest-priority (numerically largest grant priority)
`RUNNING_EXCLUSIVE` session of a process; earlier sessions win ties. -/
def lowestPrioritySession (s : ServerState) (pid : Nat) : Option ThreadInfo :=
  (s.threads.filter (fun t =>
    decide (t.processId = pid ∧ t.state = RUNNING_EXCLUSIVE))).foldl
    (betterVictim s) none

/-- Modelled from the spec: steps 2 and 3 of the preemption-timer expiry
(section 4.5): set the shared-memory `threadPreempted` flag, move the
process's lowest-priority exclusive session off its core to the unmanaged
cpuset in state `RUNNING_PREEMPTED` (counting the owed release and dropping
`totalCoresOwned` by one), and re-evaluate queue membership. -/
def preemptTimeoutCore (s : ServerState) (pid : Nat) : ServerState :=
  match lowestPrioritySession s pid with
  | none => s
  | some t =>
    let s1 := updateProcess s pid (fun P => { P with threadPreempted := true })
    updateQueueMembership (evictCore s1 t.socket RUNNING_PREEMPTED) pid

/-- Modelled from the spec: `timeoutThreadPreemption` (section 4.5): look up
the owing process via `timerFdToProcessId`, disarm the one-shot timer; when
the process still owes a release, preempt its lowest-priority exclusive
session and re-run the allocator; otherwise do nothing further. -/
def timeoutThreadPreemption (s : ServerState) (fd : Nat) : ServerState :=
  match alistGet s.timerFdToProcessId fd with
  | none => s
  | some pid =>
    let s0 := { s with timerFdToProcessId := alistRemove s.timerFdToProcessId fd }
    match findProcess s0 pid with
    | none => s0
    | some P =>
      if P.coreReleaseCount < P.coreReleaseRequestCount then
        distributeCores (preemptTimeoutCore s0 pid)
      else s0

/-- Modelled from the spec: `cleanupConnection` (section 4.1): a
`RUNNING_EXCLUSIVE` session is first evicted from its core (section 4.4);
the session is removed; if the process has no sessions left, the process
entry is deleted and the process is removed from every priority queue,
otherwise its queue membership is re-evaluated. -/
def cleanupConnection (s : ServerState) (sk : Nat) : ServerState :=
  match findThread s sk with
  | none => s
  | some t =>
    let s1 := if t.state = RUNNING_EXCLUSIVE then evictCore s sk BLOCKED else s
    let s2 := { s1 with
      threads := s1.threads.filter (fun u => decide (u.socket ≠ sk)) }
    if s2.threads.any (fun u => decide (u.processId = t.processId)) then
      updateQueueMembership s2 t.processId
    else
      { s2 with
        processes := s2.processes.filter (fun P => decide (P.id ≠ t.processId)),
        corePriorityQueues := s2.corePriorityQueues.map
          (fun q => q.filter (fun w => decide (w ≠ t.processId))) }

/-- The events the event loop (section 4.7) dispatches on. -/
inductive Event where
  | register (pid tid sk : Nat)
  | request (sk : Nat) (desired : List Nat)
  | block (sk : Nat)
  | timeout (fd : Nat)
  | disconnect (sk : Nat)
deriving DecidableEq, Repr

/-- One event-loop dispatch. -/
def step (s : ServerState) : Event → ServerState
  | .register pid tid sk => threadRegister s pid tid sk
  | .request sk desired => coresRequested s sk desired
  | .block sk => threadBlocking s sk
  | .timeout fd => timeoutThreadPreemption s fd
  | .disconnect sk => cleanupConnection s sk

/-- The server's state at startup: one `CoreInfo` per managed core, no
sessions, no processes, `NUM_PRIORITIES` empty FIFO queues. -/
def initState (coreIds : List Nat) : ServerState :=
  { exclusiveCores := coreIds.map (fun i => { id := i, exclusiveThread := none }),
    threads := [], processes := [],
    corePriorityQueues := List.replicate NUM_PRIORITIES [],
    timerFdToProcessId := [], nextTimerFd := 0,
    pendingReleaseCores := [], grantedAt := [] }

/-- Reachable server states: an initial state for a duplicate-free set of
managed core ids, closed under event dispatch. -/
inductive Reachable : ServerState → Prop where
  | init (coreIds : List Nat) (h : coreIds.Nodup) : Reachable (initState coreIds)
  | step {s : ServerState} (ev : Event) (h : Reachable s) : Reachable (step s ev)

/-- The session-core link properties of the claim on exclusive sessions:
every `RUNNING_EXCLUSIVE` session points at a managed core that points back at
it; every core pointing at a session has that session exclusive on it; and a
session is the `exclusiveThread` of at most one core. -/
def SessionCoreLinked (s : ServerState) : Prop :=
  (∀ t ∈ s.threads, t.state = RUNNING_EXCLUSIVE →
    ∃ co ∈ s.exclusiveCores, t.core = some co.id ∧
      co.exclusiveThread = some t.socket) ∧
  (∀ co ∈ s.exclusiveCores, ∀ t ∈ s.threads, co.exclusiveThread = some t.socket →
    t.state = RUNNING_EXCLUSIVE ∧ t.core = some co.id) ∧
  (∀ co ∈ s.exclusiveCores, ∀ co2 ∈ s.exclusiveCores, ∀ sk : Nat,
    co.exclusiveThread = some sk → co2.exclusiveThread = some sk → co = co2)

/-- Pointwise ordering of the per-process release counters. -/
def ProcLe (P Q : ProcessInfo) : Prop :=
  P.coreReleaseRequestCount ≤ Q.coreReleaseRequestCount ∧
  P.coreReleaseCount ≤ Q.coreReleaseCount

/-- Every process entry of the later state descends, same id and counters not
decreased, from an entry of the earlier state. -/
def ProcsBack (s s2 : ServerState) : Prop :=
  ∀ Q ∈ s2.processes, ∃ P ∈ s.processes, P.id = Q.id ∧ ProcLe P Q

/-- The sockets of all sessions of a process, in insertion order. -/
def socketsOf (s : ServerState) (pid : Nat) : List Nat :=
  (s.threads.filter (fun t => decide (t.processId = pid))).map (fun t => t.socket)

/-- Running `cleanupConnection` on a list of sockets. -/
def cleanupAll (s : ServerState) (sks : List Nat) : ServerState :=
  sks.foldl cleanupConnection s

/-- The process-id-independent observation of the process table used to compare
states up to process ids: any bijective renaming of process ids maps a state
to one whose observation list is a permutation of the original. -/
def procObs (s : ServerState) : List (Nat × Nat × Nat × Bool × List Nat) :=
  s.processes.map (fun P => (P.coreReleaseRequestCount, P.coreReleaseCount,
    P.totalCoresOwned, P.threadPreempted, P.desiredCorePriorities))

/-- A run exercising the allocator: process 2 blocks a thread and is granted
core 10 at priority 1; process 1 requests a core at priority 0 without ever
blocking a thread, which makes the allocator ask process 2 for a release
(arming timer 0); process 3 blocks a thread, requests at priority 1, and is
granted core 11. -/
def scenarioEvents : List Event :=
  [ .register 2 2 2,
    .block 2,
    .request 2 [0, 1, 0, 0, 0, 0, 0, 0],
    .register 1 1 1,
    .request 1 [1, 0, 0, 0, 0, 0, 0, 0],
    .register 3 3 3,
    .block 3,
    .request 3 [0, 1, 0, 0, 0, 0, 0, 0] ]

/-- The state just before process 3's core request. -/
def scenarioPre : ServerState :=
  (scenarioEvents.take 7).foldl step (initState [10, 11])

/-- The state after the whole scenario. -/
def scenarioState : ServerState :=
  scenarioEvents.foldl step (initState [10, 11])

/-- Two processes queued at priority 0, in order 1 then 2, with no managed
core to hand out. -/
def fifoEvents : List Event :=
  [ .register 1 1 1, .block 1, .request 1 [1, 0, 0, 0, 0, 0, 0, 0],
    .register 2 2 2, .block 2, .request 2 [1, 0, 0, 0, 0, 0, 0, 0] ]

def fifoState : ServerState := fifoEvents.foldl step (initState [])

/-- A hand-built state whose highest non-empty queue holds a process with no
BLOCKED session while the next queue holds one with a BLOCKED session. -/
def strictPriorityWitnessState : ServerState :=
  { exclusiveCores := [{ id := 10, exclusiveThread := none }],
    threads := [ThreadInfo.make 1 1 1,
      { ThreadInfo.make 3 3 3 with state := BLOCKED }],
    processes := [ProcessInfo.make 1, ProcessInfo.make 3],
    corePriorityQueues := [[1], [3], [], [], [], [], [], []],
    timerFdToProcessId := [], nextTimerFd := 0,
    pendingReleaseCores := [], grantedAt := [] }

/-- History with a disconnecting process: process 1 holds the only core at
priority 3; process 2 requests one core at priority 0, which makes the server
increment process 1's release-request counter; then process 2's socket
closes. -/
def c8WithEvents : List Event :=
  [ .register 1 1 1, .block 1, .request 1 [0, 0, 0, 1, 0, 0, 0, 0],
    .register 2 2 2, .request 2 [1, 0, 0, 0, 0, 0, 0, 0] ]

def c8Pre : ServerState := c8WithEvents.foldl step (initState [10])

def c8With : ServerState := cleanupAll c8Pre (socketsOf c8Pre 2)

/-- The same history with process 2's connections omitted. -/
def c8WithoutEvents : List Event :=
  [ .register 1 1 1, .block 1, .request 1 [0, 0, 0, 1, 0, 0, 0, 0] ]

def c8Without : ServerState := c8WithoutEvents.foldl step (initState [10])

/-- A single process is granted the only core at priority 0 and then lowers
its desired core counts to all zeros. -/
def c10Events : List Event :=
  [ .register 1 1 1, .block 1, .request 1 [1, 0, 0, 0, 0, 0, 0, 0],
    .request 1 [0, 0, 0, 0, 0, 0, 0, 0] ]

def c10State : ServerState := c10Events.foldl step (initState [10])

end CoreArbiter

namespace CoreArbiter

open ThreadState

/-! ### Generic lemmas about keyed lists -/

theorem nodup_key_eq {α : Type} (key : α → Nat) {l : List α}
    (h : (l.map key).Nodup) {a b : α} (ha : a ∈ l) (hb : b ∈ l)
    (hk : key a = key b) : a = b := by
  induction l with
  | nil => cases ha
  | cons x xs ih =>
    simp only [List.map_cons, List.nodup_cons] at h
    rcases List.mem_cons.mp ha with rfl | ha2
    · rcases List.mem_cons.mp hb with rfl | hb2
      · rfl
      · exact absurd (hk ▸ List.mem_map_of_mem key hb2) h.1
    · rcases List.mem_cons.mp hb with rfl | hb2
      · exact absurd (hk ▸ List.mem_map_of_mem key ha2) h.1
      · exact ih h.2 ha2 hb2

theorem find?_key_eq_some_iff {α : Type} (key : α → Nat) {l : List α}
    (h : (l.map key).Nodup) (k : Nat) (u : α) :
    l.find? (fun x => decide (key x = k)) = some u ↔ (u ∈ l ∧ key u = k) := by
  constructor
  · intro hf
    have hm := List.mem_of_find?_eq_some hf
    have hp := List.find?_some hf
    simp only [decide_eq_true_eq] at hp
    exact ⟨hm, hp⟩
  · rintro ⟨hm, hk⟩
    cases hf : l.find? (fun x => decide (key x = k)) with
    | none =>
      have := List.find?_eq_none.mp hf u hm
      simp [hk] at this
    | some v =>
      have hmv := List.mem_of_find?_eq_some hf
      have hpv := List.find?_some hf
      simp only [decide_eq_true_eq] at hpv
      have hvu : v = u := nodup_key_eq key h hmv hm (hpv.trans hk.symm)
      exact hvu ▸ rfl

theorem find?_key_eq_none_iff {α : Type} (key : α → Nat) (l : List α)
    (k : Nat) :
    l.find? (fun x => decide (key x = k)) = none ↔ ∀ x ∈ l, key x ≠ k := by
  rw [List.find?_eq_none]
  simp

theorem updKey_eq_self {α : Type} (key : α → Nat) (k : Nat) (f : α → α)
    {l : List α} (h : ∀ y ∈ l, key y ≠ k) : updKey key k f l = l := by
  induction l with
  | nil => rfl
  | cons a l ih =>
    simp only [updKey, List.map_cons]
    rw [if_neg (h a (List.mem_cons_self a l))]
    have : updKey key k f l = l := ih (fun y hy => h y (List.mem_cons_of_mem a hy))
    simp only [updKey] at this
    rw [this]

theorem updKey_append_cons {α : Type} (key : α → Nat) (f : α → α)
    {l1 l2 : List α} {x : α}
    (h : ((l1 ++ x :: l2).map key).Nodup) :
    updKey key (key x) f (l1 ++ x :: l2) = l1 ++ f x :: l2 := by
  rw [List.map_append, List.map_cons, List.nodup_append] at h
  obtain ⟨h1, h2, hdisj⟩ := h
  rw [List.nodup_cons] at h2
  have hx1 : ∀ y ∈ l1, key y ≠ key x := fun y hy hk =>
    hdisj (List.mem_map_of_mem key hy) (hk ▸ List.mem_cons_self _ _)
  have hx2 : ∀ y ∈ l2, key y ≠ key x := fun y hy hk =>
    h2.1 (hk ▸ List.mem_map_of_mem key hy)
  simp only [updKey, List.map_append, List.map_cons, eq_self_iff_true, if_true]
  rw [show (l1.map fun y => if key y = key x then f y else y) = l1 from
        updKey_eq_self key (key x) f hx1,
      show (l2.map fun y => if key y = key x then f y else y) = l2 from
        updKey_eq_self key (key x) f hx2]

theorem map_key_updKey {α : Type} (key : α → Nat) (k : Nat) (f : α → α)
    (hf : ∀ x, key (f x) = key x) (l : List α) :
    (updKey key k f l).map key = l.map key := by
  induction l with
  | nil => rfl
  | cons a l ih =>
    simp only [updKey, List.map_cons] at *
    rw [ih]
    by_cases hk : key a = k
    · rw [if_pos hk, hf]
    · rw [if_neg hk]

theorem mem_updKey_of_mem {α : Type} (key : α → Nat) (k : Nat) (f : α → α)
    {l : List α} {x : α} (hx : x ∈ l) :
    (if key x = k then f x else x) ∈ updKey key k f l :=
  List.mem_map_of_mem _ hx

theorem mem_updKey_iff {α : Type} {key : α → Nat} {k : Nat} {f : α → α}
    {l : List α} {y : α} :
    y ∈ updKey key k f l ↔ ∃ x ∈ l, y = if key x = k then f x else x := by
  simp only [updKey, List.mem_map]
  constructor
  · rintro ⟨x, hx, rfl⟩; exact ⟨x, hx, rfl⟩
  · rintro ⟨x, hx, rfl⟩; exact ⟨x, hx, rfl⟩

end CoreArbiter

namespace CoreArbiter

open ThreadState

/-! ### Invariants -/

/-- Well-formedness: unique keys, thread owners registered, no empty process
(spec invariant 3 of section 8). -/
def WFState (s : ServerState) : Prop :=
  (s.threads.map (fun t => t.socket)).Nodup ∧
  (s.processes.map (fun P => P.id)).Nodup ∧
  (s.exclusiveCores.map (fun co => co.id)).Nodup ∧
  (∀ t ∈ s.threads, ∃ P ∈ s.processes, P.id = t.processId) ∧
  (∀ P ∈ s.processes, ∃ t ∈ s.threads, t.processId = P.id)

/-- The session-core link invariant (spec invariants 1 and 2 of section 8):
an exclusive session and its core point at each other; a non-exclusive
session holds no core; an occupied core points back at an exclusive session
holding it. -/
def LinkInv (s : ServerState) : Prop :=
  (∀ t ∈ s.threads, t.state = RUNNING_EXCLUSIVE →
    ∃ co ∈ s.exclusiveCores, t.core = some co.id ∧
      co.exclusiveThread = some t.socket) ∧
  (∀ t ∈ s.threads, t.state ≠ RUNNING_EXCLUSIVE → t.core = none) ∧
  (∀ co ∈ s.exclusiveCores, ∀ sk, co.exclusiveThread = some sk →
    ∃ t ∈ s.threads, t.socket = sk ∧ t.state = RUNNING_EXCLUSIVE ∧
      t.core = some co.id)

/-- Number of `RUNNING_EXCLUSIVE` sessions of a process. -/
def exclThreadCount (s : ServerState) (pid : Nat) : Nat :=
  s.threads.countP (fun t =>
    decide (t.processId = pid ∧ t.state = RUNNING_EXCLUSIVE))

/-- `totalCoresOwned` agrees with the number of exclusive sessions. -/
def PerProcInv (s : ServerState) : Prop :=
  ∀ P ∈ s.processes, P.totalCoresOwned = exclThreadCount s P.id

/-- Number of managed cores whose `exclusiveThread` is set. -/
def occupiedCount (s : ServerState) : Nat :=
  s.exclusiveCores.countP (fun co => decide (co.exclusiveThread ≠ none))

/-- Sum of `totalCoresOwned` over all registered processes. -/
def sumOwned (s : ServerState) : Nat :=
  (s.processes.map (fun P => P.totalCoresOwned)).sum

/-- Spec invariant 1 of section 8. -/
def CountInv (s : ServerState) : Prop := sumOwned s = occupiedCount s

/-- Number of pending release requests against cores owned by `pid`. -/
def pendCount (s : ServerState) (pid : Nat) : Nat :=
  (s.pendingReleaseCores.filter
    (fun c => decide (coreOwnerPid s c = some pid))).length

/-- Release counters: `coreReleaseCount ≤ coreReleaseRequestCount`, and the
gap is covered by pending per-core release requests. -/
def GapInv (s : ServerState) : Prop :=
  ∀ P ∈ s.processes, P.coreReleaseCount ≤ P.coreReleaseRequestCount ∧
    P.coreReleaseRequestCount - P.coreReleaseCount ≤ pendCount s P.id

/-- Pending release requests target distinct occupied cores. -/
def PendingInv (s : ServerState) : Prop :=
  s.pendingReleaseCores.Nodup ∧
  ∀ c ∈ s.pendingReleaseCores,
    ∃ co ∈ s.exclusiveCores, co.id = c ∧ co.exclusiveThread ≠ none

/-- Every process id sitting in a priority queue is registered. -/
def QueueInv (s : ServerState) : Prop :=
  ∀ q ∈ s.corePriorityQueues, ∀ pid ∈ q, ∃ P ∈ s.processes, P.id = pid

/-- The inductive invariant of the server. -/
def Inv (s : ServerState) : Prop :=
  WFState s ∧ LinkInv s ∧ PerProcInv s ∧ CountInv s ∧ GapInv s ∧
    PendingInv s ∧ QueueInv s

/-! ### Field-projection lemmas for the state transformers -/

@[simp] theorem updateThread_threads (s : ServerState) (sk : Nat) (f) :
    (updateThread s sk f).threads = updKey (fun t => t.socket) sk f s.threads := rfl

@[simp] theorem updateThread_processes (s : ServerState) (sk : Nat) (f) :
    (updateThread s sk f).processes = s.processes := rfl

@[simp] theorem updateThread_cores (s : ServerState) (sk : Nat) (f) :
    (updateThread s sk f).exclusiveCores = s.exclusiveCores := rfl

@[simp] theorem updateThread_pending (s : ServerState) (sk : Nat) (f) :
    (updateThread s sk f).pendingReleaseCores = s.pendingReleaseCores := rfl

@[simp] theorem updateThread_queues (s : ServerState) (sk : Nat) (f) :
    (updateThread s sk f).corePriorityQueues = s.corePriorityQueues := rfl

@[simp] theorem updateThread_grantedAt (s : ServerState) (sk : Nat) (f) :
    (updateThread s sk f).grantedAt = s.grantedAt := rfl

@[simp] theorem updateThread_timers (s : ServerState) (sk : Nat) (f) :
    (updateThread s sk f).timerFdToProcessId = s.timerFdToProcessId := rfl

@[simp] theorem updateProcess_processes (s : ServerState) (pid : Nat) (f) :
    (updateProcess s pid f).processes = updKey (fun P => P.id) pid f s.processes := rfl

@[simp] theorem updateProcess_threads (s : ServerState) (pid : Nat) (f) :
    (updateProcess s pid f).threads = s.threads := rfl

@[simp] theorem updateProcess_cores (s : ServerState) (pid : Nat) (f) :
    (updateProcess s pid f).exclusiveCores = s.exclusiveCores := rfl

@[simp] theorem updateProcess_pending (s : ServerState) (pid : Nat) (f) :
    (updateProcess s pid f).pendingReleaseCores = s.pendingReleaseCores := rfl

@[simp] theorem updateProcess_queues (s : ServerState) (pid : Nat) (f) :
    (updateProcess s pid f).corePriorityQueues = s.corePriorityQueues := rfl

@[simp] theorem updateProcess_grantedAt (s : ServerState) (pid : Nat) (f) :
    (updateProcess s pid f).grantedAt = s.grantedAt := rfl

@[simp] theorem updateProcess_timers (s : ServerState) (pid : Nat) (f) :
    (updateProcess s pid f).timerFdToProcessId = s.timerFdToProcessId := rfl

@[simp] theorem updateCore_cores (s : ServerState) (c : Nat) (f) :
    (updateCore s c f).exclusiveCores = updKey (fun co => co.id) c f s.exclusiveCores := rfl

@[simp] theorem updateCore_threads (s : ServerState) (c : Nat) (f) :
    (updateCore s c f).threads = s.threads := rfl

@[simp] theorem updateCore_processes (s : ServerState) (c : Nat) (f) :
    (updateCore s c f).processes = s.processes := rfl

@[simp] theorem updateCore_pending (s : ServerState) (c : Nat) (f) :
    (updateCore s c f).pendingReleaseCores = s.pendingReleaseCores := rfl

@[simp] theorem updateCore_queues (s : ServerState) (c : Nat) (f) :
    (updateCore s c f).corePriorityQueues = s.corePriorityQueues := rfl

@[simp] theorem updateCore_grantedAt (s : ServerState) (c : Nat) (f) :
    (updateCore s c f).grantedAt = s.grantedAt := rfl

@[simp] theorem updateCore_timers (s : ServerState) (c : Nat) (f) :
    (updateCore s c f).timerFdToProcessId = s.timerFdToProcessId := rfl

@[simp] theorem updateQueueMembership_threads (s : ServerState) (pid : Nat) :
    (updateQueueMembership s pid).threads = s.threads := rfl

@[simp] theorem updateQueueMembership_processes (s : ServerState) (pid : Nat) :
    (updateQueueMembership s pid).processes = s.processes := rfl

@[simp] theorem updateQueueMembership_cores (s : ServerState) (pid : Nat) :
    (updateQueueMembership s pid).exclusiveCores = s.exclusiveCores := rfl

@[simp] theorem updateQueueMembership_pending (s : ServerState) (pid : Nat) :
    (updateQueueMembership s pid).pendingReleaseCores = s.pendingReleaseCores := rfl

@[simp] theorem updateQueueMembership_grantedAt (s : ServerState) (pid : Nat) :
    (updateQueueMembership s pid).grantedAt = s.grantedAt := rfl

@[simp] theorem updateQueueMembership_timers (s : ServerState) (pid : Nat) :
    (updateQueueMembership s pid).timerFdToProcessId = s.timerFdToProcessId := rfl

/-! ### Lookup characterizations -/

theorem findThread_eq_some_iff {s : ServerState}
    (h : (s.threads.map (fun t => t.socket)).Nodup) {sk : Nat} {t : ThreadInfo} :
    findThread s sk = some t ↔ (t ∈ s.threads ∧ t.socket = sk) :=
  find?_key_eq_some_iff (fun t : ThreadInfo => t.socket) h sk t

theorem findThread_eq_none_iff {s : ServerState} {sk : Nat} :
    findThread s sk = none ↔ ∀ t ∈ s.threads, t.socket ≠ sk :=
  find?_key_eq_none_iff (fun t : ThreadInfo => t.socket) s.threads sk

theorem findProcess_eq_some_iff {s : ServerState}
    (h : (s.processes.map (fun P => P.id)).Nodup) {pid : Nat} {P : ProcessInfo} :
    findProcess s pid = some P ↔ (P ∈ s.processes ∧ P.id = pid) :=
  find?_key_eq_some_iff (fun P : ProcessInfo => P.id) h pid P

theorem findProcess_eq_none_iff {s : ServerState} {pid : Nat} :
    findProcess s pid = none ↔ ∀ P ∈ s.processes, P.id ≠ pid :=
  find?_key_eq_none_iff (fun P : ProcessInfo => P.id) s.processes pid

theorem findCore_eq_some_iff {s : ServerState}
    (h : (s.exclusiveCores.map (fun co => co.id)).Nodup) {c : Nat} {co : CoreInfo} :
    findCore s c = some co ↔ (co ∈ s.exclusiveCores ∧ co.id = c) :=
  find?_key_eq_some_iff (fun co : CoreInfo => co.id) h c co

theorem findCore_eq_none_iff {s : ServerState} {c : Nat} :
    findCore s c = none ↔ ∀ co ∈ s.exclusiveCores, co.id ≠ c :=
  find?_key_eq_none_iff (fun co : CoreInfo => co.id) s.exclusiveCores c

/-- Members of `List.enum` are members of the list. -/
theorem snd_mem_of_mem_enumFrom {α : Type} :
    ∀ (l : List α) (n : Nat) (e : Nat × α), e ∈ l.enumFrom n → e.2 ∈ l := by
  intro l
  induction l with
  | nil => intro n e h; cases h
  | cons a l ih =>
    intro n e h
    rcases List.mem_cons.mp h with rfl | h2
    · exact List.mem_cons_self _ _
    · exact List.mem_cons_of_mem _ (ih (n + 1) e h2)

theorem snd_mem_of_mem_enum {α : Type} (l : List α) (e : Nat × α)
    (h : e ∈ l.enum) : e.2 ∈ l :=
  snd_mem_of_mem_enumFrom l 0 e h

/-- The initial state satisfies the invariant. -/
theorem inv_initState {ids : List Nat} (h : ids.Nodup) : Inv (initState ids) := by
  refine ⟨⟨?_, ?_, ?_, ?_, ?_⟩, ⟨?_, ?_, ?_⟩, ?_, ?_, ?_, ⟨?_, ?_⟩, ?_⟩
  · exact List.nodup_nil
  · exact List.nodup_nil
  · simpa [initState, List.map_map, Function.comp_def] using h
  · intro t ht; cases ht
  · intro P hP; cases hP
  · intro t ht; cases ht
  · intro t ht; cases ht
  · intro co hco sk hsk
    simp only [initState, List.mem_map] at hco
    obtain ⟨i, _, rfl⟩ := hco
    cases hsk
  · intro P hP; cases hP
  · show sumOwned (initState ids) = occupiedCount (initState ids)
    simp only [sumOwned, occupiedCount, initState]
    rw [List.countP_eq_zero.mpr]
    · rfl
    · intro co hco
      simp only [List.mem_map] at hco
      obtain ⟨i, _, rfl⟩ := hco
      simp
  · intro P hP; cases hP
  · exact List.nodup_nil
  · intro c hc; cases hc
  · intro q hq pid hpid
    simp only [initState, List.mem_replicate] at hq
    rw [hq.2] at hpid
    cases hpid

end CoreArbiter

namespace CoreArbiter

open ThreadState

/-! ### Small auxiliary lemmas -/

theorem pendCount_congr {s s' : ServerState}
    (ho : ∀ c ∈ s.pendingReleaseCores, coreOwnerPid s' c = coreOwnerPid s c)
    (hp : s'.pendingReleaseCores = s.pendingReleaseCores)
    (pid : Nat) : pendCount s' pid = pendCount s pid := by
  unfold pendCount
  rw [hp]
  congr 1
  apply List.filter_congr
  intro c hc
  rw [ho c hc]

theorem unsatisfied_mem {s : ServerState} {pid p : Nat}
    (h : unsatisfiedDemand s pid p = true) : ∃ P ∈ s.processes, P.id = pid := by
  unfold unsatisfiedDemand at h
  cases hp : findProcess s pid with
  | none => rw [hp] at h; cases h
  | some P =>
    refine ⟨P, List.mem_of_find?_eq_some hp, ?_⟩
    have := List.find?_some hp
    simpa using this

/-- Queue membership re-evaluation does not touch threads, processes, cores or
pending releases, so it preserves the invariant. -/
theorem inv_updateQueueMembership {s : ServerState} (pid : Nat) (h : Inv s) :
    Inv (updateQueueMembership s pid) := by
  obtain ⟨hW, hL, hPP, hC, hG, hP, hQ⟩ := h
  refine ⟨hW, hL, hPP, hC, hG, hP, ?_⟩
  intro q hq pid2 hpid2
  simp only [updateQueueMembership, List.mem_map] at hq
  obtain ⟨e, he, rfl⟩ := hq
  have hqold : e.2 ∈ s.corePriorityQueues := snd_mem_of_mem_enum _ e he
  by_cases hu : unsatisfiedDemand s pid e.1 = true
  · rw [if_pos hu] at hpid2
    by_cases hmem : pid ∈ e.2
    · rw [if_pos hmem] at hpid2
      exact hQ e.2 hqold pid2 hpid2
    · rw [if_neg hmem] at hpid2
      rcases List.mem_append.mp hpid2 with h2 | h2
      · exact hQ e.2 hqold pid2 h2
      · have : pid2 = pid := List.mem_singleton.mp h2
        subst this
        exact unsatisfied_mem hu
  · rw [if_neg hu] at hpid2
    exact hQ e.2 hqold pid2 (List.mem_of_mem_erase hpid2)

/-- Registration preserves the invariant. -/
theorem inv_threadRegister {s : ServerState} (pid tid sk : Nat) (h : Inv s) :
    Inv (threadRegister s pid tid sk) := by
  obtain ⟨⟨hW1, hW2, hW4, hW3, hW5⟩, ⟨hL1, hL2, hL3⟩, hPP, hC, hG, ⟨hPn, hPo⟩, hQ⟩ := h
  unfold threadRegister
  cases hf : findThread s sk with
  | some t => exact ⟨⟨hW1, hW2, hW4, hW3, hW5⟩, ⟨hL1, hL2, hL3⟩, hPP, hC, hG, ⟨hPn, hPo⟩, hQ⟩
  | none =>
    have hfresh : ∀ t ∈ s.threads, t.socket ≠ sk := findThread_eq_none_iff.mp hf
    have hT : (ThreadInfo.make tid pid sk).socket = sk := rfl
    -- owner stability when the thread list is extended by a fresh socket
    have howner : ∀ (ps2 : List ProcessInfo) (c : Nat),
        coreOwnerPid { s with processes := ps2,
                              threads := s.threads ++ [ThreadInfo.make tid pid sk] } c
          = coreOwnerPid s c := by
      intro ps2 c
      unfold coreOwnerPid findCore findThread
      cases hfc : List.find? (fun co2 => decide (co2.id = c)) s.exclusiveCores with
      | none => rfl
      | some co2 =>
        cases hex2 : co2.exclusiveThread with
        | none => simp only [hex2]
        | some sk3 =>
          obtain ⟨t3, ht3, ht3sk, _, _⟩ :=
            hL3 co2 (List.mem_of_find?_eq_some hfc) sk3 hex2
          have hfind3 : List.find? (fun t => decide (t.socket = sk3)) s.threads = some t3 :=
            (findThread_eq_some_iff hW1).mpr ⟨ht3, ht3sk⟩
          have happ3 : List.find? (fun t => decide (t.socket = sk3))
              (s.threads ++ [ThreadInfo.make tid pid sk]) = some t3 := by
            rw [List.find?_append, hfind3]
            rfl
          simp only [hex2, hfind3, happ3]
    have hnodup1 : ∀ (l : List ThreadInfo), l = s.threads →
        ((l ++ [ThreadInfo.make tid pid sk]).map (fun t => t.socket)).Nodup := by
      rintro l rfl
      rw [List.map_append]
      refine hW1.append (List.nodup_singleton _) ?_
      intro a ha hb
      simp only [List.map_cons, List.map_nil, List.mem_singleton] at hb
      obtain ⟨t0, ht0, ht0a⟩ := List.mem_map.mp ha
      exact hfresh t0 ht0 (ht0a.trans hb)
    have hcount : ∀ (ps2 : List ProcessInfo) (q : Nat),
        exclThreadCount { s with processes := ps2,
                                 threads := s.threads ++ [ThreadInfo.make tid pid sk] } q
          = exclThreadCount s q := by
      intro ps2 q
      simp [exclThreadCount, List.countP_append, ThreadInfo.make]
    cases hp : findProcess s pid with
    | some P =>
      have hPmem : P ∈ s.processes := List.mem_of_find?_eq_some hp
      have hPid : P.id = pid := by simpa using List.find?_some hp
      show Inv { s with threads := s.threads ++ [ThreadInfo.make tid pid sk] }
      refine ⟨⟨hnodup1 _ rfl, hW2, hW4, ?_, ?_⟩, ⟨?_, ?_, ?_⟩, ?_, hC, ?_,
        ⟨hPn, hPo⟩, hQ⟩
      · intro t ht
        rcases List.mem_append.mp ht with h1 | h1
        · exact hW3 t h1
        · rw [List.mem_singleton.mp h1]
          exact ⟨P, hPmem, hPid⟩
      · intro P2 hP2
        obtain ⟨t0, ht0, ht0p⟩ := hW5 P2 hP2
        exact ⟨t0, List.mem_append_left _ ht0, ht0p⟩
      · intro t ht hst
        rcases List.mem_append.mp ht with h1 | h1
        · exact hL1 t h1 hst
        · rw [List.mem_singleton.mp h1] at hst
          cases hst
      · intro t ht hst
        rcases List.mem_append.mp ht with h1 | h1
        · exact hL2 t h1 hst
        · rw [List.mem_singleton.mp h1]
          rfl
      · intro co hco sk2 hsk2
        obtain ⟨t0, ht0, h1, h2, h3⟩ := hL3 co hco sk2 hsk2
        exact ⟨t0, List.mem_append_left _ ht0, h1, h2, h3⟩
      · intro P2 hP2
        rw [hcount s.processes P2.id]
        exact hPP P2 hP2
      · intro P2 hP2
        refine ⟨(hG P2 hP2).1, ?_⟩
        have := (hG P2 hP2).2
        rwa [pendCount_congr (fun c _ => howner s.processes c) rfl P2.id]
    | none =>
      have hpfresh : ∀ P ∈ s.processes, P.id ≠ pid := findProcess_eq_none_iff.mp hp
      show Inv { s with processes := s.processes ++ [ProcessInfo.make pid],
                        threads := s.threads ++ [ThreadInfo.make tid pid sk] }
      have hzero : exclThreadCount s pid = 0 := by
        rw [exclThreadCount, List.countP_eq_zero]
        intro t ht
        simp only [decide_eq_true_eq, not_and]
        intro hpid2
        obtain ⟨P2, hP2, hP2id⟩ := hW3 t ht
        exact absurd (hP2id.trans hpid2) (hpfresh P2 hP2)
      refine ⟨⟨hnodup1 _ rfl, ?_, hW4, ?_, ?_⟩, ⟨?_, ?_, ?_⟩, ?_, ?_, ?_,
        ⟨hPn, hPo⟩, ?_⟩
      · rw [List.map_append]
        refine hW2.append (List.nodup_singleton _) ?_
        intro a ha hb
        simp only [List.map_cons, List.map_nil, List.mem_singleton] at hb
        obtain ⟨P2, hP2, hP2a⟩ := List.mem_map.mp ha
        exact hpfresh P2 hP2 (hP2a.trans hb)
      · intro t ht
        rcases List.mem_append.mp ht with h1 | h1
        · obtain ⟨P2, hP2, hP2id⟩ := hW3 t h1
          exact ⟨P2, List.mem_append_left _ hP2, hP2id⟩
        · rw [List.mem_singleton.mp h1]
          exact ⟨ProcessInfo.make pid, List.mem_append_right _ (List.mem_singleton.mpr rfl), rfl⟩
      · intro P2 hP2
        rcases List.mem_append.mp hP2 with h1 | h1
        · obtain ⟨t0, ht0, ht0p⟩ := hW5 P2 h1
          exact ⟨t0, List.mem_append_left _ ht0, ht0p⟩
        · rw [List.mem_singleton.mp h1]
          exact ⟨ThreadInfo.make tid pid sk,
            List.mem_append_right _ (List.mem_singleton.mpr rfl), rfl⟩
      · intro t ht hst
        rcases List.mem_append.mp ht with h1 | h1
        · exact hL1 t h1 hst
        · rw [List.mem_singleton.mp h1] at hst
          cases hst
      · intro t ht hst
        rcases List.mem_append.mp ht with h1 | h1
        · exact hL2 t h1 hst
        · rw [List.mem_singleton.mp h1]
          rfl
      · intro co hco sk2 hsk2
        obtain ⟨t0, ht0, h1, h2, h3⟩ := hL3 co hco sk2 hsk2
        exact ⟨t0, List.mem_append_left _ ht0, h1, h2, h3⟩
      · intro P2 hP2
        rcases List.mem_append.mp hP2 with h1 | h1
        · rw [hcount _ P2.id]
          exact hPP P2 h1
        · rw [List.mem_singleton.mp h1, hcount _ (ProcessInfo.make pid).id]
          show (0 : Nat) = exclThreadCount s pid
          exact hzero.symm
      · show sumOwned _ = occupiedCount _
        have h1 : sumOwned { s with processes := s.processes ++ [ProcessInfo.make pid],
                                    threads := s.threads ++ [ThreadInfo.make tid pid sk] }
            = sumOwned s := by
          simp [sumOwned, ProcessInfo.make]
        rw [h1]
        exact hC
      · intro P2 hP2
        rcases List.mem_append.mp hP2 with h1 | h1
        · refine ⟨(hG P2 h1).1, ?_⟩
          have := (hG P2 h1).2
          rwa [pendCount_congr (fun c _ => howner (s.processes ++ [ProcessInfo.make pid]) c) rfl P2.id]
        · rw [List.mem_singleton.mp h1]
          exact ⟨Nat.le_refl _, Nat.zero_le _⟩
      · intro q hq pid2 hpid2
        obtain ⟨P2, hP2, hP2id⟩ := hQ q hq pid2 hpid2
        exact ⟨P2, List.mem_append_left _ hP2, hP2id⟩

end CoreArbiter

namespace CoreArbiter

open ThreadState

theorem updKey_updKey {α : Type} (key : α → Nat) (k : Nat) (f g : α → α)
    (hf : ∀ x, key (f x) = key x) (l : List α) :
    updKey key k g (updKey key k f l) = updKey key k (fun x => g (f x)) l := by
  induction l with
  | nil => rfl
  | cons a l ih =>
    simp only [updKey, List.map_cons] at *
    rw [ih]
    by_cases hk : key a = k
    · have h2 : key (f a) = k := (hf a).trans hk
      rw [if_pos hk, if_pos h2, if_pos hk]
    · rw [if_neg hk, if_neg hk, if_neg hk]

theorem exists_updKey_key {α : Type} (key : α → Nat) (k : Nat) (f : α → α)
    (hf : ∀ x, key (f x) = key x) {l : List α} {x : α} (hx : x ∈ l) :
    ∃ y ∈ updKey key k f l, key y = key x := by
  refine ⟨if key x = k then f x else x, mem_updKey_of_mem key k f hx, ?_⟩
  by_cases h : key x = k
  · rw [if_pos h, hf]
  · rw [if_neg h]

theorem length_filter_erase_of_neg {c : Nat} {p : Nat → Bool}
    (hc : ¬ p c = true) :
    ∀ (l : List Nat), ((l.erase c).filter p).length = (l.filter p).length := by
  intro l
  induction l with
  | nil => rfl
  | cons a l ih =>
    rw [List.erase_cons]
    by_cases hac : a = c
    · subst hac
      rw [if_pos (by simp)]
      rw [List.filter_cons]
      rw [if_neg hc]
    · rw [if_neg (by simp [hac])]
      rw [List.filter_cons, List.filter_cons]
      by_cases hpa : p a = true
      · rw [if_pos hpa, if_pos hpa]
        simp [ih]
      · rw [if_neg hpa, if_neg hpa]
        exact ih

theorem length_filter_le_filter_erase_add_one {c : Nat} {p : Nat → Bool} :
    ∀ (l : List Nat), (l.filter p).length ≤ ((l.erase c).filter p).length + 1 := by
  intro l
  induction l with
  | nil => simp
  | cons a l ih =>
    rw [List.erase_cons]
    by_cases hac : a = c
    · subst hac
      rw [if_pos (by simp), List.filter_cons]
      by_cases hpa : p a = true
      · rw [if_pos hpa]
        simp
      · rw [if_neg hpa]
        exact Nat.le_succ_of_le (Nat.le_refl _)
    · rw [if_neg (by simp [hac]), List.filter_cons, List.filter_cons]
      by_cases hpa : p a = true
      · rw [if_pos hpa, if_pos hpa]
        simpa using ih
      · rw [if_neg hpa, if_neg hpa]
        exact ih

/-- The evict function written out as a single record update. -/
theorem evictCore_eq {s : ServerState} {sk c : Nat} {t : ThreadInfo}
    (st : ThreadState) (hft : findThread s sk = some t) (htc : t.core = some c) :
    evictCore s sk st =
      { s with
        processes := updKey (fun P => P.id) t.processId
          (fun P => { P with totalCoresOwned := P.totalCoresOwned - 1,
                             coreReleaseCount :=
                               if P.coreReleaseCount < P.coreReleaseRequestCount then
                                 P.coreReleaseCount + 1
                               else P.coreReleaseCount }) s.processes,
        threads := updKey (fun u => u.socket) sk
          (fun u => { u with core := none, state := st }) s.threads,
        exclusiveCores := updKey (fun co => co.id) c
          (fun co => { co with exclusiveThread := none }) s.exclusiveCores,
        pendingReleaseCores := s.pendingReleaseCores.erase c,
        grantedAt := alistRemove s.grantedAt c } := by
  have hft1 : findThread (updateProcess s t.processId
      (fun P => { P with totalCoresOwned := P.totalCoresOwned - 1,
                         coreReleaseCount :=
                           if P.coreReleaseCount < P.coreReleaseRequestCount then
                             P.coreReleaseCount + 1
                           else P.coreReleaseCount })) sk = some t := hft
  unfold evictCore
  rw [hft]
  simp only [htc]
  unfold removeThreadFromExclusiveCore
  rw [hft1]
  simp only [htc]
  unfold changeThreadState updateThread updateCore updateProcess
  simp only
  congr 1
  exact updKey_updKey (fun u : ThreadInfo => u.socket) sk
    (fun u => { u with core := none })
    (fun t => { t with state := st })
    (fun x => rfl) s.threads

end CoreArbiter

namespace CoreArbiter

open ThreadState

theorem find?_key_updKey {α : Type} (key : α → Nat) (k : Nat) (f : α → α)
    (hf : ∀ x, key (f x) = key x) {l : List α} (hN : (l.map key).Nodup)
    {k' : Nat} (hk : k' ≠ k) :
    (updKey key k f l).find? (fun x => decide (key x = k'))
      = l.find? (fun x => decide (key x = k')) := by
  have hN' : ((updKey key k f l).map key).Nodup := by
    rw [map_key_updKey key k f hf]
    exact hN
  cases hfind : l.find? (fun x => decide (key x = k')) with
  | none =>
    have hall := (find?_key_eq_none_iff key l k').mp hfind
    apply (find?_key_eq_none_iff key (updKey key k f l) k').mpr
    intro y hy
    obtain ⟨x, hx, rfl⟩ := mem_updKey_iff.mp hy
    by_cases hxk : key x = k
    · rw [if_pos hxk, hf]
      exact hall x hx
    · rw [if_neg hxk]
      exact hall x hx
  | some u =>
    obtain ⟨hu, huk⟩ := (find?_key_eq_some_iff key hN k' u).mp hfind
    apply (find?_key_eq_some_iff key hN' k' u).mpr
    refine ⟨?_, huk⟩
    have := mem_updKey_of_mem key k f hu
    rwa [if_neg (huk ▸ hk : key u ≠ k)] at this

/-- Evicting an exclusive thread preserves the invariant. -/
theorem inv_evictCore {s : ServerState} {sk : Nat} {t : ThreadInfo}
    {st : ThreadState} (hst : st ≠ RUNNING_EXCLUSIVE) (h : Inv s)
    (ht : t ∈ s.threads) (htsk : t.socket = sk)
    (htex : t.state = RUNNING_EXCLUSIVE) :
    Inv (evictCore s sk st) := by
  obtain ⟨⟨hW1, hW2, hW4, hW3, hW5⟩, ⟨hL1, hL2, hL3⟩, hPP, hC, hG, ⟨hPn, hPo⟩, hQ⟩ := h
  obtain ⟨co, hcomem, htc, hcoex⟩ := hL1 t ht htex
  have hft : findThread s sk = some t := (findThread_eq_some_iff hW1).mpr ⟨ht, htsk⟩
  have hEq := evictCore_eq st hft htc
  have huniqT : ∀ u ∈ s.threads, ∀ v ∈ s.threads, u.socket = v.socket → u = v :=
    fun u hu v hv he => nodup_key_eq _ hW1 hu hv he
  have huniqC : ∀ d ∈ s.exclusiveCores, ∀ e ∈ s.exclusiveCores, d.id = e.id → d = e :=
    fun d hd e he hi => nodup_key_eq _ hW4 hd he hi
  have hnoOther : ∀ d ∈ s.exclusiveCores, ∀ sk2, d.exclusiveThread = some sk2 →
      sk2 = t.socket → d = co := by
    intro d hd sk2 hex heq
    obtain ⟨u, hu, husk, _, huco⟩ := hL3 d hd sk2 hex
    have hut : u = t := huniqT u hu t ht (husk.trans heq)
    subst hut
    have : d.id = co.id := by
      rw [huco] at htc
      exact (Option.some.injEq _ _).mp htc
    exact huniqC d hd co hcomem this
  obtain ⟨Pt, hPtmem, hPtid⟩ := hW3 t ht
  obtain ⟨m1, m2, hm⟩ := List.append_of_mem ht
  obtain ⟨p1, p2, hp⟩ := List.append_of_mem hPtmem
  obtain ⟨c1, c2, hcs⟩ := List.append_of_mem hcomem
  have hthDec : updKey (fun u : ThreadInfo => u.socket) sk
      (fun u => { u with core := none, state := st }) s.threads
      = m1 ++ { t with core := none, state := st } :: m2 := by
    rw [hm, ← htsk]
    exact updKey_append_cons (fun u : ThreadInfo => u.socket) _ (hm ▸ hW1)
  have hprDec : updKey (fun P : ProcessInfo => P.id) t.processId
      (fun P => { P with totalCoresOwned := P.totalCoresOwned - 1,
                         coreReleaseCount :=
                           if P.coreReleaseCount < P.coreReleaseRequestCount then
                             P.coreReleaseCount + 1
                           else P.coreReleaseCount }) s.processes
      = p1 ++ { Pt with totalCoresOwned := Pt.totalCoresOwned - 1,
                        coreReleaseCount :=
                          if Pt.coreReleaseCount < Pt.coreReleaseRequestCount then
                            Pt.coreReleaseCount + 1
                          else Pt.coreReleaseCount } :: p2 := by
    rw [hp, ← hPtid]
    exact updKey_append_cons (fun P : ProcessInfo => P.id) _ (hp ▸ hW2)
  have hcoDec : updKey (fun d : CoreInfo => d.id) co.id
      (fun d => { d with exclusiveThread := none }) s.exclusiveCores
      = c1 ++ { co with exclusiveThread := none } :: c2 := by
    rw [hcs]
    exact updKey_append_cons (fun d : CoreInfo => d.id) _ (hcs ▸ hW4)
  have hthU : (evictCore s sk st).threads
      = updKey (fun u : ThreadInfo => u.socket) sk
        (fun u => { u with core := none, state := st }) s.threads := by
    rw [hEq]
  have hprU : (evictCore s sk st).processes
      = updKey (fun P : ProcessInfo => P.id) t.processId
        (fun P => { P with totalCoresOwned := P.totalCoresOwned - 1,
                           coreReleaseCount :=
                             if P.coreReleaseCount < P.coreReleaseRequestCount then
                               P.coreReleaseCount + 1
                             else P.coreReleaseCount }) s.processes := by
    rw [hEq]
  have hcoU : (evictCore s sk st).exclusiveCores
      = updKey (fun d : CoreInfo => d.id) co.id
        (fun d => { d with exclusiveThread := none }) s.exclusiveCores := by
    rw [hEq]
  have hpdU : (evictCore s sk st).pendingReleaseCores
      = s.pendingReleaseCores.erase co.id := by
    rw [hEq]
  have hquU : (evictCore s sk st).corePriorityQueues = s.corePriorityQueues := by
    rw [hEq]
  have hthE : (evictCore s sk st).threads
      = m1 ++ { t with core := none, state := st } :: m2 := hthU.trans hthDec
  have hprE : (evictCore s sk st).processes
      = p1 ++ { Pt with totalCoresOwned := Pt.totalCoresOwned - 1,
                        coreReleaseCount :=
                          if Pt.coreReleaseCount < Pt.coreReleaseRequestCount then
                            Pt.coreReleaseCount + 1
                          else Pt.coreReleaseCount } :: p2 := hprU.trans hprDec
  have hcoE : (evictCore s sk st).exclusiveCores
      = c1 ++ { co with exclusiveThread := none } :: c2 := hcoU.trans hcoDec
  have hprIm : ∀ P2 ∈ s.processes,
      ∃ P' ∈ (evictCore s sk st).processes, P'.id = P2.id := by
    intro P2 hP2
    rw [hprU]
    exact exists_updKey_key (fun P : ProcessInfo => P.id) t.processId
      (fun P => { P with totalCoresOwned := P.totalCoresOwned - 1,
                         coreReleaseCount :=
                           if P.coreReleaseCount < P.coreReleaseRequestCount then
                             P.coreReleaseCount + 1
                           else P.coreReleaseCount })
      (fun x => rfl) hP2
  have hthIm : ∀ u ∈ s.threads, ∃ u' ∈ (evictCore s sk st).threads,
      u'.processId = u.processId := by
    intro u hu
    rw [hthU]
    refine ⟨if u.socket = sk then { u with core := none, state := st } else u,
      mem_updKey_of_mem _ _ _ hu, ?_⟩
    by_cases h2 : u.socket = sk
    · rw [if_pos h2]
    · rw [if_neg h2]
  have hcnt : ∀ q : Nat, exclThreadCount s q
      = exclThreadCount (evictCore s sk st) q
        + (if t.processId = q then 1 else 0) := by
    intro q
    unfold exclThreadCount
    rw [hthE, hm]
    rw [List.countP_append, List.countP_append, List.countP_cons, List.countP_cons]
    have h2 : (decide (({ t with core := none, state := st } : ThreadInfo).processId = q ∧
        ({ t with core := none, state := st } : ThreadInfo).state = RUNNING_EXCLUSIVE)) = false := by
      simp only [decide_eq_false_iff_not]
      rintro ⟨-, h3⟩
      exact hst h3
    by_cases hq : t.processId = q
    · have h1 : (decide (t.processId = q ∧ t.state = RUNNING_EXCLUSIVE)) = true := by
        simp [hq, htex]
      rw [h1, h2, if_pos rfl, if_neg Bool.false_ne_true, if_pos hq]
      omega
    · have h1 : (decide (t.processId = q ∧ t.state = RUNNING_EXCLUSIVE)) = false := by
        simp [hq]
      rw [h1, h2, if_neg Bool.false_ne_true, if_neg hq]
      omega
  have hownerC : coreOwnerPid s co.id = some t.processId := by
    have h1 : findCore s co.id = some co := (findCore_eq_some_iff hW4).mpr ⟨hcomem, rfl⟩
    have h2 : findThread s t.socket = some t := (findThread_eq_some_iff hW1).mpr ⟨ht, rfl⟩
    unfold coreOwnerPid
    rw [h1]
    simp only [hcoex, h2, Option.map_some']
  have hownerEq : ∀ c', c' ≠ co.id →
      coreOwnerPid (evictCore s sk st) c' = coreOwnerPid s c' := by
    intro c' hne
    have hfc : findCore (evictCore s sk st) c' = findCore s c' := by
      show (evictCore s sk st).exclusiveCores.find? _ = _
      rw [hcoU]
      exact find?_key_updKey (fun d : CoreInfo => d.id) co.id
        (fun d => { d with exclusiveThread := none }) (fun x => rfl) hW4 hne
    unfold coreOwnerPid
    rw [hfc]
    cases hfind : findCore s c' with
    | none => rfl
    | some d =>
      cases hex2 : d.exclusiveThread with
      | none => simp only [hex2]
      | some sk2 =>
        have hd : d ∈ s.exclusiveCores := List.mem_of_find?_eq_some hfind
        have hdid : d.id = c' := by simpa using List.find?_some hfind
        have hsk2 : sk2 ≠ sk := by
          intro h3
          have hdco : d = co := hnoOther d hd sk2 hex2 (h3.trans htsk.symm)
          apply hne
          rw [← hdid, hdco]
        have hgt : findThread (evictCore s sk st) sk2 = findThread s sk2 := by
          show (evictCore s sk st).threads.find? _ = _
          rw [hthU]
          exact find?_key_updKey (fun u : ThreadInfo => u.socket) sk
            (fun u => { u with core := none, state := st })
            (fun x => rfl) hW1 hsk2
        simp only [hex2, hgt]
  have hpend : ∀ q : Nat, pendCount (evictCore s sk st) q
      = ((s.pendingReleaseCores.erase co.id).filter
          (fun c' => decide (coreOwnerPid s c' = some q))).length := by
    intro q
    unfold pendCount
    rw [hpdU]
    congr 1
    apply List.filter_congr
    intro c' hc'
    have h3 : c' ≠ co.id := ((List.Nodup.mem_erase_iff hPn).mp hc').1
    rw [hownerEq c' h3]
  refine ⟨⟨?_, ?_, ?_, ?_, ?_⟩, ⟨?_, ?_, ?_⟩, ?_, ?_, ?_, ⟨?_, ?_⟩, ?_⟩
  · rw [hthU, map_key_updKey (fun u : ThreadInfo => u.socket) sk
      (fun u => { u with core := none, state := st }) (fun x => rfl)]
    exact hW1
  · rw [hprU, map_key_updKey (fun P : ProcessInfo => P.id) t.processId
      (fun P => { P with totalCoresOwned := P.totalCoresOwned - 1,
                         coreReleaseCount :=
                           if P.coreReleaseCount < P.coreReleaseRequestCount then
                             P.coreReleaseCount + 1
                           else P.coreReleaseCount }) (fun x => rfl)]
    exact hW2
  · rw [hcoU, map_key_updKey (fun d : CoreInfo => d.id) co.id
      (fun d => { d with exclusiveThread := none }) (fun x => rfl)]
    exact hW4
  · intro u' hu'
    rw [hthU] at hu'
    obtain ⟨u, hu, rfl⟩ := mem_updKey_iff.mp hu'
    obtain ⟨P2, hP2, hP2id⟩ := hW3 u hu
    obtain ⟨P', hP', hP'id⟩ := hprIm P2 hP2
    refine ⟨P', hP', ?_⟩
    rw [hP'id, hP2id]
    by_cases h2 : u.socket = sk
    · rw [if_pos h2]
    · rw [if_neg h2]
  · intro P' hP'
    rw [hprU] at hP'
    obtain ⟨P2, hP2, rfl⟩ := mem_updKey_iff.mp hP'
    obtain ⟨u, hu, hupid⟩ := hW5 P2 hP2
    obtain ⟨u', hu', hu'pid⟩ := hthIm u hu
    refine ⟨u', hu', ?_⟩
    rw [hu'pid, hupid]
    by_cases h2 : P2.id = t.processId
    · rw [if_pos h2]
    · rw [if_neg h2]
  · intro u' hu' hstate
    rw [hthU] at hu'
    obtain ⟨u, hu, rfl⟩ := mem_updKey_iff.mp hu'
    by_cases h2 : u.socket = sk
    · rw [if_pos h2] at hstate
      exact absurd hstate hst
    · rw [if_neg h2] at hstate ⊢
      obtain ⟨d, hd, hdc, hdex⟩ := hL1 u hu hstate
      have hdne : d.id ≠ co.id := by
        intro hdid
        have hdco : d = co := huniqC d hd co hcomem hdid
        subst hdco
        rw [hdex] at hcoex
        have h4 : u.socket = t.socket := by injection hcoex
        exact h2 (h4.trans htsk)
      rw [hcoU]
      refine ⟨d, ?_, hdc, hdex⟩
      have h5 := mem_updKey_of_mem (fun d : CoreInfo => d.id) co.id
        (fun d => { d with exclusiveThread := none }) hd
      rwa [if_neg hdne] at h5
  · intro u' hu' hstate
    rw [hthU] at hu'
    obtain ⟨u, hu, rfl⟩ := mem_updKey_iff.mp hu'
    by_cases h2 : u.socket = sk
    · rw [if_pos h2]
    · rw [if_neg h2] at hstate ⊢
      exact hL2 u hu hstate
  · intro co' hco' sk2 hex2
    rw [hcoU] at hco'
    obtain ⟨d, hd, rfl⟩ := mem_updKey_iff.mp hco'
    by_cases h2 : d.id = co.id
    · rw [if_pos h2] at hex2
      simp at hex2
    · rw [if_neg h2] at hex2 ⊢
      obtain ⟨u, hu, husk, hust, huco⟩ := hL3 d hd sk2 hex2
      have hune : u.socket ≠ sk := by
        intro h3
        have hut : u = t := huniqT u hu t ht (h3.trans htsk.symm)
        subst hut
        rw [htc] at huco
        have h4 : co.id = d.id := by injection huco
        exact h2 h4.symm
      rw [hthU]
      refine ⟨u, ?_, husk, hust, huco⟩
      have h5 := mem_updKey_of_mem (fun u : ThreadInfo => u.socket) sk
        (fun u => { u with core := none, state := st }) hu
      rwa [if_neg hune] at h5
  · intro P' hP'
    rw [hprU] at hP'
    obtain ⟨P2, hP2, rfl⟩ := mem_updKey_iff.mp hP'
    have h3 := hPP P2 hP2
    have h4 := hcnt P2.id
    by_cases h2 : P2.id = t.processId
    · rw [if_pos h2]
      rw [if_pos h2.symm] at h4
      show P2.totalCoresOwned - 1 = exclThreadCount (evictCore s sk st) P2.id
      omega
    · rw [if_neg h2]
      rw [if_neg (fun h0 => h2 h0.symm)] at h4
      show P2.totalCoresOwned = exclThreadCount (evictCore s sk st) P2.id
      omega
  · show sumOwned (evictCore s sk st) = occupiedCount (evictCore s sk st)
    have hPtown : Pt.totalCoresOwned = exclThreadCount s Pt.id := hPP Pt hPtmem
    have h4 := hcnt Pt.id
    rw [if_pos hPtid.symm] at h4
    have h7 : 1 ≤ Pt.totalCoresOwned := by omega
    have hsum : sumOwned (evictCore s sk st) + 1 = sumOwned s := by
      unfold sumOwned
      rw [hprE, hp]
      simp only [List.map_append, List.map_cons, List.sum_append, List.sum_cons]
      omega
    have hocc : occupiedCount (evictCore s sk st) + 1 = occupiedCount s := by
      unfold occupiedCount
      rw [hcoE, hcs]
      rw [List.countP_append, List.countP_append, List.countP_cons, List.countP_cons]
      have h5 : (decide (({ co with exclusiveThread := none } : CoreInfo).exclusiveThread
          ≠ none)) = false := by simp
      have h6 : (decide (co.exclusiveThread ≠ none)) = true := by simp [hcoex]
      rw [h5, h6, if_neg Bool.false_ne_true, if_pos rfl]
      omega
    have h8 := hC
    unfold CountInv at h8
    omega
  · intro P' hP'
    rw [hprU] at hP'
    obtain ⟨P2, hP2, rfl⟩ := mem_updKey_iff.mp hP'
    obtain ⟨hg1, hg2⟩ := hG P2 hP2
    have h5 : (s.pendingReleaseCores.filter
          (fun c' => decide (coreOwnerPid s c' = some P2.id))).length
        ≤ ((s.pendingReleaseCores.erase co.id).filter
          (fun c' => decide (coreOwnerPid s c' = some P2.id))).length + 1 :=
      length_filter_le_filter_erase_add_one _
    have h6 : pendCount s P2.id = (s.pendingReleaseCores.filter
        (fun c' => decide (coreOwnerPid s c' = some P2.id))).length := rfl
    by_cases h2 : P2.id = t.processId
    · rw [if_pos h2]
      show (if P2.coreReleaseCount < P2.coreReleaseRequestCount then
          P2.coreReleaseCount + 1 else P2.coreReleaseCount)
          ≤ P2.coreReleaseRequestCount ∧
        P2.coreReleaseRequestCount -
          (if P2.coreReleaseCount < P2.coreReleaseRequestCount then
            P2.coreReleaseCount + 1 else P2.coreReleaseCount)
          ≤ pendCount (evictCore s sk st) P2.id
      rw [hpend P2.id]
      by_cases hlt : P2.coreReleaseCount < P2.coreReleaseRequestCount
      · rw [if_pos hlt]
        constructor
        · omega
        · omega
      · rw [if_neg hlt]
        constructor
        · exact hg1
        · omega
    · rw [if_neg h2]
      refine ⟨hg1, ?_⟩
      rw [hpend P2.id]
      have hcp : ¬ (fun c' => decide (coreOwnerPid s c' = some P2.id)) co.id = true := by
        simp only [decide_eq_true_eq, hownerC]
        intro hh
        injection hh with hh2
        exact h2 hh2.symm
      rw [length_filter_erase_of_neg hcp]
      exact hg2
  · rw [hpdU]
    exact hPn.erase _
  · intro c' hc'
    rw [hpdU] at hc'
    have h3 := (List.Nodup.mem_erase_iff hPn).mp hc'
    obtain ⟨d, hd, hdid, hdex⟩ := hPo c' h3.2
    have hdne : d.id ≠ co.id := by
      rw [hdid]
      exact h3.1
    rw [hcoU]
    refine ⟨d, ?_, hdid, hdex⟩
    have h5 := mem_updKey_of_mem (fun d : CoreInfo => d.id) co.id
      (fun d => { d with exclusiveThread := none }) hd
    rwa [if_neg hdne] at h5
  · intro q hq pid2 hpid2
    rw [hquU] at hq
    obtain ⟨P2, hP2, hP2id⟩ := hQ q hq pid2 hpid2
    obtain ⟨P', hP', hP'id⟩ := hprIm P2 hP2
    exact ⟨P', hP', hP'id.trans hP2id⟩

end CoreArbiter

namespace CoreArbiter

open ThreadState

/-- Changing a non-exclusive thread's state to another non-exclusive state
preserves the invariant. -/
theorem inv_changeNonExcl {s : ServerState} {sk : Nat} {t : ThreadInfo}
    {st : ThreadState} (h : Inv s) (ht : t ∈ s.threads) (htsk : t.socket = sk)
    (hold : t.state ≠ RUNNING_EXCLUSIVE) (hnew : st ≠ RUNNING_EXCLUSIVE) :
    Inv (changeThreadState s sk st) := by
  obtain ⟨⟨hW1, hW2, hW4, hW3, hW5⟩, ⟨hL1, hL2, hL3⟩, hPP, hC, hG, ⟨hPn, hPo⟩, hQ⟩ := h
  have huniqT : ∀ u ∈ s.threads, ∀ v ∈ s.threads, u.socket = v.socket → u = v :=
    fun u hu v hv he => nodup_key_eq _ hW1 hu hv he
  have hthU : (changeThreadState s sk st).threads
      = updKey (fun u : ThreadInfo => u.socket) sk
        (fun u => { u with state := st }) s.threads := rfl
  obtain ⟨m1, m2, hm⟩ := List.append_of_mem ht
  have hthE : (changeThreadState s sk st).threads
      = m1 ++ { t with state := st } :: m2 := by
    rw [hthU, hm, ← htsk]
    exact updKey_append_cons (fun u : ThreadInfo => u.socket) _ (hm ▸ hW1)
  have hOwnSk : ∀ co ∈ s.exclusiveCores, ∀ sk2, co.exclusiveThread = some sk2 →
      sk2 ≠ sk := by
    intro co hco sk2 hex h3
    obtain ⟨u, hu, husk, hust, _⟩ := hL3 co hco sk2 hex
    have hut : u = t := huniqT u hu t ht (husk.trans (h3.trans htsk.symm))
    rw [hut] at hust
    exact hold hust
  have howner : ∀ c', coreOwnerPid (changeThreadState s sk st) c'
      = coreOwnerPid s c' := by
    intro c'
    unfold coreOwnerPid
    have hfc : findCore (changeThreadState s sk st) c' = findCore s c' := rfl
    rw [hfc]
    cases hfind : findCore s c' with
    | none => rfl
    | some d =>
      cases hex2 : d.exclusiveThread with
      | none => simp only [hex2]
      | some sk2 =>
        have hsk2 : sk2 ≠ sk :=
          hOwnSk d (List.mem_of_find?_eq_some hfind) sk2 hex2
        have hgt : findThread (changeThreadState s sk st) sk2 = findThread s sk2 := by
          show (changeThreadState s sk st).threads.find? _ = _
          rw [hthU]
          exact find?_key_updKey (fun u : ThreadInfo => u.socket) sk
            (fun u => { u with state := st }) (fun x => rfl) hW1 hsk2
        simp only [hex2, hgt]
  have hcnt : ∀ q : Nat, exclThreadCount (changeThreadState s sk st) q
      = exclThreadCount s q := by
    intro q
    unfold exclThreadCount
    rw [hthE, hm]
    rw [List.countP_append, List.countP_append, List.countP_cons, List.countP_cons]
    have h1 : (decide (({ t with state := st } : ThreadInfo).processId = q ∧
        ({ t with state := st } : ThreadInfo).state = RUNNING_EXCLUSIVE)) = false := by
      simp only [decide_eq_false_iff_not]
      rintro ⟨-, h3⟩
      exact hnew h3
    have h2 : (decide (t.processId = q ∧ t.state = RUNNING_EXCLUSIVE)) = false := by
      simp only [decide_eq_false_iff_not]
      rintro ⟨-, h3⟩
      exact hold h3
    rw [h1, h2]
  refine ⟨⟨?_, hW2, hW4, ?_, ?_⟩, ⟨?_, ?_, ?_⟩, ?_, hC, ?_, ⟨hPn, hPo⟩, hQ⟩
  · rw [hthU, map_key_updKey (fun u : ThreadInfo => u.socket) sk
      (fun u => { u with state := st }) (fun x => rfl)]
    exact hW1
  · intro u' hu'
    rw [hthU] at hu'
    obtain ⟨u, hu, rfl⟩ := mem_updKey_iff.mp hu'
    obtain ⟨P2, hP2, hP2id⟩ := hW3 u hu
    refine ⟨P2, hP2, ?_⟩
    rw [hP2id]
    by_cases h2 : u.socket = sk
    · rw [if_pos h2]
    · rw [if_neg h2]
  · intro P2 hP2
    obtain ⟨u, hu, hupid⟩ := hW5 P2 hP2
    rw [hthU]
    refine ⟨if u.socket = sk then { u with state := st } else u,
      mem_updKey_of_mem _ _ _ hu, ?_⟩
    by_cases h2 : u.socket = sk
    · rw [if_pos h2]
      exact hupid
    · rw [if_neg h2]
      exact hupid
  · intro u' hu' hstate
    rw [hthU] at hu'
    obtain ⟨u, hu, rfl⟩ := mem_updKey_iff.mp hu'
    by_cases h2 : u.socket = sk
    · rw [if_pos h2] at hstate
      exact absurd hstate hnew
    · rw [if_neg h2] at hstate ⊢
      exact hL1 u hu hstate
  · intro u' hu' hstate
    rw [hthU] at hu'
    obtain ⟨u, hu, rfl⟩ := mem_updKey_iff.mp hu'
    by_cases h2 : u.socket = sk
    · rw [if_pos h2]
      show u.core = none
      have hut : u = t := huniqT u hu t ht (h2.trans htsk.symm)
      rw [hut]
      exact hL2 t ht hold
    · rw [if_neg h2] at hstate ⊢
      exact hL2 u hu hstate
  · intro co hco sk2 hex2
    obtain ⟨u, hu, husk, hust, huco⟩ := hL3 co hco sk2 hex2
    have hsk2 : sk2 ≠ sk := hOwnSk co hco sk2 hex2
    rw [hthU]
    refine ⟨u, ?_, husk, hust, huco⟩
    have h5 := mem_updKey_of_mem (fun u : ThreadInfo => u.socket) sk
      (fun u => { u with state := st }) hu
    rwa [if_neg (husk ▸ hsk2 : u.socket ≠ sk)] at h5
  · intro P2 hP2
    rw [hcnt P2.id]
    exact hPP P2 hP2
  · intro P2 hP2
    refine ⟨(hG P2 hP2).1, ?_⟩
    have := (hG P2 hP2).2
    rwa [pendCount_congr (fun c _ => howner c) rfl P2.id]

/-- Granting a free core to a BLOCKED session preserves the invariant. -/
theorem inv_grantCore {s : ServerState} {sk c p pid : Nat} {t : ThreadInfo}
    {co : CoreInfo} (h : Inv s)
    (ht : t ∈ s.threads) (htsk : t.socket = sk) (htst : t.state = BLOCKED)
    (htpid : t.processId = pid)
    (hco : co ∈ s.exclusiveCores) (hcid : co.id = c)
    (hfree : co.exclusiveThread = none) :
    Inv (grantCore s c p pid sk) := by
  apply inv_updateQueueMembership
  obtain ⟨⟨hW1, hW2, hW4, hW3, hW5⟩, ⟨hL1, hL2, hL3⟩, hPP, hC, hG, ⟨hPn, hPo⟩, hQ⟩ := h
  have huniqT : ∀ u ∈ s.threads, ∀ v ∈ s.threads, u.socket = v.socket → u = v :=
    fun u hu v hv he => nodup_key_eq _ hW1 hu hv he
  have huniqC : ∀ d ∈ s.exclusiveCores, ∀ e ∈ s.exclusiveCores, d.id = e.id → d = e :=
    fun d hd e he hi => nodup_key_eq _ hW4 hd he hi
  have htcore : t.core = none := hL2 t ht (by rw [htst]; intro h2; cases h2)
  have hNoPoint : ∀ d ∈ s.exclusiveCores, ∀ sk2, d.exclusiveThread = some sk2 →
      sk2 ≠ sk := by
    intro d hd sk2 hex h3
    obtain ⟨u, hu, husk, hust, _⟩ := hL3 d hd sk2 hex
    have hut : u = t := huniqT u hu t ht (husk.trans (h3.trans htsk.symm))
    rw [hut, htst] at hust
    cases hust
  obtain ⟨Pt, hPtmem, hPtid⟩ := hW3 t ht
  have hPtpid : Pt.id = pid := hPtid.trans htpid
  obtain ⟨m1, m2, hm⟩ := List.append_of_mem ht
  obtain ⟨p1, p2, hp⟩ := List.append_of_mem hPtmem
  obtain ⟨c1, c2, hcs⟩ := List.append_of_mem hco
  set s2 := updateProcess (moveThreadToExclusiveCore s sk c p) pid
    (fun P => { P with totalCoresOwned := P.totalCoresOwned + 1 }) with hs2
  have hthU : s2.threads
      = updKey (fun u : ThreadInfo => u.socket) sk
        (fun u => { u with core := some c, state := RUNNING_EXCLUSIVE }) s.threads := rfl
  have hcoU : s2.exclusiveCores
      = updKey (fun d : CoreInfo => d.id) c
        (fun d => { d with exclusiveThread := some sk }) s.exclusiveCores := rfl
  have hprU : s2.processes
      = updKey (fun P : ProcessInfo => P.id) pid
        (fun P => { P with totalCoresOwned := P.totalCoresOwned + 1 }) s.processes := rfl
  have hthE : s2.threads
      = m1 ++ { t with core := some c, state := RUNNING_EXCLUSIVE } :: m2 := by
    rw [hthU, hm, ← htsk]
    exact updKey_append_cons (fun u : ThreadInfo => u.socket) _ (hm ▸ hW1)
  have hcoE : s2.exclusiveCores
      = c1 ++ { co with exclusiveThread := some sk } :: c2 := by
    rw [hcoU, hcs, ← hcid]
    exact updKey_append_cons (fun d : CoreInfo => d.id) _ (hcs ▸ hW4)
  have hprE : s2.processes
      = p1 ++ { Pt with totalCoresOwned := Pt.totalCoresOwned + 1 } :: p2 := by
    rw [hprU, hp, ← hPtpid]
    exact updKey_append_cons (fun P : ProcessInfo => P.id) _ (hp ▸ hW2)
  have hcnt : ∀ q : Nat, exclThreadCount s2 q
      = exclThreadCount s q + (if t.processId = q then 1 else 0) := by
    intro q
    unfold exclThreadCount
    rw [hthE, hm]
    rw [List.countP_append, List.countP_append, List.countP_cons, List.countP_cons]
    have h2 : (decide (t.processId = q ∧ t.state = RUNNING_EXCLUSIVE)) = false := by
      simp only [decide_eq_false_iff_not]
      rintro ⟨-, h3⟩
      rw [htst] at h3
      cases h3
    by_cases hq : t.processId = q
    · have h1 : (decide (({ t with core := some c, state := RUNNING_EXCLUSIVE } : ThreadInfo).processId = q ∧ ({ t with core := some c, state := RUNNING_EXCLUSIVE } : ThreadInfo).state = RUNNING_EXCLUSIVE)) = true := by
        simp [hq]
      rw [h1, h2, if_pos rfl, if_neg Bool.false_ne_true, if_pos hq]
      omega
    · have h1 : (decide (({ t with core := some c, state := RUNNING_EXCLUSIVE } : ThreadInfo).processId = q ∧ ({ t with core := some c, state := RUNNING_EXCLUSIVE } : ThreadInfo).state = RUNNING_EXCLUSIVE)) = false := by
        simp [hq]
      rw [h1, h2, if_neg Bool.false_ne_true, if_neg hq]
      omega
  have hpendne : ∀ c' ∈ s.pendingReleaseCores, c' ≠ c := by
    intro c' hc' h3
    obtain ⟨d, hd, hdid, hdex⟩ := hPo c' hc'
    have hdco : d = co := huniqC d hd co hco (by rw [hdid, h3, hcid])
    rw [hdco, hfree] at hdex
    exact hdex rfl
  have howner : ∀ c' ∈ s.pendingReleaseCores,
      coreOwnerPid s2 c' = coreOwnerPid s c' := by
    intro c' hc'
    have hne : c' ≠ c := hpendne c' hc'
    have hfc : findCore s2 c' = findCore s c' := by
      show s2.exclusiveCores.find? _ = _
      rw [hcoU]
      exact find?_key_updKey (fun d : CoreInfo => d.id) c
        (fun d => { d with exclusiveThread := some sk }) (fun x => rfl) hW4 hne
    unfold coreOwnerPid
    rw [hfc]
    cases hfind : findCore s c' with
    | none => rfl
    | some d =>
      cases hex2 : d.exclusiveThread with
      | none => simp only [hex2]
      | some sk2 =>
        have hsk2 : sk2 ≠ sk :=
          hNoPoint d (List.mem_of_find?_eq_some hfind) sk2 hex2
        have hgt : findThread s2 sk2 = findThread s sk2 := by
          show s2.threads.find? _ = _
          rw [hthU]
          exact find?_key_updKey (fun u : ThreadInfo => u.socket) sk
            (fun u => { u with core := some c, state := RUNNING_EXCLUSIVE })
            (fun x => rfl) hW1 hsk2
        simp only [hex2, hgt]
  show Inv s2
  refine ⟨⟨?_, ?_, ?_, ?_, ?_⟩, ⟨?_, ?_, ?_⟩, ?_, ?_, ?_, ⟨hPn, ?_⟩, ?_⟩
  · rw [hthU, map_key_updKey (fun u : ThreadInfo => u.socket) sk
      (fun u => { u with core := some c, state := RUNNING_EXCLUSIVE }) (fun x => rfl)]
    exact hW1
  · rw [hprU, map_key_updKey (fun P : ProcessInfo => P.id) pid
      (fun P => { P with totalCoresOwned := P.totalCoresOwned + 1 }) (fun x => rfl)]
    exact hW2
  · rw [hcoU, map_key_updKey (fun d : CoreInfo => d.id) c
      (fun d => { d with exclusiveThread := some sk }) (fun x => rfl)]
    exact hW4
  · intro u' hu'
    rw [hthU] at hu'
    obtain ⟨u, hu, rfl⟩ := mem_updKey_iff.mp hu'
    obtain ⟨P2, hP2, hP2id⟩ := hW3 u hu
    rw [hprU]
    obtain ⟨P', hP', hP'id⟩ := exists_updKey_key (fun P : ProcessInfo => P.id) pid
      (fun P => { P with totalCoresOwned := P.totalCoresOwned + 1 }) (fun x => rfl) hP2
    refine ⟨P', hP', ?_⟩
    rw [hP'id, hP2id]
    by_cases h2 : u.socket = sk
    · rw [if_pos h2]
    · rw [if_neg h2]
  · intro P' hP'
    rw [hprU] at hP'
    obtain ⟨P2, hP2, rfl⟩ := mem_updKey_iff.mp hP'
    obtain ⟨u, hu, hupid⟩ := hW5 P2 hP2
    rw [hthU]
    refine ⟨if u.socket = sk then { u with core := some c, state := RUNNING_EXCLUSIVE } else u, mem_updKey_of_mem _ _ _ hu, ?_⟩
    by_cases h2 : u.socket = sk
    · rw [if_pos h2]
      show u.processId = _
      rw [hupid]
      by_cases h3 : P2.id = pid
      · rw [if_pos h3]
      · rw [if_neg h3]
    · rw [if_neg h2]
      show u.processId = _
      rw [hupid]
      by_cases h3 : P2.id = pid
      · rw [if_pos h3]
      · rw [if_neg h3]
  · intro u' hu' hstate
    rw [hthU] at hu'
    obtain ⟨u, hu, rfl⟩ := mem_updKey_iff.mp hu'
    by_cases h2 : u.socket = sk
    · rw [if_pos h2]
      rw [hcoU]
      refine ⟨{ co with exclusiveThread := some sk }, ?_, ?_, ?_⟩
      · have h5 := mem_updKey_of_mem (fun d : CoreInfo => d.id) c
          (fun d => { d with exclusiveThread := some sk }) hco
        rwa [if_pos hcid] at h5
      · show some c = some co.id
        rw [hcid]
      · show some sk = some u.socket
        rw [h2]
    · rw [if_neg h2] at hstate ⊢
      obtain ⟨d, hd, hdc, hdex⟩ := hL1 u hu hstate
      have hdne : d.id ≠ c := by
        intro hdid
        have hdco : d = co := huniqC d hd co hco (hdid.trans hcid.symm)
        rw [hdco, hfree] at hdex
        cases hdex
      rw [hcoU]
      refine ⟨d, ?_, hdc, hdex⟩
      have h5 := mem_updKey_of_mem (fun d : CoreInfo => d.id) c
        (fun d => { d with exclusiveThread := some sk }) hd
      rwa [if_neg hdne] at h5
  · intro u' hu' hstate
    rw [hthU] at hu'
    obtain ⟨u, hu, rfl⟩ := mem_updKey_iff.mp hu'
    by_cases h2 : u.socket = sk
    · rw [if_pos h2] at hstate
      exact absurd rfl hstate
    · rw [if_neg h2] at hstate ⊢
      exact hL2 u hu hstate
  · intro co' hco' sk2 hex2
    rw [hcoU] at hco'
    obtain ⟨d, hd, rfl⟩ := mem_updKey_iff.mp hco'
    by_cases h2 : d.id = c
    · rw [if_pos h2] at hex2 ⊢
      have hsk2 : sk2 = sk := by
        have h9 : some sk = some sk2 := hex2
        injection h9 with h3
        exact h3.symm
      rw [hthU]
      refine ⟨{ t with core := some c, state := RUNNING_EXCLUSIVE }, ?_, ?_, rfl, ?_⟩
      · have h5 := mem_updKey_of_mem (fun u : ThreadInfo => u.socket) sk
          (fun u => { u with core := some c, state := RUNNING_EXCLUSIVE }) ht
        rwa [if_pos htsk] at h5
      · show t.socket = sk2
        rw [htsk, hsk2]
      · show some c = some _
        rw [h2]
    · rw [if_neg h2] at hex2 ⊢
      obtain ⟨u, hu, husk, hust, huco⟩ := hL3 d hd sk2 hex2
      have hune : u.socket ≠ sk := by
        intro h3
        have hut : u = t := huniqT u hu t ht (h3.trans htsk.symm)
        rw [hut, htst] at hust
        cases hust
      rw [hthU]
      refine ⟨u, ?_, husk, hust, huco⟩
      have h5 := mem_updKey_of_mem (fun u : ThreadInfo => u.socket) sk
        (fun u => { u with core := some c, state := RUNNING_EXCLUSIVE }) hu
      rwa [if_neg hune] at h5
  · intro P' hP'
    rw [hprU] at hP'
    obtain ⟨P2, hP2, rfl⟩ := mem_updKey_iff.mp hP'
    have h3 := hPP P2 hP2
    have h4 := hcnt P2.id
    by_cases h2 : P2.id = pid
    · rw [if_pos h2]
      rw [if_pos (htpid.trans h2.symm)] at h4
      show P2.totalCoresOwned + 1 = exclThreadCount s2 P2.id
      omega
    · rw [if_neg h2]
      rw [if_neg (fun h0 => h2 (htpid.symm.trans h0).symm)] at h4
      show P2.totalCoresOwned = exclThreadCount s2 P2.id
      omega
  · show sumOwned s2 = occupiedCount s2
    have hsum : sumOwned s2 = sumOwned s + 1 := by
      unfold sumOwned
      rw [hprE, hp]
      simp only [List.map_append, List.map_cons, List.sum_append, List.sum_cons]
      omega
    have hocc : occupiedCount s2 = occupiedCount s + 1 := by
      unfold occupiedCount
      rw [hcoE, hcs]
      rw [List.countP_append, List.countP_append, List.countP_cons, List.countP_cons]
      have h5 : (decide (({ co with exclusiveThread := some sk } : CoreInfo).exclusiveThread
          ≠ none)) = true := by simp
      have h6 : (decide (co.exclusiveThread ≠ none)) = false := by simp [hfree]
      rw [h5, h6, if_pos rfl, if_neg Bool.false_ne_true]
      omega
    have h8 := hC
    unfold CountInv at h8
    omega
  · intro P' hP'
    rw [hprU] at hP'
    obtain ⟨P2, hP2, rfl⟩ := mem_updKey_iff.mp hP'
    obtain ⟨hg1, hg2⟩ := hG P2 hP2
    have hpeq := pendCount_congr howner rfl P2.id
    by_cases h2 : P2.id = pid
    · rw [if_pos h2]
      show P2.coreReleaseCount ≤ P2.coreReleaseRequestCount ∧
        P2.coreReleaseRequestCount - P2.coreReleaseCount ≤ pendCount s2 P2.id
      rw [hpeq]
      exact ⟨hg1, hg2⟩
    · rw [if_neg h2]
      rw [← hpeq] at hg2
      exact ⟨hg1, hg2⟩
  · intro c' hc'
    obtain ⟨d, hd, hdid, hdex⟩ := hPo c' hc'
    have hdne : d.id ≠ c := by
      rw [hdid]
      exact hpendne c' hc'
    rw [hcoU]
    refine ⟨d, ?_, hdid, hdex⟩
    have h5 := mem_updKey_of_mem (fun d : CoreInfo => d.id) c
      (fun d => { d with exclusiveThread := some sk }) hd
    rwa [if_neg hdne] at h5
  · intro q hq pid2 hpid2
    obtain ⟨P2, hP2, hP2id⟩ := hQ q hq pid2 hpid2
    rw [hprU]
    obtain ⟨P', hP', hP'id⟩ := exists_updKey_key (fun P : ProcessInfo => P.id) pid
      (fun P => { P with totalCoresOwned := P.totalCoresOwned + 1 }) (fun x => rfl) hP2
    exact ⟨P', hP', hP'id.trans hP2id⟩

theorem map_g_updKey {α β : Type} (key : α → Nat) (k : Nat) (f : α → α)
    (g : α → β) (hg : ∀ x, g (f x) = g x) (l : List α) :
    (updKey key k f l).map g = l.map g := by
  induction l with
  | nil => rfl
  | cons a l ih =>
    simp only [updKey, List.map_cons] at *
    rw [ih]
    by_cases hk : key a = k
    · rw [if_pos hk, hg]
    · rw [if_neg hk]

theorem coreOwnerPid_some_elim {s : ServerState} {c pid : Nat}
    (h : coreOwnerPid s c = some pid) :
    ∃ co, findCore s c = some co ∧ ∃ sk t, co.exclusiveThread = some sk ∧
      findThread s sk = some t ∧ t.processId = pid := by
  unfold coreOwnerPid at h
  cases hfc : findCore s c with
  | none => rw [hfc] at h; cases h
  | some co =>
    rw [hfc] at h
    refine ⟨co, rfl, ?_⟩
    cases hex : co.exclusiveThread with
    | none =>
      simp only [hex] at h
      cases h
    | some sk =>
      simp only [hex] at h
      cases hft : findThread s sk with
      | none =>
        rw [hft] at h
        cases h
      | some t =>
        rw [hft] at h
        refine ⟨sk, t, rfl, hft, ?_⟩
        simpa using h

/-- Requesting a release against a core with no pending release preserves the
invariant. -/
theorem inv_requestCoreRelease {s : ServerState} {c pid : Nat} (h : Inv s)
    (howner : coreOwnerPid s c = some pid)
    (hnp : c ∉ s.pendingReleaseCores) :
    Inv (requestCoreRelease s c) := by
  obtain ⟨⟨hW1, hW2, hW4, hW3, hW5⟩, ⟨hL1, hL2, hL3⟩, hPP, hC, hG, ⟨hPn, hPo⟩, hQ⟩ := h
  obtain ⟨co, hfc, sk0, t0, hex0, hft0, ht0pid⟩ := coreOwnerPid_some_elim howner
  have hEq : requestCoreRelease s c =
      { s with
        processes := updKey (fun P : ProcessInfo => P.id) pid
          (fun P => { P with coreReleaseRequestCount :=
            P.coreReleaseRequestCount + 1 }) s.processes,
        pendingReleaseCores := s.pendingReleaseCores ++ [c],
        timerFdToProcessId := s.timerFdToProcessId ++ [(s.nextTimerFd, pid)],
        nextTimerFd := s.nextTimerFd + 1 } := by
    unfold requestCoreRelease
    rw [howner]
    rfl
  have hprU : (requestCoreRelease s c).processes
      = updKey (fun P : ProcessInfo => P.id) pid
        (fun P => { P with coreReleaseRequestCount :=
          P.coreReleaseRequestCount + 1 }) s.processes := by rw [hEq]
  have hthU : (requestCoreRelease s c).threads = s.threads := by rw [hEq]
  have hcoU : (requestCoreRelease s c).exclusiveCores = s.exclusiveCores := by rw [hEq]
  have hpdU : (requestCoreRelease s c).pendingReleaseCores
      = s.pendingReleaseCores ++ [c] := by rw [hEq]
  have hquU : (requestCoreRelease s c).corePriorityQueues
      = s.corePriorityQueues := by rw [hEq]
  have hprIm : ∀ P2 ∈ s.processes,
      ∃ P' ∈ (requestCoreRelease s c).processes, P'.id = P2.id := by
    intro P2 hP2
    rw [hprU]
    exact exists_updKey_key (fun P : ProcessInfo => P.id) pid
      (fun P => { P with coreReleaseRequestCount := P.coreReleaseRequestCount + 1 })
      (fun x => rfl) hP2
  have hOwnStable : ∀ c', coreOwnerPid (requestCoreRelease s c) c'
      = coreOwnerPid s c' := by
    intro c'
    unfold coreOwnerPid findCore findThread
    rw [hthU, hcoU]
  have hcntEq : ∀ q, exclThreadCount (requestCoreRelease s c) q
      = exclThreadCount s q := by
    intro q
    unfold exclThreadCount
    rw [hthU]
  have hpendEq : ∀ q, pendCount (requestCoreRelease s c) q
      = pendCount s q + (if pid = q then 1 else 0) := by
    intro q
    unfold pendCount
    rw [hpdU, List.filter_append]
    have h2 : ∀ c2 ∈ s.pendingReleaseCores,
        (decide (coreOwnerPid (requestCoreRelease s c) c2 = some q))
          = (decide (coreOwnerPid s c2 = some q)) := by
      intro c2 _
      rw [hOwnStable]
    rw [List.filter_congr h2, List.length_append]
    congr 1
    rw [List.filter_cons, List.filter_nil]
    by_cases hq : pid = q
    · rw [if_pos (by simp [hOwnStable, howner, hq]), if_pos hq]
      rfl
    · rw [if_neg ?_, if_neg hq]
      · rfl
      · simp only [decide_eq_true_eq, hOwnStable, howner]
        intro h3
        injection h3 with h4
        exact hq h4
  refine ⟨⟨?_, ?_, ?_, ?_, ?_⟩, ⟨?_, ?_, ?_⟩, ?_, ?_, ?_, ⟨?_, ?_⟩, ?_⟩
  · rw [hthU]; exact hW1
  · rw [hprU, map_key_updKey (fun P : ProcessInfo => P.id) pid
      (fun P => { P with coreReleaseRequestCount := P.coreReleaseRequestCount + 1 })
      (fun x => rfl)]
    exact hW2
  · rw [hcoU]; exact hW4
  · intro u hu
    rw [hthU] at hu
    obtain ⟨P2, hP2, hP2id⟩ := hW3 u hu
    obtain ⟨P', hP', hP'id⟩ := hprIm P2 hP2
    exact ⟨P', hP', hP'id.trans hP2id⟩
  · intro P' hP'
    rw [hprU] at hP'
    obtain ⟨P2, hP2, rfl⟩ := mem_updKey_iff.mp hP'
    obtain ⟨u, hu, hupid⟩ := hW5 P2 hP2
    rw [hthU]
    refine ⟨u, hu, ?_⟩
    rw [hupid]
    by_cases h3 : P2.id = pid
    · rw [if_pos h3]
    · rw [if_neg h3]
  · intro u hu hst
    rw [hthU] at hu
    rw [hcoU]
    exact hL1 u hu hst
  · intro u hu hst
    rw [hthU] at hu
    exact hL2 u hu hst
  · intro co2 hco2 sk2 hex2
    rw [hcoU] at hco2
    rw [hthU]
    exact hL3 co2 hco2 sk2 hex2
  · intro P' hP'
    rw [hprU] at hP'
    obtain ⟨P2, hP2, rfl⟩ := mem_updKey_iff.mp hP'
    rw [hcntEq]
    by_cases h3 : P2.id = pid
    · rw [if_pos h3]
      exact hPP P2 hP2
    · rw [if_neg h3]
      exact hPP P2 hP2
  · show sumOwned _ = occupiedCount _
    have h2 : sumOwned (requestCoreRelease s c) = sumOwned s := by
      unfold sumOwned
      rw [hprU]
      rw [map_g_updKey (fun P : ProcessInfo => P.id) pid
        (fun P => { P with coreReleaseRequestCount := P.coreReleaseRequestCount + 1 })
        (fun P => P.totalCoresOwned) (fun x => rfl)]
    have h3 : occupiedCount (requestCoreRelease s c) = occupiedCount s := by
      unfold occupiedCount
      rw [hcoU]
    rw [h2, h3]
    exact hC
  · intro P' hP'
    rw [hprU] at hP'
    obtain ⟨P2, hP2, rfl⟩ := mem_updKey_iff.mp hP'
    obtain ⟨hg1, hg2⟩ := hG P2 hP2
    by_cases h3 : P2.id = pid
    · rw [if_pos h3]
      show P2.coreReleaseCount ≤ P2.coreReleaseRequestCount + 1 ∧
        P2.coreReleaseRequestCount + 1 - P2.coreReleaseCount
          ≤ pendCount (requestCoreRelease s c) P2.id
      rw [hpendEq, if_pos h3.symm]
      exact ⟨Nat.le_succ_of_le hg1, by omega⟩
    · rw [if_neg h3]
      refine ⟨hg1, ?_⟩
      rw [hpendEq, if_neg (fun h0 => h3 h0.symm)]
      omega
  · rw [hpdU]
    refine hPn.append (List.nodup_singleton _) ?_
    intro a ha hb
    rw [List.mem_singleton] at hb
    rw [hb] at ha
    exact hnp ha
  · intro c' hc'
    rw [hpdU] at hc'
    rw [hcoU]
    rcases List.mem_append.mp hc' with h2 | h2
    · exact hPo c' h2
    · rw [List.mem_singleton.mp h2]
      refine ⟨co, List.mem_of_find?_eq_some hfc, ?_, ?_⟩
      · simpa using List.find?_some hfc
      · rw [hex0]
        intro h4
        cases h4
  · intro q hq pid2 hpid2
    rw [hquU] at hq
    obtain ⟨P2, hP2, hP2id⟩ := hQ q hq pid2 hpid2
    obtain ⟨P', hP', hP'id⟩ := hprIm P2 hP2
    exact ⟨P', hP', hP'id.trans hP2id⟩

theorem firstBlockedThread_some {s : ServerState} {pid sk : Nat}
    (h : firstBlockedThread s pid = some sk) :
    ∃ t ∈ s.threads, t.socket = sk ∧ t.state = BLOCKED ∧ t.processId = pid := by
  unfold firstBlockedThread at h
  cases hf : s.threads.find? (fun t => decide (t.processId = pid ∧ t.state = BLOCKED)) with
  | none => rw [hf] at h; cases h
  | some t =>
    rw [hf] at h
    have hm := List.mem_of_find?_eq_some hf
    have hp := List.find?_some hf
    simp only [decide_eq_true_eq] at hp
    have hsk : t.socket = sk := by simpa using h
    exact ⟨t, hm, hsk, hp.2, hp.1⟩

theorem chooseFromQueue_some_blocked {s : ServerState} :
    ∀ (q : List Nat) (pid sk : Nat), chooseFromQueue s q = some (pid, sk) →
    firstBlockedThread s pid = some sk := by
  intro q
  induction q with
  | nil => intro pid sk h; cases h
  | cons x rest ih =>
    intro pid sk h
    unfold chooseFromQueue at h
    cases hf : firstBlockedThread s x with
    | none =>
      rw [hf] at h
      exact ih pid sk h
    | some sk2 =>
      rw [hf] at h
      simp only [Option.some.injEq, Prod.mk.injEq] at h
      obtain ⟨rfl, rfl⟩ := h
      exact hf

theorem chooseCandidateGo_blocked {s : ServerState} :
    ∀ (qs : List (List Nat)) (n p pid sk : Nat),
    chooseCandidateGo s n qs = some (p, pid, sk) →
    firstBlockedThread s pid = some sk := by
  intro qs
  induction qs with
  | nil => intro n p pid sk h; cases h
  | cons q rest ih =>
    intro n p pid sk h
    unfold chooseCandidateGo at h
    cases hcq : chooseFromQueue s q with
    | none =>
      rw [hcq] at h
      exact ih (n + 1) p pid sk h
    | some r =>
      obtain ⟨pid2, sk2⟩ := r
      rw [hcq] at h
      simp only [Option.some.injEq, Prod.mk.injEq] at h
      obtain ⟨h1, h2, h3⟩ := h
      rw [← h2, ← h3]
      exact chooseFromQueue_some_blocked q pid2 sk2 hcq

theorem chooseCandidate_spec {s : ServerState} {p pid sk : Nat}
    (h : chooseCandidate s = some (p, pid, sk)) :
    ∃ t ∈ s.threads, t.socket = sk ∧ t.state = BLOCKED ∧ t.processId = pid :=
  firstBlockedThread_some (chooseCandidateGo_blocked s.corePriorityQueues 0 p pid sk h)

theorem inv_phase1Go :
    ∀ (cs : List Nat) (s : ServerState), Inv s →
    (∀ c ∈ cs, ∃ co ∈ s.exclusiveCores, co.id = c ∧ co.exclusiveThread = none) →
    cs.Nodup → Inv (phase1Go s cs) := by
  intro cs
  induction cs with
  | nil => intro s h _ _; exact h
  | cons c rest ih =>
    intro s h hfree hnd
    show Inv (phase1Go s (c :: rest))
    unfold phase1Go
    cases hcc : chooseCandidate s with
    | none => exact h
    | some r =>
      obtain ⟨p, pid, sk⟩ := r
      obtain ⟨t, ht, htsk, htst, htpid⟩ := chooseCandidate_spec hcc
      obtain ⟨co, hco, hcid, hfreeC⟩ := hfree c (List.mem_cons_self _ _)
      have hnd2 := List.nodup_cons.mp hnd
      have hInv2 : Inv (grantCore s c p pid sk) :=
        inv_grantCore h ht htsk htst htpid hco hcid hfreeC
      show Inv (phase1Go (grantCore s c p pid sk) rest)
      apply ih _ hInv2 ?_ hnd2.2
      intro c' hc'
      obtain ⟨co2, hco2, hc2id, hfree2⟩ := hfree c' (List.mem_cons_of_mem _ hc')
      have hne : co2.id ≠ c := by
        rw [hc2id]
        intro h3
        exact hnd2.1 (h3 ▸ hc')
      refine ⟨co2, ?_, hc2id, hfree2⟩
      show co2 ∈ (grantCore s c p pid sk).exclusiveCores
      have hgc : (grantCore s c p pid sk).exclusiveCores
          = updKey (fun d : CoreInfo => d.id) c
            (fun d => { d with exclusiveThread := some sk }) s.exclusiveCores := rfl
      rw [hgc]
      have h5 := mem_updKey_of_mem (fun d : CoreInfo => d.id) c
        (fun d => { d with exclusiveThread := some sk }) hco2
      rwa [if_neg hne] at h5

theorem inv_distributeCoresPhase1 {s : ServerState} (h : Inv s) :
    Inv (distributeCoresPhase1 s) := by
  unfold distributeCoresPhase1
  apply inv_phase1Go _ s h
  · intro c hc
    unfold freeCoreIds at hc
    rw [List.mem_map] at hc
    obtain ⟨co, hco, rfl⟩ := hc
    rw [List.mem_filter] at hco
    refine ⟨co, hco.1, rfl, ?_⟩
    simpa using hco.2
  · unfold freeCoreIds
    have hsub : ((s.exclusiveCores.filter
        (fun co => decide (co.exclusiveThread = none))).map (fun co => co.id)).Sublist
        (s.exclusiveCores.map (fun co => co.id)) :=
      (List.filter_sublist _).map _
    exact h.1.2.2.1.sublist hsub

theorem inv_phase2_fold :
    ∀ (cs : List Nat) (s : ServerState), Inv s →
    Inv (cs.foldl (fun s2 c =>
      if shouldRequestRelease s2 c then requestCoreRelease s2 c else s2) s) := by
  intro cs
  induction cs with
  | nil => intro s h; exact h
  | cons c rest ih =>
    intro s h
    rw [List.foldl_cons]
    by_cases hreq : shouldRequestRelease s c = true
    · rw [if_pos hreq]
      apply ih
      unfold shouldRequestRelease at hreq
      rw [Bool.and_eq_true] at hreq
      have hnp : c ∉ s.pendingReleaseCores := by simpa using hreq.1
      cases how : coreOwnerPid s c with
      | none => rw [how] at hreq; cases hreq.2
      | some pid => exact inv_requestCoreRelease h how hnp
    · rw [if_neg hreq]
      exact ih s h

theorem inv_distributeCoresPhase2 {s : ServerState} (h : Inv s) :
    Inv (distributeCoresPhase2 s) :=
  inv_phase2_fold _ s h

theorem inv_distributeCores {s : ServerState} (h : Inv s) :
    Inv (distributeCores s) :=
  inv_distributeCoresPhase2 (inv_distributeCoresPhase1 h)

/-- A process update that changes neither the id, the counters, nor the
ownership count preserves the invariant. -/
theorem inv_updateProcess_benign {s : ServerState} {pid : Nat}
    {f : ProcessInfo → ProcessInfo} (h : Inv s)
    (hid : ∀ P, (f P).id = P.id)
    (hreq : ∀ P, (f P).coreReleaseRequestCount = P.coreReleaseRequestCount)
    (hrel : ∀ P, (f P).coreReleaseCount = P.coreReleaseCount)
    (hown : ∀ P, (f P).totalCoresOwned = P.totalCoresOwned) :
    Inv (updateProcess s pid f) := by
  obtain ⟨⟨hW1, hW2, hW4, hW3, hW5⟩, ⟨hL1, hL2, hL3⟩, hPP, hC, hG, ⟨hPn, hPo⟩, hQ⟩ := h
  have hprU : (updateProcess s pid f).processes
      = updKey (fun P : ProcessInfo => P.id) pid f s.processes := rfl
  have hprIm : ∀ P2 ∈ s.processes,
      ∃ P' ∈ (updateProcess s pid f).processes, P'.id = P2.id := by
    intro P2 hP2
    rw [hprU]
    obtain ⟨y, hy, hyk⟩ := exists_updKey_key (fun P : ProcessInfo => P.id) pid f hid hP2
    exact ⟨y, hy, hyk⟩
  refine ⟨⟨hW1, ?_, hW4, ?_, ?_⟩, ⟨hL1, hL2, hL3⟩, ?_, ?_, ?_, ⟨hPn, hPo⟩, ?_⟩
  · rw [hprU, map_key_updKey (fun P : ProcessInfo => P.id) pid f hid]
    exact hW2
  · intro u hu
    obtain ⟨P2, hP2, hP2id⟩ := hW3 u hu
    obtain ⟨P', hP', hP'id⟩ := hprIm P2 hP2
    exact ⟨P', hP', hP'id.trans hP2id⟩
  · intro P' hP'
    rw [hprU] at hP'
    obtain ⟨P2, hP2, rfl⟩ := mem_updKey_iff.mp hP'
    obtain ⟨u, hu, hupid⟩ := hW5 P2 hP2
    refine ⟨u, hu, ?_⟩
    rw [hupid]
    by_cases h3 : P2.id = pid
    · rw [if_pos h3, hid]
    · rw [if_neg h3]
  · intro P' hP'
    rw [hprU] at hP'
    obtain ⟨P2, hP2, rfl⟩ := mem_updKey_iff.mp hP'
    have h2 := hPP P2 hP2
    by_cases h3 : P2.id = pid
    · rw [if_pos h3]
      show (f P2).totalCoresOwned = exclThreadCount (updateProcess s pid f) (f P2).id
      rw [hown, hid]
      exact h2
    · rw [if_neg h3]
      exact h2
  · show sumOwned (updateProcess s pid f) = occupiedCount (updateProcess s pid f)
    have h2 : sumOwned (updateProcess s pid f) = sumOwned s := by
      unfold sumOwned
      rw [hprU, map_g_updKey (fun P : ProcessInfo => P.id) pid f
        (fun P => P.totalCoresOwned) hown]
    rw [h2]
    exact hC
  · intro P' hP'
    rw [hprU] at hP'
    obtain ⟨P2, hP2, rfl⟩ := mem_updKey_iff.mp hP'
    obtain ⟨hg1, hg2⟩ := hG P2 hP2
    by_cases h3 : P2.id = pid
    · rw [if_pos h3]
      show (f P2).coreReleaseCount ≤ (f P2).coreReleaseRequestCount ∧
        (f P2).coreReleaseRequestCount - (f P2).coreReleaseCount
          ≤ pendCount (updateProcess s pid f) (f P2).id
      rw [hreq, hrel, hid]
      exact ⟨hg1, hg2⟩
    · rw [if_neg h3]
      exact ⟨hg1, hg2⟩
  · intro q hq pid2 hpid2
    obtain ⟨P2, hP2, hP2id⟩ := hQ q hq pid2 hpid2
    obtain ⟨P', hP', hP'id⟩ := hprIm P2 hP2
    exact ⟨P', hP', hP'id.trans hP2id⟩

theorem inv_coresRequested {s : ServerState} (sk : Nat) (desired : List Nat)
    (h : Inv s) : Inv (coresRequested s sk desired) := by
  unfold coresRequested
  cases hf : findThread s sk with
  | none => exact h
  | some t =>
    apply inv_distributeCores
    apply inv_updateQueueMembership
    exact inv_updateProcess_benign h (fun P => rfl) (fun P => rfl) (fun P => rfl)
      (fun P => rfl)

theorem inv_threadBlocking {s : ServerState} (sk : Nat) (h : Inv s) :
    Inv (threadBlocking s sk) := by
  unfold threadBlocking
  cases hf : findThread s sk with
  | none => exact h
  | some t =>
    have hW1 : (s.threads.map (fun t => t.socket)).Nodup := h.1.1
    obtain ⟨ht, htsk⟩ := (findThread_eq_some_iff hW1).mp hf
    show Inv (match t.state with
      | RUNNING_EXCLUSIVE =>
        match findProcess s t.processId with
        | none => s
        | some P =>
          if P.coreReleaseCount < P.coreReleaseRequestCount then
            distributeCores
              (updateQueueMembership (evictCore s sk BLOCKED) t.processId)
          else s
      | BLOCKED => s
      | RUNNING_UNMANAGED => distributeCores (changeThreadState s sk BLOCKED)
      | RUNNING_PREEMPTED =>
        distributeCores (changeThreadState
          (if s.threads.any (fun u => decide (u.processId = t.processId ∧
              u.socket ≠ sk ∧ u.state = RUNNING_PREEMPTED)) then s
           else updateProcess s t.processId
             (fun P => { P with threadPreempted := false })) sk BLOCKED))
    cases hts : t.state with
    | RUNNING_EXCLUSIVE =>
      cases hp : findProcess s t.processId with
      | none => exact h
      | some P =>
        show Inv (if P.coreReleaseCount < P.coreReleaseRequestCount then
          distributeCores
            (updateQueueMembership (evictCore s sk BLOCKED) t.processId)
          else s)
        by_cases howed : P.coreReleaseCount < P.coreReleaseRequestCount
        · rw [if_pos howed]
          apply inv_distributeCores
          apply inv_updateQueueMembership
          exact inv_evictCore (by intro h2; cases h2) h ht htsk hts
        · rw [if_neg howed]
          exact h
    | BLOCKED => exact h
    | RUNNING_UNMANAGED =>
      apply inv_distributeCores
      refine inv_changeNonExcl h ht htsk ?_ ?_
      · rw [hts]
        intro h2
        cases h2
      · intro h2
        cases h2
    | RUNNING_PREEMPTED =>
      by_cases hother : s.threads.any (fun u => decide (u.processId = t.processId ∧
          u.socket ≠ sk ∧ u.state = RUNNING_PREEMPTED)) = true
      · rw [if_pos hother]
        apply inv_distributeCores
        refine inv_changeNonExcl h ht htsk ?_ ?_
        · rw [hts]
          intro h2
          cases h2
        · intro h2
          cases h2
      · rw [if_neg hother]
        apply inv_distributeCores
        have h1 : Inv (updateProcess s t.processId
            (fun P => { P with threadPreempted := false })) :=
          inv_updateProcess_benign h (fun P => rfl) (fun P => rfl) (fun P => rfl)
            (fun P => rfl)
        refine inv_changeNonExcl h1 ?_ htsk ?_ ?_
        · exact ht
        · rw [hts]
          intro h2
          cases h2
        · intro h2
          cases h2

theorem foldl_betterVictim_mem (s : ServerState) :
    ∀ (l : List ThreadInfo) (acc : Option ThreadInfo) (x : ThreadInfo),
    l.foldl (betterVictim s) acc = some x → acc = some x ∨ x ∈ l := by
  intro l
  induction l with
  | nil => intro acc x h; exact Or.inl h
  | cons a l ih =>
    intro acc x h
    rw [List.foldl_cons] at h
    rcases ih _ x h with h2 | h2
    · cases acc with
      | none =>
        have h3 : some a = some x := h2
        simp only [Option.some.injEq] at h3
        exact Or.inr (h3 ▸ List.mem_cons_self a l)
      | some u =>
        have h3 : (if threadGrantPriority s u < threadGrantPriority s a then
          some a else some u) = some x := h2
        by_cases hc : threadGrantPriority s u < threadGrantPriority s a
        · rw [if_pos hc] at h3
          simp only [Option.some.injEq] at h3
          exact Or.inr (h3 ▸ List.mem_cons_self a l)
        · rw [if_neg hc] at h3
          exact Or.inl h3
    · exact Or.inr (List.mem_cons_of_mem a h2)

theorem lowestPrioritySession_mem {s : ServerState} {pid : Nat} {t : ThreadInfo}
    (h : lowestPrioritySession s pid = some t) :
    t ∈ s.threads ∧ t.processId = pid ∧ t.state = RUNNING_EXCLUSIVE := by
  unfold lowestPrioritySession at h
  have h2 := foldl_betterVictim_mem s
    (s.threads.filter (fun t2 => decide (t2.processId = pid ∧
      t2.state = RUNNING_EXCLUSIVE))) none t h
  rcases h2 with h3 | h3
  · cases h3
  · rw [List.mem_filter] at h3
    have h4 := h3.2
    simp only [decide_eq_true_eq] at h4
    exact ⟨h3.1, h4.1, h4.2⟩

theorem inv_timeoutThreadPreemption {s : ServerState} (fd : Nat) (h : Inv s) :
    Inv (timeoutThreadPreemption s fd) := by
  unfold timeoutThreadPreemption
  cases hg : alistGet s.timerFdToProcessId fd with
  | none => exact h
  | some pid =>
    have h0 : Inv { s with timerFdToProcessId := alistRemove s.timerFdToProcessId fd } := h
    show Inv (match findProcess { s with
        timerFdToProcessId := alistRemove s.timerFdToProcessId fd } pid with
      | none => { s with timerFdToProcessId := alistRemove s.timerFdToProcessId fd }
      | some P =>
        if P.coreReleaseCount < P.coreReleaseRequestCount then
          distributeCores (preemptTimeoutCore
            { s with timerFdToProcessId := alistRemove s.timerFdToProcessId fd } pid)
        else { s with timerFdToProcessId := alistRemove s.timerFdToProcessId fd })
    cases hp : findProcess { s with
        timerFdToProcessId := alistRemove s.timerFdToProcessId fd } pid with
    | none => exact h0
    | some P =>
      show Inv (if P.coreReleaseCount < P.coreReleaseRequestCount then
          distributeCores (preemptTimeoutCore
            { s with timerFdToProcessId := alistRemove s.timerFdToProcessId fd } pid)
        else { s with timerFdToProcessId := alistRemove s.timerFdToProcessId fd })
      by_cases howed : P.coreReleaseCount < P.coreReleaseRequestCount
      · rw [if_pos howed]
        apply inv_distributeCores
        unfold preemptTimeoutCore
        cases hl : lowestPrioritySession { s with
            timerFdToProcessId := alistRemove s.timerFdToProcessId fd } pid with
        | none => exact h0
        | some t =>
          show Inv (updateQueueMembership (evictCore (updateProcess { s with
            timerFdToProcessId := alistRemove s.timerFdToProcessId fd } pid
            (fun P => { P with threadPreempted := true })) t.socket
            RUNNING_PREEMPTED) pid)
          apply inv_updateQueueMembership
          obtain ⟨ht, htpid, htex⟩ := lowestPrioritySession_mem hl
          have h1 : Inv (updateProcess { s with
              timerFdToProcessId := alistRemove s.timerFdToProcessId fd } pid
              (fun P => { P with threadPreempted := true })) :=
            inv_updateProcess_benign h0 (fun P => rfl) (fun P => rfl) (fun P => rfl)
              (fun P => rfl)
          exact inv_evictCore (by intro h2; cases h2) h1 ht rfl htex
      · rw [if_neg howed]
        exact h0

theorem nodup_split_ne {α : Type} (key : α → Nat) {l1 l2 : List α} {x : α}
    (h : ((l1 ++ x :: l2).map key).Nodup) :
    (∀ y ∈ l1, key y ≠ key x) ∧ (∀ y ∈ l2, key y ≠ key x) := by
  rw [List.map_append, List.map_cons, List.nodup_append] at h
  obtain ⟨h1, h2, hdisj⟩ := h
  rw [List.nodup_cons] at h2
  constructor
  · intro y hy hk
    exact hdisj (List.mem_map_of_mem key hy) (hk ▸ List.mem_cons_self _ _)
  · intro y hy hk
    exact h2.1 (hk ▸ List.mem_map_of_mem key hy)

theorem find?_key_filter {α : Type} (key : α → Nat) (k k' : Nat) (hk : k' ≠ k)
    {l : List α} (hN : (l.map key).Nodup) :
    (l.filter (fun x => decide (key x ≠ k))).find? (fun x => decide (key x = k'))
      = l.find? (fun x => decide (key x = k')) := by
  have hN' : ((l.filter (fun x => decide (key x ≠ k))).map key).Nodup :=
    hN.sublist ((List.filter_sublist _).map _)
  cases hfind : l.find? (fun x => decide (key x = k')) with
  | none =>
    have hall := (find?_key_eq_none_iff key l k').mp hfind
    apply (find?_key_eq_none_iff key _ k').mpr
    intro y hy
    exact hall y (List.mem_of_mem_filter hy)
  | some u =>
    obtain ⟨hu, huk⟩ := (find?_key_eq_some_iff key hN k' u).mp hfind
    apply (find?_key_eq_some_iff key hN' k' u).mpr
    refine ⟨?_, huk⟩
    rw [List.mem_filter]
    exact ⟨hu, by simpa using huk ▸ hk⟩

/-- Removing a (non-exclusive) session and, when that was the last session of
its process, deleting the process entry preserves the invariant. -/
theorem inv_removeThreadStep {s : ServerState} {sk π : Nat} {t2 : ThreadInfo}
    (h : Inv s) (ht : t2 ∈ s.threads) (htsk : t2.socket = sk)
    (hnex : t2.state ≠ RUNNING_EXCLUSIVE) (htpid : t2.processId = π) :
    Inv (if (s.threads.filter (fun u => decide (u.socket ≠ sk))).any
            (fun u => decide (u.processId = π))
         then updateQueueMembership
           { s with threads := s.threads.filter (fun u => decide (u.socket ≠ sk)) } π
         else { s with
           threads := s.threads.filter (fun u => decide (u.socket ≠ sk)),
           processes := s.processes.filter (fun P => decide (P.id ≠ π)),
           corePriorityQueues := s.corePriorityQueues.map
             (fun q => q.filter (fun w => decide (w ≠ π))) }) := by
  obtain ⟨⟨hW1, hW2, hW4, hW3, hW5⟩, ⟨hL1, hL2, hL3⟩, hPP, hC, hG, ⟨hPn, hPo⟩, hQ⟩ := h
  have huniqT : ∀ u ∈ s.threads, ∀ v ∈ s.threads, u.socket = v.socket → u = v :=
    fun u hu v hv he => nodup_key_eq _ hW1 hu hv he
  obtain ⟨m1, m2, hm⟩ := List.append_of_mem ht
  have hmne := nodup_split_ne (fun u : ThreadInfo => u.socket) (hm ▸ hW1)
  have hthE : s.threads.filter (fun u => decide (u.socket ≠ sk)) = m1 ++ m2 := by
    rw [hm, List.filter_append, List.filter_cons]
    have ht2 : (decide (t2.socket ≠ sk)) = false := by simp [htsk]
    rw [ht2, if_neg Bool.false_ne_true]
    rw [List.filter_eq_self.mpr, List.filter_eq_self.mpr]
    · intro u hu
      simp only [decide_eq_true_eq]
      rw [← htsk]
      exact hmne.2 u hu
    · intro u hu
      simp only [decide_eq_true_eq]
      rw [← htsk]
      exact hmne.1 u hu
  have hsubth : ∀ u ∈ s.threads.filter (fun u => decide (u.socket ≠ sk)),
      u ∈ s.threads := fun u hu => List.mem_of_mem_filter hu
  have hmemth : ∀ u ∈ s.threads, u.socket ≠ sk →
      u ∈ s.threads.filter (fun u => decide (u.socket ≠ sk)) := by
    intro u hu hne
    rw [List.mem_filter]
    exact ⟨hu, by simpa using hne⟩
  have hW1' : ((s.threads.filter (fun u => decide (u.socket ≠ sk))).map
      (fun t => t.socket)).Nodup :=
    hW1.sublist ((List.filter_sublist _).map _)
  have hcnt : ∀ q : Nat,
      List.countP (fun u => decide (u.processId = q ∧ u.state = RUNNING_EXCLUSIVE))
        (s.threads.filter (fun u => decide (u.socket ≠ sk)))
      = exclThreadCount s q := by
    intro q
    unfold exclThreadCount
    rw [hthE, hm]
    rw [List.countP_append, List.countP_append, List.countP_cons]
    have h1 : (decide (t2.processId = q ∧ t2.state = RUNNING_EXCLUSIVE)) = false := by
      simp only [decide_eq_false_iff_not]
      rintro ⟨-, h3⟩
      exact hnex h3
    rw [h1, if_neg Bool.false_ne_true]
    omega
  have hOwnSk : ∀ co ∈ s.exclusiveCores, ∀ sk2, co.exclusiveThread = some sk2 →
      sk2 ≠ sk := by
    intro co hco sk2 hex h3
    obtain ⟨u, hu, husk, hust, _⟩ := hL3 co hco sk2 hex
    have hut : u = t2 := huniqT u hu t2 ht (husk.trans (h3.trans htsk.symm))
    rw [hut] at hust
    exact hnex hust
  have howner : ∀ c',
      coreOwnerPid { s with
        threads := s.threads.filter (fun u => decide (u.socket ≠ sk)) } c'
      = coreOwnerPid s c' := by
    intro c'
    unfold coreOwnerPid
    have hfc : findCore { s with
        threads := s.threads.filter (fun u => decide (u.socket ≠ sk)) } c'
        = findCore s c' := rfl
    rw [hfc]
    cases hfind : findCore s c' with
    | none => rfl
    | some d =>
      cases hex2 : d.exclusiveThread with
      | none => simp only [hex2]
      | some sk2 =>
        have hsk2 : sk2 ≠ sk :=
          hOwnSk d (List.mem_of_find?_eq_some hfind) sk2 hex2
        have hgt : findThread { s with
            threads := s.threads.filter (fun u => decide (u.socket ≠ sk)) } sk2
            = findThread s sk2 := by
          show (s.threads.filter (fun u => decide (u.socket ≠ sk))).find?
            (fun u => decide (u.socket = sk2)) = _
          rw [← htsk]
          apply find?_key_filter (fun u : ThreadInfo => u.socket) t2.socket sk2
            (htsk ▸ hsk2) hW1
        simp only [hex2, hgt]
  have hpendEq : ∀ q, pendCount { s with
      threads := s.threads.filter (fun u => decide (u.socket ≠ sk)) } q
      = pendCount s q :=
    pendCount_congr (fun c _ => howner c) rfl
  by_cases hany : (s.threads.filter (fun u => decide (u.socket ≠ sk))).any
      (fun u => decide (u.processId = π)) = true
  · rw [if_pos hany]
    apply inv_updateQueueMembership
    refine ⟨⟨hW1', hW2, hW4, ?_, ?_⟩, ⟨?_, ?_, ?_⟩, ?_, hC, ?_, ⟨hPn, hPo⟩, hQ⟩
    · intro u hu
      exact hW3 u (hsubth u hu)
    · intro P hP
      by_cases hPpi : P.id = π
      · rw [List.any_eq_true] at hany
        obtain ⟨u, hu, hup⟩ := hany
        simp only [decide_eq_true_eq] at hup
        exact ⟨u, hu, by rw [hup, hPpi]⟩
      · obtain ⟨u, hu, hupid⟩ := hW5 P hP
        refine ⟨u, hmemth u hu ?_, hupid⟩
        intro h3
        have hut : u = t2 := huniqT u hu t2 ht (h3.trans htsk.symm)
        rw [hut, htpid] at hupid
        exact hPpi hupid.symm
    · intro u hu hst
      exact hL1 u (hsubth u hu) hst
    · intro u hu hst
      exact hL2 u (hsubth u hu) hst
    · intro co hco sk2 hex2
      obtain ⟨u, hu, husk, hust, huco⟩ := hL3 co hco sk2 hex2
      have hsk2 : sk2 ≠ sk := hOwnSk co hco sk2 hex2
      exact ⟨u, hmemth u hu (husk ▸ hsk2), husk, hust, huco⟩
    · intro P hP
      show P.totalCoresOwned = List.countP _ _
      rw [hcnt P.id]
      exact hPP P hP
    · intro P hP
      refine ⟨(hG P hP).1, ?_⟩
      rw [hpendEq P.id]
      exact (hG P hP).2
  · rw [if_neg hany]
    have hnone : ∀ u ∈ s.threads.filter (fun u => decide (u.socket ≠ sk)),
        u.processId ≠ π := by
      intro u hu h3
      apply hany
      rw [List.any_eq_true]
      exact ⟨u, hu, by simpa using h3⟩
    have hall : ∀ u ∈ s.threads, u.processId = π → u = t2 := by
      intro u hu hupid
      by_cases h3 : u.socket = sk
      · exact huniqT u hu t2 ht (h3.trans htsk.symm)
      · exact absurd hupid (hnone u (hmemth u hu h3))
    obtain ⟨Pt, hPtmem, hPtid⟩ := hW3 t2 ht
    have hPtpi : Pt.id = π := hPtid.trans htpid
    obtain ⟨p1, p2, hp⟩ := List.append_of_mem hPtmem
    have hpne := nodup_split_ne (fun P : ProcessInfo => P.id) (hp ▸ hW2)
    have hprE : s.processes.filter (fun P => decide (P.id ≠ π)) = p1 ++ p2 := by
      rw [hp, List.filter_append, List.filter_cons]
      have hPt2 : (decide (Pt.id ≠ π)) = false := by simp [hPtpi]
      rw [hPt2, if_neg Bool.false_ne_true]
      rw [List.filter_eq_self.mpr, List.filter_eq_self.mpr]
      · intro P hP
        simp only [decide_eq_true_eq]
        rw [← hPtpi]
        exact hpne.2 P hP
      · intro P hP
        simp only [decide_eq_true_eq]
        rw [← hPtpi]
        exact hpne.1 P hP
    have hPtowned : Pt.totalCoresOwned = 0 := by
      rw [hPP Pt hPtmem, hPtid, htpid]
      rw [exclThreadCount, List.countP_eq_zero]
      intro u hu
      simp only [decide_eq_true_eq, not_and]
      intro hupid hust
      exact hnex ((hall u hu hupid) ▸ hust)
    have hsubpr : ∀ P ∈ s.processes.filter (fun P => decide (P.id ≠ π)),
        P ∈ s.processes ∧ P.id ≠ π := by
      intro P hP
      rw [List.mem_filter] at hP
      exact ⟨hP.1, by simpa using hP.2⟩
    have hmempr : ∀ P ∈ s.processes, P.id ≠ π →
        P ∈ s.processes.filter (fun P => decide (P.id ≠ π)) := by
      intro P hP hne
      rw [List.mem_filter]
      exact ⟨hP, by simpa using hne⟩
    refine ⟨⟨hW1', ?_, hW4, ?_, ?_⟩, ⟨?_, ?_, ?_⟩, ?_, ?_, ?_, ⟨hPn, hPo⟩, ?_⟩
    · exact hW2.sublist ((List.filter_sublist _).map _)
    · intro u hu
      obtain ⟨P2, hP2, hP2id⟩ := hW3 u (hsubth u hu)
      refine ⟨P2, hmempr P2 hP2 ?_, hP2id⟩
      rw [hP2id]
      exact hnone u hu
    · intro P hP
      obtain ⟨hP2, hPne⟩ := hsubpr P hP
      obtain ⟨u, hu, hupid⟩ := hW5 P hP2
      refine ⟨u, hmemth u hu ?_, hupid⟩
      intro h3
      have hut : u = t2 := huniqT u hu t2 ht (h3.trans htsk.symm)
      rw [hut, htpid] at hupid
      exact hPne hupid.symm
    · intro u hu hst
      exact hL1 u (hsubth u hu) hst
    · intro u hu hst
      exact hL2 u (hsubth u hu) hst
    · intro co hco sk2 hex2
      obtain ⟨u, hu, husk, hust, huco⟩ := hL3 co hco sk2 hex2
      have hsk2 : sk2 ≠ sk := hOwnSk co hco sk2 hex2
      exact ⟨u, hmemth u hu (husk ▸ hsk2), husk, hust, huco⟩
    · intro P hP
      obtain ⟨hP2, -⟩ := hsubpr P hP
      show P.totalCoresOwned = List.countP _ _
      rw [hcnt P.id]
      exact hPP P hP2
    · show sumOwned _ = occupiedCount _
      have h2 : sumOwned { s with
          threads := s.threads.filter (fun u => decide (u.socket ≠ sk)),
          processes := s.processes.filter (fun P => decide (P.id ≠ π)),
          corePriorityQueues := s.corePriorityQueues.map
            (fun q => q.filter (fun w => decide (w ≠ π))) } = sumOwned s := by
        unfold sumOwned
        show (List.map _ (s.processes.filter (fun P => decide (P.id ≠ π)))).sum = _
        rw [hprE, hp]
        simp only [List.map_append, List.map_cons, List.sum_append, List.sum_cons]
        omega
      rw [h2]
      exact hC
    · intro P hP
      obtain ⟨hP2, -⟩ := hsubpr P hP
      refine ⟨(hG P hP2).1, ?_⟩
      have h3 := (hG P hP2).2
      rwa [← hpendEq P.id] at h3
    · intro q hq pid2 hpid2
      show ∃ P ∈ s.processes.filter (fun P => decide (P.id ≠ π)), P.id = pid2
      simp only [List.mem_map] at hq
      obtain ⟨q0, hq0, rfl⟩ := hq
      rw [List.mem_filter] at hpid2
      obtain ⟨P2, hP2, hP2id⟩ := hQ q0 hq0 pid2 hpid2.1
      refine ⟨P2, hmempr P2 hP2 ?_, hP2id⟩
      rw [hP2id]
      simpa using hpid2.2

theorem inv_cleanupConnection {s : ServerState} (sk : Nat) (h : Inv s) :
    Inv (cleanupConnection s sk) := by
  unfold cleanupConnection
  cases hf : findThread s sk with
  | none => exact h
  | some t =>
    obtain ⟨ht, htsk⟩ := (findThread_eq_some_iff h.1.1).mp hf
    show Inv (
      let s1 := if t.state = RUNNING_EXCLUSIVE then evictCore s sk BLOCKED else s
      let s2 := { s1 with
        threads := s1.threads.filter (fun u => decide (u.socket ≠ sk)) }
      if s2.threads.any (fun u => decide (u.processId = t.processId)) then
        updateQueueMembership s2 t.processId
      else
        { s2 with
          processes := s2.processes.filter (fun P => decide (P.id ≠ t.processId)),
          corePriorityQueues := s2.corePriorityQueues.map
            (fun q => q.filter (fun w => decide (w ≠ t.processId))) })
    by_cases hex : t.state = RUNNING_EXCLUSIVE
    · rw [if_pos hex]
      obtain ⟨co, hcomem, htc, hcoex⟩ := h.2.1.1 t ht hex
      have hInv1 : Inv (evictCore s sk BLOCKED) :=
        inv_evictCore (by intro h2; cases h2) h ht htsk hex
      have hthU : (evictCore s sk BLOCKED).threads
          = updKey (fun u : ThreadInfo => u.socket) sk
            (fun u => { u with core := none, state := BLOCKED }) s.threads := by
        rw [evictCore_eq BLOCKED hf htc]
      have ht' : ({ t with core := none, state := BLOCKED } : ThreadInfo)
          ∈ (evictCore s sk BLOCKED).threads := by
        rw [hthU]
        have h5 := mem_updKey_of_mem (fun u : ThreadInfo => u.socket) sk
          (fun u => { u with core := none, state := BLOCKED }) ht
        rwa [if_pos htsk] at h5
      exact inv_removeThreadStep hInv1 ht' htsk (by intro h2; cases h2) rfl
    · rw [if_neg hex]
      exact inv_removeThreadStep h ht htsk hex rfl

theorem inv_step {s : ServerState} (ev : Event) (h : Inv s) : Inv (step s ev) := by
  cases ev with
  | register pid tid sk => exact inv_threadRegister pid tid sk h
  | request sk desired => exact inv_coresRequested sk desired h
  | block sk => exact inv_threadBlocking sk h
  | timeout fd => exact inv_timeoutThreadPreemption fd h
  | disconnect sk => exact inv_cleanupConnection sk h

/-- Every reachable state satisfies the inductive invariant. -/
theorem reachable_inv {s : ServerState} (h : Reachable s) : Inv s := by
  induction h with
  | init ids hnd => exact inv_initState hnd
  | step ev _ ih => exact inv_step ev ih

/-! ### Monotonicity of the release counters -/

theorem procLe_refl (P : ProcessInfo) : ProcLe P P :=
  ⟨Nat.le_refl _, Nat.le_refl _⟩

theorem procLe_trans {P Q R : ProcessInfo} (h1 : ProcLe P Q) (h2 : ProcLe Q R) :
    ProcLe P R :=
  ⟨Nat.le_trans h1.1 h2.1, Nat.le_trans h1.2 h2.2⟩

theorem procsBack_of_eq {s t : ServerState} (h : t.processes = s.processes) :
    ProcsBack s t := by
  intro Q hQ
  rw [h] at hQ
  exact ⟨Q, hQ, rfl, procLe_refl Q⟩

theorem procsBack_trans {s t u : ServerState} (h1 : ProcsBack s t)
    (h2 : ProcsBack t u) : ProcsBack s u := by
  intro Q hQ
  obtain ⟨M, hM, hMid, hMle⟩ := h2 Q hQ
  obtain ⟨P, hP, hPid, hPle⟩ := h1 M hM
  exact ⟨P, hP, hPid.trans hMid, procLe_trans hPle hMle⟩

theorem procsBack_updKey {s t : ServerState} {pid : Nat}
    {f : ProcessInfo → ProcessInfo}
    (h : t.processes = updKey (fun P => P.id) pid f s.processes)
    (hf : ∀ P : ProcessInfo, (f P).id = P.id ∧ ProcLe P (f P)) :
    ProcsBack s t := by
  intro Q hQ
  rw [h] at hQ
  obtain ⟨x, hx, hQx⟩ := mem_updKey_iff.mp hQ
  by_cases hk : x.id = pid
  · rw [if_pos hk] at hQx
    exact ⟨x, hx, by rw [hQx, (hf x).1], hQx ▸ (hf x).2⟩
  · rw [if_neg hk] at hQx
    exact ⟨x, hx, by rw [hQx], hQx ▸ procLe_refl x⟩

theorem procsBack_filter {s t : ServerState} (p : ProcessInfo → Bool)
    (h : t.processes = s.processes.filter p) : ProcsBack s t := by
  intro Q hQ
  rw [h] at hQ
  exact ⟨Q, List.mem_of_mem_filter hQ, rfl, procLe_refl Q⟩

theorem procsBack_evictCore (s : ServerState) (sk : Nat) (st : ThreadState) :
    ProcsBack s (evictCore s sk st) := by
  cases hft : findThread s sk with
  | none =>
    unfold evictCore
    rw [hft]
    exact procsBack_of_eq rfl
  | some t =>
    cases htc : t.core with
    | none =>
      unfold evictCore
      rw [hft]
      simp only [htc]
      exact procsBack_of_eq rfl
    | some c =>
      rw [evictCore_eq st hft htc]
      refine procsBack_updKey rfl ?_
      intro P
      refine ⟨rfl, Nat.le_refl _, ?_⟩
      show P.coreReleaseCount ≤
        (if P.coreReleaseCount < P.coreReleaseRequestCount then
          P.coreReleaseCount + 1 else P.coreReleaseCount)
      by_cases hlt : P.coreReleaseCount < P.coreReleaseRequestCount
      · rw [if_pos hlt]
        exact Nat.le_succ _
      · rw [if_neg hlt]

theorem procsBack_grantCore (s : ServerState) (c p pid sk : Nat) :
    ProcsBack s (grantCore s c p pid sk) :=
  procsBack_updKey rfl (fun P => ⟨rfl, Nat.le_refl _, Nat.le_refl _⟩)

theorem procsBack_requestCoreRelease (s : ServerState) (c : Nat) :
    ProcsBack s (requestCoreRelease s c) := by
  unfold requestCoreRelease
  cases ho : coreOwnerPid s c with
  | none => exact procsBack_of_eq rfl
  | some pid =>
    exact procsBack_updKey rfl (fun P => ⟨rfl, Nat.le_succ _, Nat.le_refl _⟩)

theorem procsBack_phase1Go :
    ∀ (cs : List Nat) (s : ServerState), ProcsBack s (phase1Go s cs) := by
  intro cs
  induction cs with
  | nil => intro s; exact procsBack_of_eq rfl
  | cons c rest ih =>
    intro s
    show ProcsBack s (phase1Go s (c :: rest))
    unfold phase1Go
    cases hcc : chooseCandidate s with
    | none => exact procsBack_of_eq rfl
    | some r =>
      obtain ⟨p, pid, sk⟩ := r
      show ProcsBack s (phase1Go (grantCore s c p pid sk) rest)
      exact procsBack_trans (procsBack_grantCore s c p pid sk) (ih _)

theorem procsBack_phase2_fold :
    ∀ (cs : List Nat) (s : ServerState),
    ProcsBack s (cs.foldl (fun s2 c =>
      if shouldRequestRelease s2 c then requestCoreRelease s2 c else s2) s) := by
  intro cs
  induction cs with
  | nil => intro s; exact procsBack_of_eq rfl
  | cons c rest ih =>
    intro s
    rw [List.foldl_cons]
    refine procsBack_trans ?_ (ih _)
    by_cases hc : shouldRequestRelease s c = true
    · rw [if_pos hc]
      exact procsBack_requestCoreRelease s c
    · rw [if_neg hc]
      exact procsBack_of_eq rfl

theorem procsBack_distributeCores (s : ServerState) :
    ProcsBack s (distributeCores s) :=
  procsBack_trans (procsBack_phase1Go (freeCoreIds s) s)
    (procsBack_phase2_fold _ _)

theorem procsBack_preemptTimeoutCore (s : ServerState) (pid : Nat) :
    ProcsBack s (preemptTimeoutCore s pid) := by
  unfold preemptTimeoutCore
  cases hl : lowestPrioritySession s pid with
  | none => exact procsBack_of_eq rfl
  | some t =>
    have h1 : ProcsBack s (updateProcess s pid
        (fun P => { P with threadPreempted := true })) :=
      procsBack_updKey rfl (fun P => ⟨rfl, Nat.le_refl _, Nat.le_refl _⟩)
    exact procsBack_trans h1 (procsBack_evictCore _ t.socket RUNNING_PREEMPTED)

theorem procsBack_removeThreadStep {s0 s : ServerState} {sk π : Nat}
    (h : ProcsBack s0 s) :
    ProcsBack s0 (if (s.threads.filter (fun u => decide (u.socket ≠ sk))).any
            (fun u => decide (u.processId = π))
         then updateQueueMembership
           { s with threads := s.threads.filter (fun u => decide (u.socket ≠ sk)) } π
         else { s with
           threads := s.threads.filter (fun u => decide (u.socket ≠ sk)),
           processes := s.processes.filter (fun P => decide (P.id ≠ π)),
           corePriorityQueues := s.corePriorityQueues.map
             (fun q => q.filter (fun w => decide (w ≠ π))) }) := by
  by_cases hany : ((s.threads.filter (fun u => decide (u.socket ≠ sk))).any
      (fun u => decide (u.processId = π))) = true
  · rw [if_pos hany]
    exact procsBack_trans h (procsBack_of_eq rfl)
  · rw [if_neg hany]
    exact procsBack_trans h (procsBack_filter _ rfl)

theorem procsBack_coresRequested (s : ServerState) (sk : Nat)
    (desired : List Nat) : ProcsBack s (coresRequested s sk desired) := by
  unfold coresRequested
  cases hft : findThread s sk with
  | none => exact procsBack_of_eq rfl
  | some t =>
    have h1 : ProcsBack s (updateQueueMembership (updateProcess s t.processId
        (fun P => { P with desiredCorePriorities := desired })) t.processId) :=
      procsBack_updKey rfl (fun P => ⟨rfl, Nat.le_refl _, Nat.le_refl _⟩)
    exact procsBack_trans h1 (procsBack_distributeCores _)

theorem procsBack_threadBlocking (s : ServerState) (sk : Nat) :
    ProcsBack s (threadBlocking s sk) := by
  unfold threadBlocking
  cases hf : findThread s sk with
  | none => exact procsBack_of_eq rfl
  | some t =>
    show ProcsBack s (match t.state with
      | RUNNING_EXCLUSIVE =>
        match findProcess s t.processId with
        | none => s
        | some P =>
          if P.coreReleaseCount < P.coreReleaseRequestCount then
            distributeCores
              (updateQueueMembership (evictCore s sk BLOCKED) t.processId)
          else s
      | BLOCKED => s
      | RUNNING_UNMANAGED => distributeCores (changeThreadState s sk BLOCKED)
      | RUNNING_PREEMPTED =>
        distributeCores (changeThreadState
          (if s.threads.any (fun u => decide (u.processId = t.processId ∧
              u.socket ≠ sk ∧ u.state = RUNNING_PREEMPTED)) then s
           else updateProcess s t.processId
             (fun P => { P with threadPreempted := false })) sk BLOCKED))
    cases hts : t.state with
    | RUNNING_EXCLUSIVE =>
      cases hp : findProcess s t.processId with
      | none => exact procsBack_of_eq rfl
      | some P =>
        show ProcsBack s (if P.coreReleaseCount < P.coreReleaseRequestCount then
          distributeCores
            (updateQueueMembership (evictCore s sk BLOCKED) t.processId)
          else s)
        by_cases howed : P.coreReleaseCount < P.coreReleaseRequestCount
        · rw [if_pos howed]
          have h1 : ProcsBack s
              (updateQueueMembership (evictCore s sk BLOCKED) t.processId) :=
            procsBack_evictCore s sk BLOCKED
          exact procsBack_trans h1 (procsBack_distributeCores _)
        · rw [if_neg howed]
          exact procsBack_of_eq rfl
    | BLOCKED => exact procsBack_of_eq rfl
    | RUNNING_UNMANAGED =>
      exact procsBack_trans (procsBack_of_eq rfl) (procsBack_distributeCores _)
    | RUNNING_PREEMPTED =>
      by_cases hother : s.threads.any (fun u => decide (u.processId = t.processId ∧
          u.socket ≠ sk ∧ u.state = RUNNING_PREEMPTED)) = true
      · rw [if_pos hother]
        exact procsBack_trans (procsBack_of_eq rfl) (procsBack_distributeCores _)
      · rw [if_neg hother]
        have h1 : ProcsBack s (changeThreadState (updateProcess s t.processId
            (fun P => { P with threadPreempted := false })) sk BLOCKED) :=
          procsBack_updKey rfl (fun P => ⟨rfl, Nat.le_refl _, Nat.le_refl _⟩)
        exact procsBack_trans h1 (procsBack_distributeCores _)

theorem procsBack_timeoutThreadPreemption (s : ServerState) (fd : Nat) :
    ProcsBack s (timeoutThreadPreemption s fd) := by
  unfold timeoutThreadPreemption
  cases hg : alistGet s.timerFdToProcessId fd with
  | none => exact procsBack_of_eq rfl
  | some pid =>
    show ProcsBack s (match findProcess { s with
        timerFdToProcessId := alistRemove s.timerFdToProcessId fd } pid with
      | none => { s with timerFdToProcessId := alistRemove s.timerFdToProcessId fd }
      | some P =>
        if P.coreReleaseCount < P.coreReleaseRequestCount then
          distributeCores (preemptTimeoutCore
            { s with timerFdToProcessId := alistRemove s.timerFdToProcessId fd } pid)
        else { s with timerFdToProcessId := alistRemove s.timerFdToProcessId fd })
    cases hp : findProcess { s with
        timerFdToProcessId := alistRemove s.timerFdToProcessId fd } pid with
    | none => exact procsBack_of_eq rfl
    | some P =>
      show ProcsBack s (if P.coreReleaseCount < P.coreReleaseRequestCount then
          distributeCores (preemptTimeoutCore
            { s with timerFdToProcessId := alistRemove s.timerFdToProcessId fd } pid)
        else { s with timerFdToProcessId := alistRemove s.timerFdToProcessId fd })
      by_cases howed : P.coreReleaseCount < P.coreReleaseRequestCount
      · rw [if_pos howed]
        refine procsBack_trans ?_ (procsBack_distributeCores _)
        exact procsBack_trans (procsBack_of_eq rfl)
          (procsBack_preemptTimeoutCore _ pid)
      · rw [if_neg howed]
        exact procsBack_of_eq rfl

theorem procsBack_cleanupConnection (s : ServerState) (sk : Nat) :
    ProcsBack s (cleanupConnection s sk) := by
  unfold cleanupConnection
  cases hf : findThread s sk with
  | none => exact procsBack_of_eq rfl
  | some t =>
    show ProcsBack s (
      let s1 := if t.state = RUNNING_EXCLUSIVE then evictCore s sk BLOCKED else s
      let s2 := { s1 with
        threads := s1.threads.filter (fun u => decide (u.socket ≠ sk)) }
      if s2.threads.any (fun u => decide (u.processId = t.processId)) then
        updateQueueMembership s2 t.processId
      else
        { s2 with
          processes := s2.processes.filter (fun P => decide (P.id ≠ t.processId)),
          corePriorityQueues := s2.corePriorityQueues.map
            (fun q => q.filter (fun w => decide (w ≠ t.processId))) })
    by_cases hex : t.state = RUNNING_EXCLUSIVE
    · rw [if_pos hex]
      exact procsBack_removeThreadStep (procsBack_evictCore s sk BLOCKED)
    · rw [if_neg hex]
      exact procsBack_removeThreadStep (procsBack_of_eq rfl)

/-! ### Structure of the phase-1 candidate choice -/

theorem chooseFromQueue_none {s : ServerState} :
    ∀ q : List Nat, chooseFromQueue s q = none →
    ∀ pid ∈ q, firstBlockedThread s pid = none := by
  intro q
  induction q with
  | nil => intro _ pid hpid; cases hpid
  | cons x rest ih =>
    intro h pid hpid
    unfold chooseFromQueue at h
    cases hx : firstBlockedThread s x with
    | some sk =>
      rw [hx] at h
      have h2 : (some (x, sk) : Option (Nat × Nat)) = none := h
      exact Option.noConfusion h2
    | none =>
      rw [hx] at h
      have h2 : chooseFromQueue s rest = none := h
      rcases List.mem_cons.mp hpid with rfl | hm
      · exact hx
      · exact ih h2 pid hm

theorem chooseFromQueue_prefix {s : ServerState} :
    ∀ (l1 : List Nat) (A : Nat) (rest : List Nat) (r : Nat × Nat),
    firstBlockedThread s A ≠ none →
    chooseFromQueue s (l1 ++ A :: rest) = some r → r.1 ∈ l1 ∨ r.1 = A := by
  intro l1
  induction l1 with
  | nil =>
    intro A rest r hA h
    rw [List.nil_append] at h
    unfold chooseFromQueue at h
    cases hx : firstBlockedThread s A with
    | none => exact absurd hx hA
    | some sk =>
      rw [hx] at h
      have h2 : (some (A, sk) : Option (Nat × Nat)) = some r := h
      injection h2 with h3
      subst h3
      exact Or.inr rfl
  | cons x xs ih =>
    intro A rest r hA h
    rw [List.cons_append] at h
    unfold chooseFromQueue at h
    cases hx : firstBlockedThread s x with
    | some sk =>
      rw [hx] at h
      have h2 : (some (x, sk) : Option (Nat × Nat)) = some r := h
      injection h2 with h3
      subst h3
      exact Or.inl (List.mem_cons_self x xs)
    | none =>
      rw [hx] at h
      have h2 : chooseFromQueue s (xs ++ A :: rest) = some r := h
      rcases ih A rest r hA h2 with hm | hA2
      · exact Or.inl (List.mem_cons_of_mem x hm)
      · exact Or.inr hA2

theorem chooseCandidateGo_queue {s : ServerState} :
    ∀ (qs : List (List Nat)) (n p pid sk : Nat),
    chooseCandidateGo s n qs = some (p, pid, sk) →
    n ≤ p ∧ p - n < qs.length ∧
    chooseFromQueue s (qs.getD (p - n) []) = some (pid, sk) ∧
    (∀ j < p - n, chooseFromQueue s (qs.getD j []) = none) := by
  intro qs
  induction qs with
  | nil =>
    intro n p pid sk h
    exact Option.noConfusion h
  | cons q rest ih =>
    intro n p pid sk h
    unfold chooseCandidateGo at h
    cases hq : chooseFromQueue s q with
    | some r =>
      rw [hq] at h
      obtain ⟨pid2, sk2⟩ := r
      have h2 : (some (n, pid2, sk2) : Option (Nat × Nat × Nat))
          = some (p, pid, sk) := h
      injection h2 with h3
      rw [Prod.mk.injEq, Prod.mk.injEq] at h3
      obtain ⟨rfl, rfl, rfl⟩ := h3
      refine ⟨Nat.le_refl n, ?_, ?_, ?_⟩
      · rw [Nat.sub_self]
        exact Nat.succ_pos _
      · rw [Nat.sub_self, List.getD_cons_zero]
        exact hq
      · intro j hj
        rw [Nat.sub_self] at hj
        exact absurd hj (Nat.not_lt_zero j)
    | none =>
      rw [hq] at h
      have h2 : chooseCandidateGo s (n + 1) rest = some (p, pid, sk) := h
      obtain ⟨hnp, hlen, hcq, hall⟩ := ih (n + 1) p pid sk h2
      have hn : n ≤ p := Nat.le_of_succ_le hnp
      have hpn : p - n = (p - (n + 1)) + 1 := by omega
      refine ⟨hn, ?_, ?_, ?_⟩
      · rw [hpn, List.length_cons]
        exact Nat.succ_lt_succ hlen
      · rw [hpn, List.getD_cons_succ]
        exact hcq
      · intro j hj
        cases j with
        | zero =>
          rw [List.getD_cons_zero]
          exact hq
        | succ j2 =>
          rw [List.getD_cons_succ]
          refine hall j2 ?_
          omega

theorem chooseCandidate_queue {s : ServerState} {p pid sk : Nat}
    (h : chooseCandidate s = some (p, pid, sk)) :
    p < s.corePriorityQueues.length ∧
    chooseFromQueue s (s.corePriorityQueues.getD p []) = some (pid, sk) ∧
    ∀ j < p, chooseFromQueue s (s.corePriorityQueues.getD j []) = none := by
  obtain ⟨hnp, hlen, hcq, hall⟩ :=
    chooseCandidateGo_queue s.corePriorityQueues 0 p pid sk h
  rw [Nat.sub_zero] at hlen hcq
  refine ⟨hlen, hcq, ?_⟩
  intro j hj
  refine hall j ?_
  omega

/-! ### The victim scan picks a maximal grant priority -/

theorem betterVictim_some_cases (s : ServerState) (v a : ThreadInfo) :
    (betterVictim s (some v) a = some a ∧
      threadGrantPriority s v ≤ threadGrantPriority s a) ∨
    (betterVictim s (some v) a = some v ∧
      threadGrantPriority s a ≤ threadGrantPriority s v) := by
  show ((if threadGrantPriority s v < threadGrantPriority s a then some a
          else some v) = some a ∧
        threadGrantPriority s v ≤ threadGrantPriority s a) ∨
       ((if threadGrantPriority s v < threadGrantPriority s a then some a
          else some v) = some v ∧
        threadGrantPriority s a ≤ threadGrantPriority s v)
  by_cases hlt : threadGrantPriority s v < threadGrantPriority s a
  · rw [if_pos hlt]
    exact Or.inl ⟨rfl, Nat.le_of_lt hlt⟩
  · rw [if_neg hlt]
    exact Or.inr ⟨rfl, Nat.le_of_not_lt hlt⟩

theorem foldl_betterVictim_isSome (s : ServerState) :
    ∀ (l : List ThreadInfo) (u : ThreadInfo),
    (l.foldl (betterVictim s) (some u)).isSome = true := by
  intro l
  induction l with
  | nil => intro u; rfl
  | cons a rest ih =>
    intro u
    rw [List.foldl_cons]
    show (rest.foldl (betterVictim s)
      (if threadGrantPriority s u < threadGrantPriority s a then some a
       else some u)).isSome = true
    by_cases hlt : threadGrantPriority s u < threadGrantPriority s a
    · rw [if_pos hlt]
      exact ih a
    · rw [if_neg hlt]
      exact ih u

theorem foldl_betterVictim_max (s : ServerState) :
    ∀ (l : List ThreadInfo) (acc : Option ThreadInfo) (x : ThreadInfo),
    l.foldl (betterVictim s) acc = some x →
    (∀ u ∈ l, threadGrantPriority s u ≤ threadGrantPriority s x) ∧
    (∀ u, acc = some u →
      threadGrantPriority s u ≤ threadGrantPriority s x) := by
  intro l
  induction l with
  | nil =>
    intro acc x h
    refine ⟨fun u hu => absurd hu (List.not_mem_nil u), fun u hacc => ?_⟩
    rw [List.foldl_nil] at h
    rw [hacc] at h
    injection h with h2
    rw [h2]
  | cons a rest ih =>
    intro acc x h
    rw [List.foldl_cons] at h
    obtain ⟨hrest, hacc2⟩ := ih (betterVictim s acc a) x h
    cases acc with
    | none =>
      refine ⟨?_, fun u h0 => Option.noConfusion h0⟩
      intro u hu
      rcases List.mem_cons.mp hu with rfl | hm
      · exact hacc2 u rfl
      · exact hrest u hm
    | some v =>
      obtain ⟨ha, hv⟩ : threadGrantPriority s a ≤ threadGrantPriority s x ∧
          threadGrantPriority s v ≤ threadGrantPriority s x := by
        rcases betterVictim_some_cases s v a with ⟨hba, hva⟩ | ⟨hbv, hav⟩
        · have ha := hacc2 a hba
          exact ⟨ha, Nat.le_trans hva ha⟩
        · have hv := hacc2 v hbv
          exact ⟨Nat.le_trans hav hv, hv⟩
      refine ⟨?_, ?_⟩
      · intro u hu
        rcases List.mem_cons.mp hu with rfl | hm
        · exact ha
        · exact hrest u hm
      · intro u h0
        injection h0 with h1
        rw [← h1]
        exact hv

theorem lowestPrioritySession_isSome {s : ServerState} {pid : Nat}
    (h : s.threads.filter (fun t =>
      decide (t.processId = pid ∧ t.state = RUNNING_EXCLUSIVE)) ≠ []) :
    ∃ t, lowestPrioritySession s pid = some t := by
  unfold lowestPrioritySession
  cases hfl : s.threads.filter (fun t =>
      decide (t.processId = pid ∧ t.state = RUNNING_EXCLUSIVE)) with
  | nil => exact absurd hfl h
  | cons a l =>
    rw [List.foldl_cons]
    have h2 : (l.foldl (betterVictim s) (betterVictim s none a)).isSome
        = true := foldl_betterVictim_isSome s l a
    cases h3 : l.foldl (betterVictim s) (betterVictim s none a) with
    | none =>
      rw [h3] at h2
      exact Bool.noConfusion h2
    | some t => exact ⟨t, rfl⟩

theorem lowestPrioritySession_max {s : ServerState} {pid : Nat} {t : ThreadInfo}
    (h : lowestPrioritySession s pid = some t) :
    ∀ u ∈ s.threads, u.processId = pid → u.state = RUNNING_EXCLUSIVE →
      threadGrantPriority s u ≤ threadGrantPriority s t := by
  intro u hu hupid hust
  have h0 : (s.threads.filter (fun t2 =>
      decide (t2.processId = pid ∧ t2.state = RUNNING_EXCLUSIVE))).foldl
      (betterVictim s) none = some t := h
  have hmem : u ∈ s.threads.filter (fun t2 =>
      decide (t2.processId = pid ∧ t2.state = RUNNING_EXCLUSIVE)) := by
    rw [List.mem_filter]
    refine ⟨hu, ?_⟩
    simp [hupid, hust]
  exact (foldl_betterVictim_max s _ none t h0).1 u hmem

/-! ### Reachability of the concrete scenarios -/

theorem reachable_foldl (evs : List Event) :
    ∀ s : ServerState, Reachable s → Reachable (evs.foldl step s) := by
  induction evs with
  | nil => intro s h; exact h
  | cons e rest ih =>
    intro s h
    rw [List.foldl_cons]
    exact ih _ (Reachable.step e h)

theorem reachable_cleanupAll (sks : List Nat) :
    ∀ s : ServerState, Reachable s → Reachable (cleanupAll s sks) := by
  induction sks with
  | nil => intro s h; exact h
  | cons sk rest ih =>
    intro s h
    show Reachable (cleanupAll (cleanupConnection s sk) rest)
    exact ih _ (Reachable.step (.disconnect sk) h)

theorem scenarioPre_reachable : Reachable scenarioPre :=
  reachable_foldl (scenarioEvents.take 7) (initState [10, 11])
    (Reachable.init [10, 11] (by decide))

theorem scenarioState_reachable : Reachable scenarioState :=
  reachable_foldl scenarioEvents (initState [10, 11])
    (Reachable.init [10, 11] (by decide))

theorem fifoState_reachable : Reachable fifoState :=
  reachable_foldl fifoEvents (initState [])
    (Reachable.init [] (by decide))

theorem c8Pre_reachable : Reachable c8Pre :=
  reachable_foldl c8WithEvents (initState [10])
    (Reachable.init [10] (by decide))

theorem c8With_reachable : Reachable c8With :=
  reachable_cleanupAll (socketsOf c8Pre 2) c8Pre c8Pre_reachable

theorem c8Without_reachable : Reachable c8Without :=
  reachable_foldl c8WithoutEvents (initState [10])
    (Reachable.init [10] (by decide))

theorem c10State_reachable : Reachable c10State :=
  reachable_foldl c10Events (initState [10])
    (Reachable.init [10] (by decide))

/-! ### The release gap is covered by distinct owned cores -/

theorem pendCount_le_exclThreadCount {s : ServerState} (h : Inv s)
    (pid : Nat) : pendCount s pid ≤ exclThreadCount s pid := by
  obtain ⟨⟨hW1, hW2, hW4, hW3, hW5⟩, ⟨hL1, hL2, hL3⟩, hPP, hC, hG, ⟨hPn, hPo⟩,
    hQ⟩ := h
  have key : ∀ c ∈ s.pendingReleaseCores.filter
      (fun c => decide (coreOwnerPid s c = some pid)),
      ∃ t ∈ s.threads, t.processId = pid ∧ t.state = RUNNING_EXCLUSIVE ∧
        t.core = some c ∧
        ((findCore s c).bind (fun co => co.exclusiveThread)).getD 0
          = t.socket := by
    intro c hc
    rw [List.mem_filter] at hc
    have hown : coreOwnerPid s c = some pid := by
      have h2 := hc.2
      simpa using h2
    obtain ⟨co, hfc, sk, t, hex, hft, htpid⟩ := coreOwnerPid_some_elim hown
    have hcomem : co ∈ s.exclusiveCores := List.mem_of_find?_eq_some hfc
    have hcid : co.id = c := by
      have h3 := List.find?_some hfc
      simpa using h3
    obtain ⟨u, hu, husk, hust, hucore⟩ := hL3 co hcomem sk hex
    obtain ⟨htmem, htsk⟩ := (findThread_eq_some_iff hW1).mp hft
    have hut : u = t := nodup_key_eq _ hW1 hu htmem (by rw [husk, htsk])
    refine ⟨t, htmem, htpid, by rw [← hut]; exact hust, ?_, ?_⟩
    · rw [← hut, hucore, hcid]
    · rw [hfc]
      show co.exclusiveThread.getD 0 = t.socket
      rw [hex]
      exact htsk.symm
  have hsub : ((s.pendingReleaseCores.filter
        (fun c => decide (coreOwnerPid s c = some pid))).map
        (fun c => ((findCore s c).bind
          (fun co => co.exclusiveThread)).getD 0)) ⊆
      ((s.threads.filter (fun t =>
        decide (t.processId = pid ∧ t.state = RUNNING_EXCLUSIVE))).map
        (fun t => t.socket)) := by
    intro x hx
    rw [List.mem_map] at hx
    obtain ⟨c, hc, rfl⟩ := hx
    obtain ⟨t, htmem, htpid, htst, htc, hgc⟩ := key c hc
    rw [hgc, List.mem_map]
    exact ⟨t, List.mem_filter.mpr ⟨htmem, by simp [htpid, htst]⟩, rfl⟩
  have hnd : ((s.pendingReleaseCores.filter
        (fun c => decide (coreOwnerPid s c = some pid))).map
        (fun c => ((findCore s c).bind
          (fun co => co.exclusiveThread)).getD 0)).Nodup := by
    refine List.Nodup.map_on ?_ (hPn.filter _)
    intro c1 hc1 c2 hc2 hgeq
    obtain ⟨t1, h1m, h1p, h1s, h1c, h1g⟩ := key c1 hc1
    obtain ⟨t2, h2m, h2p, h2s, h2c, h2g⟩ := key c2 hc2
    rw [h1g, h2g] at hgeq
    have ht12 : t1 = t2 := nodup_key_eq _ hW1 h1m h2m hgeq
    have hsome : some c1 = some c2 := by rw [← h1c, ht12, h2c]
    exact Option.some.inj hsome
  have hsp := (List.Nodup.subperm hnd hsub).length_le
  rw [List.length_map, List.length_map] at hsp
  unfold pendCount exclThreadCount
  rw [List.countP_eq_length_filter]
  exact hsp

/-! ### The claims -/

/-- C1: in every reachable server state, every `RUNNING_EXCLUSIVE` session
points at a managed core whose `exclusiveThread` points back at the session;
every core whose `exclusiveThread` is a session has that session in state
`RUNNING_EXCLUSIVE` holding exactly this core; and a session is the
`exclusiveThread` of at most one core, so the two links are mutually
inverse. -/
theorem exclusive_session_core_link (s : ServerState) (h : Reachable s) :
    SessionCoreLinked s := by
  have hInv := reachable_inv h
  have hW1 := hInv.1.1
  have hW4 := hInv.1.2.2.1
  have hL1 := hInv.2.1.1
  have hL3 := hInv.2.1.2.2
  refine ⟨hL1, ?_, ?_⟩
  · intro co hco t ht hex
    obtain ⟨u, hu, husk, hust, hucore⟩ := hL3 co hco t.socket hex
    have hut : u = t := nodup_key_eq _ hW1 hu ht husk
    exact ⟨by rw [← hut]; exact hust, by rw [← hut]; exact hucore⟩
  · intro co hco co2 hco2 sk hex hex2
    obtain ⟨u, hu, husk, hust, hucore⟩ := hL3 co hco sk hex
    obtain ⟨u2, hu2, husk2, hust2, hucore2⟩ := hL3 co2 hco2 sk hex2
    have huu : u = u2 := nodup_key_eq _ hW1 hu hu2 (by rw [husk, husk2])
    have hcc : some co.id = some co2.id := by rw [← hucore, huu, hucore2]
    exact nodup_key_eq _ hW4 hco hco2 (Option.some.inj hcc)

theorem exclusive_session_core_link_witness :
    SessionCoreLinked scenarioState :=
  exclusive_session_core_link scenarioState scenarioState_reachable

/-- C2: in every reachable server state the sum of `totalCoresOwned` over the
registered processes equals the number of managed cores whose
`exclusiveThread` is set, which is at most the number of managed cores. -/
theorem owned_cores_accounting (s : ServerState) (h : Reachable s) :
    sumOwned s = occupiedCount s ∧
    occupiedCount s ≤ s.exclusiveCores.length := by
  have hInv := reachable_inv h
  refine ⟨hInv.2.2.2.1, ?_⟩
  unfold occupiedCount
  exact List.countP_le_length _

theorem owned_cores_accounting_witness :
    sumOwned scenarioState = occupiedCount scenarioState ∧
    occupiedCount scenarioState ≤ scenarioState.exclusiveCores.length :=
  owned_cores_accounting scenarioState scenarioState_reachable

/-- C3: grants among equal-priority processes follow the FIFO order of the
per-priority queue: if queue `p` holds `A` before `B` (with `B` not ahead of
`A`) and `A` has a BLOCKED session, then the allocator's candidate choice at
priority `p` is never `B`. -/
theorem fifo_equal_priority (s : ServerState) (p A B skA : Nat)
    (l1 l2 l3 : List Nat)
    (hq : s.corePriorityQueues.getD p [] = l1 ++ A :: (l2 ++ B :: l3))
    (hBl1 : B ∉ l1) (hBA : B ≠ A)
    (hA : firstBlockedThread s A = some skA) :
    ∀ sk : Nat, chooseCandidate s ≠ some (p, B, sk) := by
  intro sk hcc
  obtain ⟨hlen, hcq, hall⟩ := chooseCandidate_queue hcc
  rw [hq] at hcq
  have hAne : firstBlockedThread s A ≠ none := by
    rw [hA]
    exact fun h2 => Option.noConfusion h2
  rcases chooseFromQueue_prefix l1 A (l2 ++ B :: l3) (B, sk) hAne hcq with
    hm | hA2
  · exact hBl1 hm
  · exact hBA hA2

theorem fifo_equal_priority_witness :
    chooseCandidate fifoState ≠ some (0, 2, 2) :=
  fifo_equal_priority fifoState 0 1 2 1 [] [] [] (by decide) (by decide)
    (by decide) (by decide) 2

/-- C4 (amended): when the allocator chooses a candidate at priority `p`,
every process sitting in a strictly higher-priority queue has no BLOCKED
session; strict priority holds only among processes that currently have a
BLOCKED session to put on the core. -/
theorem strict_priority_among_blocked (s : ServerState) (p pid sk : Nat)
    (h : chooseCandidate s = some (p, pid, sk)) :
    ∀ p2 : Nat, p2 < p → ∀ W ∈ s.corePriorityQueues.getD p2 [],
      firstBlockedThread s W = none := by
  intro p2 hp2 W hW
  obtain ⟨hlen, hcq, hall⟩ := chooseCandidate_queue h
  exact chooseFromQueue_none _ (hall p2 hp2) W hW

theorem strict_priority_among_blocked_witness :
    firstBlockedThread strictPriorityWitnessState 1 = none :=
  strict_priority_among_blocked strictPriorityWitnessState 1 3 3 (by decide)
    0 (by decide) 1 (by decide)

/-- C4 counterexample: in the reachable execution of `scenarioEvents`, the
final `CORES_REQUESTED` step takes the server from `scenarioPre` to
`scenarioState` and grants process 3 a new core (thread 3 goes from BLOCKED
without a core to `RUNNING_EXCLUSIVE` on core 11, recorded as granted at
priority 1) while process 1 has unsatisfied demand at the strictly higher
priority 0 (it sits in queue 0, desires one core there and owns none) and
process 2 holds core 10 at priority 1 ≥ 1, a holder that could be (and in
fact had been) asked to release.  The claim as stated is therefore false:
process 1 has no BLOCKED session, so the allocator skips it. -/
theorem strict_priority_counterexample :
    Reachable scenarioState ∧
    (scenarioState
        = step scenarioPre (Event.request 3 [0, 1, 0, 0, 0, 0, 0, 0]) ∧
     (findThread scenarioPre 3).map (fun t => (t.state, t.core))
        = some (BLOCKED, none) ∧
     (findThread scenarioState 3).map (fun t => (t.state, t.core))
        = some (RUNNING_EXCLUSIVE, some 11) ∧
     alistGet scenarioState.grantedAt 11 = some 1 ∧
     scenarioState.corePriorityQueues.getD 0 [] = [1] ∧
     (findProcess scenarioState 1).map
        (fun P => (P.desiredCorePriorities.getD 0 0, P.totalCoresOwned))
        = some (1, 0) ∧
     (findCore scenarioState 10).map (fun co => co.exclusiveThread)
        = some (some 2) ∧
     (findThread scenarioState 2).map (fun t => t.processId) = some 2 ∧
     alistGet scenarioState.grantedAt 10 = some 1) :=
  ⟨scenarioState_reachable, by decide⟩

/-- C6: in every reachable state every registered process satisfies
`coreReleaseCount ≤ coreReleaseRequestCount`, and the gap between the two
counters never exceeds the process's `totalCoresOwned`. -/
theorem release_counter_gap (s : ServerState) (P : ProcessInfo)
    (h : Reachable s) (hP : P ∈ s.processes) :
    P.coreReleaseCount ≤ P.coreReleaseRequestCount ∧
    P.coreReleaseRequestCount - P.coreReleaseCount ≤ P.totalCoresOwned := by
  have hInv := reachable_inv h
  obtain ⟨hle, hgap⟩ := hInv.2.2.2.2.1 P hP
  refine ⟨hle, ?_⟩
  have h2 := pendCount_le_exclThreadCount hInv P.id
  have h3 : P.totalCoresOwned = exclThreadCount s P.id := hInv.2.2.1 P hP
  omega

theorem release_counter_gap_witness :
    ({ id := 2, coreReleaseRequestCount := 1, threadPreempted := false,
       coreReleaseCount := 0, totalCoresOwned := 1,
       desiredCorePriorities := [0, 1, 0, 0, 0, 0, 0, 0] }
      : ProcessInfo).coreReleaseCount ≤
      ({ id := 2, coreReleaseRequestCount := 1, threadPreempted := false,
         coreReleaseCount := 0, totalCoresOwned := 1,
         desiredCorePriorities := [0, 1, 0, 0, 0, 0, 0, 0] }
        : ProcessInfo).coreReleaseRequestCount ∧
    ({ id := 2, coreReleaseRequestCount := 1, threadPreempted := false,
       coreReleaseCount := 0, totalCoresOwned := 1,
       desiredCorePriorities := [0, 1, 0, 0, 0, 0, 0, 0] }
      : ProcessInfo).coreReleaseRequestCount -
      ({ id := 2, coreReleaseRequestCount := 1, threadPreempted := false,
         coreReleaseCount := 0, totalCoresOwned := 1,
         desiredCorePriorities := [0, 1, 0, 0, 0, 0, 0, 0] }
        : ProcessInfo).coreReleaseCount ≤
      ({ id := 2, coreReleaseRequestCount := 1, threadPreempted := false,
         coreReleaseCount := 0, totalCoresOwned := 1,
         desiredCorePriorities := [0, 1, 0, 0, 0, 0, 0, 0] }
        : ProcessInfo).totalCoresOwned :=
  release_counter_gap scenarioState
    { id := 2, coreReleaseRequestCount := 1, threadPreempted := false,
      coreReleaseCount := 0, totalCoresOwned := 1,
      desiredCorePriorities := [0, 1, 0, 0, 0, 0, 0, 0] }
    scenarioState_reachable (by decide)

/-- C7: a single server step never decreases the shared-memory release
counters of a process that is registered before and after the step: whenever
`P` is registered in a reachable state `s` and `Q` is the entry with the same
process id after any event, both `coreReleaseRequestCount` and
`coreReleaseCount` are at least their old values.  Monotonicity over a whole
execution between creation and deletion follows step by step. -/
theorem release_counters_monotone (s : ServerState) (ev : Event)
    (P Q : ProcessInfo) (hreach : Reachable s) (hP : P ∈ s.processes)
    (hQ : Q ∈ (step s ev).processes) (hid : Q.id = P.id) :
    P.coreReleaseRequestCount ≤ Q.coreReleaseRequestCount ∧
    P.coreReleaseCount ≤ Q.coreReleaseCount := by
  have hInv := reachable_inv hreach
  have hW2 : (s.processes.map (fun R => R.id)).Nodup := hInv.1.2.1
  have hback : ∀ s2 : ServerState, ProcsBack s s2 → Q ∈ s2.processes →
      P.coreReleaseRequestCount ≤ Q.coreReleaseRequestCount ∧
      P.coreReleaseCount ≤ Q.coreReleaseCount := by
    intro s2 hb hQ2
    obtain ⟨P0, hP0, hP0id, hle⟩ := hb Q hQ2
    have hPP0 : P0 = P := nodup_key_eq _ hW2 hP0 hP (by rw [hP0id, hid])
    exact ⟨by rw [← hPP0]; exact hle.1, by rw [← hPP0]; exact hle.2⟩
  cases ev with
  | register pid tid sk =>
    have hQ2 : Q ∈ (threadRegister s pid tid sk).processes := hQ
    revert hQ2
    unfold threadRegister
    cases hf : findThread s sk with
    | some t =>
      intro hQ2
      have hQ3 : Q ∈ s.processes := hQ2
      have hPQ : Q = P := nodup_key_eq _ hW2 hQ3 hP hid
      rw [hPQ]
      exact ⟨Nat.le_refl _, Nat.le_refl _⟩
    | none =>
      cases hp : findProcess s pid with
      | some R =>
        intro hQ2
        have hQ3 : Q ∈ s.processes := hQ2
        have hPQ : Q = P := nodup_key_eq _ hW2 hQ3 hP hid
        rw [hPQ]
        exact ⟨Nat.le_refl _, Nat.le_refl _⟩
      | none =>
        intro hQ2
        have hQ3 : Q ∈ s.processes ++ [ProcessInfo.make pid] := hQ2
        rcases List.mem_append.mp hQ3 with hold | hnew
        · have hPQ : Q = P := nodup_key_eq _ hW2 hold hP hid
          rw [hPQ]
          exact ⟨Nat.le_refl _, Nat.le_refl _⟩
        · have hQm : Q = ProcessInfo.make pid := List.mem_singleton.mp hnew
          have hp2 : s.processes.find? (fun R => decide (R.id = pid))
              = none := hp
          have hnone := (find?_key_eq_none_iff (fun R : ProcessInfo => R.id)
            s.processes pid).mp hp2
          have hPid : P.id = pid := by
            rw [← hid, hQm]
            rfl
          exact absurd hPid (hnone P hP)
  | request sk desired =>
    exact hback _ (procsBack_coresRequested s sk desired) hQ
  | block sk => exact hback _ (procsBack_threadBlocking s sk) hQ
  | timeout fd => exact hback _ (procsBack_timeoutThreadPreemption s fd) hQ
  | disconnect sk => exact hback _ (procsBack_cleanupConnection s sk) hQ

theorem release_counters_monotone_witness :
    ({ id := 3, coreReleaseRequestCount := 0, threadPreempted := false,
       coreReleaseCount := 0, totalCoresOwned := 0,
       desiredCorePriorities := [0, 0, 0, 0, 0, 0, 0, 0] }
      : ProcessInfo).coreReleaseRequestCount ≤
      ({ id := 3, coreReleaseRequestCount := 1, threadPreempted := false,
         coreReleaseCount := 0, totalCoresOwned := 1,
         desiredCorePriorities := [0, 1, 0, 0, 0, 0, 0, 0] }
        : ProcessInfo).coreReleaseRequestCount ∧
    ({ id := 3, coreReleaseRequestCount := 0, threadPreempted := false,
       coreReleaseCount := 0, totalCoresOwned := 0,
       desiredCorePriorities := [0, 0, 0, 0, 0, 0, 0, 0] }
      : ProcessInfo).coreReleaseCount ≤
      ({ id := 3, coreReleaseRequestCount := 1, threadPreempted := false,
         coreReleaseCount := 0, totalCoresOwned := 1,
         desiredCorePriorities := [0, 1, 0, 0, 0, 0, 0, 0] }
        : ProcessInfo).coreReleaseCount :=
  release_counters_monotone scenarioPre
    (Event.request 3 [0, 1, 0, 0, 0, 0, 0, 0])
    { id := 3, coreReleaseRequestCount := 0, threadPreempted := false,
      coreReleaseCount := 0, totalCoresOwned := 0,
      desiredCorePriorities := [0, 0, 0, 0, 0, 0, 0, 0] }
    { id := 3, coreReleaseRequestCount := 1, threadPreempted := false,
      coreReleaseCount := 0, totalCoresOwned := 1,
      desiredCorePriorities := [0, 1, 0, 0, 0, 0, 0, 0] }
    scenarioPre_reachable (by decide) (by decide) (by decide)

/-- C9: handling `THREAD_REGISTER` on a fresh socket appends exactly one new
session recording the self-reported thread id, the owning process id and the
socket, in state `RUNNING_UNMANAGED` with no core; the managed cores are
untouched, so no core assignment happens during registration. -/
theorem thread_register_new_session (s : ServerState) (pid tid sk : Nat)
    (h : findThread s sk = none) :
    (threadRegister s pid tid sk).threads
      = s.threads ++ [ThreadInfo.make tid pid sk] ∧
    (threadRegister s pid tid sk).exclusiveCores = s.exclusiveCores ∧
    (ThreadInfo.make tid pid sk).state = RUNNING_UNMANAGED ∧
    (ThreadInfo.make tid pid sk).core = none ∧
    (ThreadInfo.make tid pid sk).id = tid ∧
    (ThreadInfo.make tid pid sk).processId = pid ∧
    (ThreadInfo.make tid pid sk).socket = sk := by
  unfold threadRegister
  rw [h]
  cases hp : findProcess s pid with
  | some P => exact ⟨rfl, rfl, rfl, rfl, rfl, rfl, rfl⟩
  | none => exact ⟨rfl, rfl, rfl, rfl, rfl, rfl, rfl⟩

theorem thread_register_new_session_witness :
    (threadRegister (initState [10]) 5 7 1).threads
      = (initState [10]).threads ++ [ThreadInfo.make 7 5 1] ∧
    (threadRegister (initState [10]) 5 7 1).exclusiveCores
      = (initState [10]).exclusiveCores ∧
    (ThreadInfo.make 7 5 1).state = RUNNING_UNMANAGED ∧
    (ThreadInfo.make 7 5 1).core = none ∧
    (ThreadInfo.make 7 5 1).id = 7 ∧
    (ThreadInfo.make 7 5 1).processId = 5 ∧
    (ThreadInfo.make 7 5 1).socket = 1 :=
  thread_register_new_session (initState [10]) 5 7 1 (by decide)

/-! ### Closing every socket of a process removes it everywhere -/

theorem filter_ne_updKey (sk : Nat) (g : ThreadInfo → ThreadInfo)
    (hg : ∀ u, (g u).socket = u.socket) :
    ∀ l : List ThreadInfo,
    (updKey (fun u => u.socket) sk g l).filter
        (fun u => decide (u.socket ≠ sk))
      = l.filter (fun u => decide (u.socket ≠ sk)) := by
  intro l
  induction l with
  | nil => rfl
  | cons a rest ih =>
    show ((if a.socket = sk then g a else a) ::
        updKey (fun u => u.socket) sk g rest).filter
        (fun u => decide (u.socket ≠ sk))
      = (a :: rest).filter (fun u => decide (u.socket ≠ sk))
    rw [List.filter_cons, List.filter_cons]
    by_cases hask : a.socket = sk
    · rw [if_pos hask]
      have h1 : (decide ((g a).socket ≠ sk)) = false := by
        simp [hg a, hask]
      have h2 : (decide (a.socket ≠ sk)) = false := by simp [hask]
      rw [h1, h2, if_neg Bool.false_ne_true, if_neg Bool.false_ne_true]
      exact ih
    · rw [if_neg hask]
      rw [ih]

theorem removeThread_threads_eq (s : ServerState) (sk π : Nat) :
    (if (s.threads.filter (fun u => decide (u.socket ≠ sk))).any
          (fun u => decide (u.processId = π))
       then updateQueueMembership
         { s with threads := s.threads.filter (fun u => decide (u.socket ≠ sk)) } π
       else { s with
         threads := s.threads.filter (fun u => decide (u.socket ≠ sk)),
         processes := s.processes.filter (fun P => decide (P.id ≠ π)),
         corePriorityQueues := s.corePriorityQueues.map
           (fun q => q.filter (fun w => decide (w ≠ π))) }).threads
      = s.threads.filter (fun u => decide (u.socket ≠ sk)) := by
  by_cases hany : ((s.threads.filter (fun u => decide (u.socket ≠ sk))).any
      (fun u => decide (u.processId = π))) = true
  · rw [if_pos hany]
    rfl
  · rw [if_neg hany]

theorem cleanupConnection_threads {s : ServerState} {sk : Nat}
    {t : ThreadInfo} (hf : findThread s sk = some t) :
    (cleanupConnection s sk).threads
      = ((if t.state = RUNNING_EXCLUSIVE then evictCore s sk BLOCKED
          else s).threads).filter (fun u => decide (u.socket ≠ sk)) := by
  unfold cleanupConnection
  rw [hf]
  exact removeThread_threads_eq
    (if t.state = RUNNING_EXCLUSIVE then evictCore s sk BLOCKED else s)
    sk t.processId

theorem socketsOf_cleanup_step {s : ServerState} {π : Nat} {u0 : ThreadInfo}
    {us : List ThreadInfo} (hInv : Inv s)
    (hfl : s.threads.filter (fun t => decide (t.processId = π)) = u0 :: us) :
    socketsOf (cleanupConnection s u0.socket) π
      = us.map (fun t => t.socket) := by
  have hW1 := hInv.1.1
  have hu0f : u0 ∈ s.threads.filter (fun t => decide (t.processId = π)) := by
    rw [hfl]
    exact List.mem_cons_self _ _
  obtain ⟨hu0mem, hu0pid2⟩ := List.mem_filter.mp hu0f
  have hf : findThread s u0.socket = some u0 :=
    (findThread_eq_some_iff hW1).mpr ⟨hu0mem, rfl⟩
  have hthreads : (cleanupConnection s u0.socket).threads
      = s.threads.filter (fun u => decide (u.socket ≠ u0.socket)) := by
    rw [cleanupConnection_threads hf]
    by_cases hex : u0.state = RUNNING_EXCLUSIVE
    · rw [if_pos hex]
      obtain ⟨co, hco, htc, hcoex⟩ := hInv.2.1.1 u0 hu0mem hex
      rw [evictCore_eq BLOCKED hf htc]
      exact filter_ne_updKey u0.socket
        (fun u => { u with core := none, state := BLOCKED })
        (fun u => rfl) s.threads
    · rw [if_neg hex]
  unfold socketsOf
  rw [hthreads, List.filter_comm, hfl, List.filter_cons]
  have hhead : (decide (u0.socket ≠ u0.socket)) = false := by simp
  rw [hhead, if_neg Bool.false_ne_true]
  have hndf : ((s.threads.filter (fun t =>
      decide (t.processId = π))).map (fun t => t.socket)).Nodup :=
    hW1.sublist ((List.filter_sublist _).map _)
  rw [hfl, List.map_cons, List.nodup_cons] at hndf
  have hustail : us.filter (fun u => decide (u.socket ≠ u0.socket)) = us := by
    rw [List.filter_eq_self]
    intro u hu
    simp only [decide_eq_true_eq]
    intro hequ
    exact hndf.1 (hequ ▸ List.mem_map_of_mem (fun t => t.socket) hu)
  rw [hustail]

theorem cleanupAll_removes :
    ∀ (sks : List Nat) (s : ServerState) (π : Nat), Reachable s →
    socketsOf s π = sks →
    (∀ P ∈ (cleanupAll s sks).processes, P.id ≠ π) ∧
    (∀ u ∈ (cleanupAll s sks).threads, u.processId ≠ π) ∧
    (∀ q ∈ (cleanupAll s sks).corePriorityQueues, π ∉ q) := by
  intro sks
  induction sks with
  | nil =>
    intro s π hreach hsk
    have hInv := reachable_inv hreach
    have hfe : s.threads.filter (fun t => decide (t.processId = π)) = [] := by
      have h2 : (s.threads.filter (fun t =>
          decide (t.processId = π))).map (fun t => t.socket) = [] := hsk
      exact List.map_eq_nil.mp h2
    have hnothread : ∀ u ∈ s.threads, u.processId ≠ π := by
      intro u hu heq
      have hmem2 : u ∈ s.threads.filter (fun t =>
          decide (t.processId = π)) := List.mem_filter.mpr ⟨hu, by simp [heq]⟩
      rw [hfe] at hmem2
      cases hmem2
    refine ⟨?_, hnothread, ?_⟩
    · intro P hP hPid
      obtain ⟨t, htmem, htpid⟩ := hInv.1.2.2.2.2 P hP
      exact hnothread t htmem (by rw [htpid, hPid])
    · intro q hq hπq
      obtain ⟨P, hPmem, hPid⟩ := hInv.2.2.2.2.2.2 q hq π hπq
      obtain ⟨t, htmem, htpid⟩ := hInv.1.2.2.2.2 P hPmem
      exact hnothread t htmem (by rw [htpid, hPid])
  | cons sk rest ih =>
    intro s π hreach hsk
    have hInv := reachable_inv hreach
    cases hfl : s.threads.filter (fun t => decide (t.processId = π)) with
    | nil =>
      have h2 : socketsOf s π = [] := by
        unfold socketsOf
        rw [hfl]
        rfl
      rw [hsk] at h2
      exact List.noConfusion h2
    | cons u0 us =>
      have h2 : socketsOf s π = u0.socket :: us.map (fun t => t.socket) := by
        unfold socketsOf
        rw [hfl]
        rfl
      rw [hsk] at h2
      injection h2 with ha hb
      have hstep : socketsOf (cleanupConnection s sk) π = rest := by
        rw [ha, socketsOf_cleanup_step hInv hfl, hb]
      have hreach2 : Reachable (cleanupConnection s sk) :=
        Reachable.step (.disconnect sk) hreach
      have hres := ih (cleanupConnection s sk) π hreach2 hstep
      exact hres

/-- C8 (amended): for every reachable state and every process id, running
`cleanupConnection` on every socket of that process removes the process
completely: afterwards no process entry carries its id, no session belongs to
it, it sits in no priority queue, and no managed core is held by one of its
sessions.  The resulting state is NOT in general equal up to process ids to
the state reached by the same history with the process's connections omitted:
side effects of its presence on other processes (such as their
`coreReleaseRequestCount`) remain. -/
theorem disconnect_all_removes_process (s : ServerState) (pid : Nat)
    (h : Reachable s) :
    (∀ P ∈ (cleanupAll s (socketsOf s pid)).processes, P.id ≠ pid) ∧
    (∀ u ∈ (cleanupAll s (socketsOf s pid)).threads, u.processId ≠ pid) ∧
    (∀ q ∈ (cleanupAll s (socketsOf s pid)).corePriorityQueues, pid ∉ q) ∧
    (∀ co ∈ (cleanupAll s (socketsOf s pid)).exclusiveCores,
      ∀ sk2 : Nat, co.exclusiveThread = some sk2 →
      ∀ u ∈ (cleanupAll s (socketsOf s pid)).threads, u.socket = sk2 →
        u.processId ≠ pid) := by
  obtain ⟨h1, h2, h3⟩ := cleanupAll_removes (socketsOf s pid) s pid h rfl
  exact ⟨h1, h2, h3, fun co _ sk2 _ u hu _ => h2 u hu⟩

theorem disconnect_all_removes_process_witness :
    (∀ P ∈ (cleanupAll c8Pre (socketsOf c8Pre 2)).processes, P.id ≠ 2) ∧
    (∀ u ∈ (cleanupAll c8Pre (socketsOf c8Pre 2)).threads,
      u.processId ≠ 2) ∧
    (∀ q ∈ (cleanupAll c8Pre (socketsOf c8Pre 2)).corePriorityQueues,
      2 ∉ q) ∧
    (∀ co ∈ (cleanupAll c8Pre (socketsOf c8Pre 2)).exclusiveCores,
      ∀ sk2 : Nat, co.exclusiveThread = some sk2 →
      ∀ u ∈ (cleanupAll c8Pre (socketsOf c8Pre 2)).threads, u.socket = sk2 →
        u.processId ≠ 2) :=
  disconnect_all_removes_process c8Pre 2 c8Pre_reachable

/-- C8 counterexample: closing process 2's only socket after the history
`c8WithEvents` leaves a state (`c8With`) that is not equal up to process ids
to the state of the same history with process 2's connections omitted
(`c8Without`).  Both states have the single process 1 with identical sessions
(same socket, core and state), yet process 1's shared-memory
`coreReleaseRequestCount` is 1 in `c8With` (the server had asked it to
release a core for process 2) and 0 in `c8Without`, so no renaming of process
ids can relate the two: even the multisets of per-process observations
(counters, ownership, preemption flag, desired vector) differ. -/
theorem disconnect_idempotence_counterexample :
    Reachable c8With ∧ Reachable c8Without ∧
    (c8With = cleanupAll c8Pre (socketsOf c8Pre 2) ∧
     c8With.threads.map (fun t => (t.socket, t.core, t.state))
        = c8Without.threads.map (fun t => (t.socket, t.core, t.state)) ∧
     procObs c8With = [(1, 0, 1, false, [0, 0, 0, 1, 0, 0, 0, 0])] ∧
     procObs c8Without = [(0, 0, 1, false, [0, 0, 0, 1, 0, 0, 0, 0])] ∧
     ¬ (procObs c8With).Perm (procObs c8Without)) :=
  ⟨c8With_reachable, c8Without_reachable, by decide, by decide, by decide,
    by decide, by decide⟩

/-- C10: after the run `c10Events` of the repository's own client pattern
(`CoreArbiterClientMain.cc`: request one core, block until granted, then
lower the request to all zeros and spin on `mustReleaseCore`), process 1
still holds core 10 exclusively, its demand is below its ownership at every
priority, and yet its shared-memory `coreReleaseRequestCount` is still 0:
the server, which asks for releases only on behalf of other processes with
higher-priority unsatisfied demand, never asks the process to release the
core it no longer wants, so `mustReleaseCore` stays false and the client
spins forever. -/
theorem lowered_demand_never_asked_to_release :
    Reachable c10State ∧
    ((findProcess c10State 1).map (fun P =>
        (P.coreReleaseRequestCount, P.coreReleaseCount, P.totalCoresOwned,
         P.desiredCorePriorities))
      = some (0, 0, 1, [0, 0, 0, 0, 0, 0, 0, 0]) ∧
     (findThread c10State 1).map (fun t => (t.state, t.core))
      = some (RUNNING_EXCLUSIVE, some 10) ∧
     c10State.pendingReleaseCores = [] ∧
     c10State.timerFdToProcessId = []) :=
  ⟨c10State_reachable, by decide⟩

theorem find?_key_updKey_self {α : Type} (key : α → Nat) (k : Nat)
    (f : α → α) (hf : ∀ x, key (f x) = key x) :
    ∀ {l : List α} {u : α},
    l.find? (fun x => decide (key x = k)) = some u →
    (updKey key k f l).find? (fun x => decide (key x = k)) = some (f u) := by
  intro l
  induction l with
  | nil => intro u h; exact Option.noConfusion h
  | cons a rest ih =>
    intro u h
    by_cases hka : key a = k
    · rw [List.find?_cons_of_pos _ (by simp [hka])] at h
      injection h with h2
      show ((if key a = k then f a else a) ::
          updKey key k f rest).find? (fun x => decide (key x = k)) = some (f u)
      rw [if_pos hka]
      rw [List.find?_cons_of_pos _ (by simp [hf a, hka]), h2]
    · rw [List.find?_cons_of_neg _ (by simp [hka])] at h
      show ((if key a = k then f a else a) ::
          updKey key k f rest).find? (fun x => decide (key x = k)) = some (f u)
      rw [if_neg hka]
      rw [List.find?_cons_of_neg _ (by simp [hka])]
      exact ih h

/-- C5: when preemption timer `fd` (registered for process `pid`) fires and
the process still owes a release, the handler removes the timer, picks the
process's lowest-priority `RUNNING_EXCLUSIVE` session `t` (no exclusive
session of the process has a numerically larger grant priority), and in this
one step sets the process's `threadPreempted` flag, moves `t` off its core
into state `RUNNING_PREEMPTED` (modelling the migration to the unmanaged
cpuset), increments `coreReleaseCount` by one, decrements `totalCoresOwned`
by one and clears the core's `exclusiveThread`, before re-evaluating queues
and re-running the allocator; when the process no longer owes a release,
only the timer is removed and everything else is unchanged. -/
theorem timeout_preemption_behavior (s : ServerState) (fd pid : Nat)
    (P : ProcessInfo) (hreach : Reachable s)
    (hfd : alistGet s.timerFdToProcessId fd = some pid)
    (hP : findProcess s pid = some P) :
    (P.coreReleaseCount < P.coreReleaseRequestCount →
      ∃ t : ThreadInfo, ∃ c : Nat,
        lowestPrioritySession s pid = some t ∧
        t ∈ s.threads ∧ t.processId = pid ∧
        t.state = RUNNING_EXCLUSIVE ∧ t.core = some c ∧
        (∀ u ∈ s.threads, u.processId = pid → u.state = RUNNING_EXCLUSIVE →
          threadGrantPriority s u ≤ threadGrantPriority s t) ∧
        timeoutThreadPreemption s fd =
          distributeCores (updateQueueMembership (evictCore
            (updateProcess
              { s with timerFdToProcessId := alistRemove s.timerFdToProcessId fd }
              pid (fun Q => { Q with threadPreempted := true }))
            t.socket RUNNING_PREEMPTED) pid) ∧
        findProcess (evictCore
            (updateProcess
              { s with timerFdToProcessId := alistRemove s.timerFdToProcessId fd }
              pid (fun Q => { Q with threadPreempted := true }))
            t.socket RUNNING_PREEMPTED) pid =
          some { P with threadPreempted := true,
                        coreReleaseCount := P.coreReleaseCount + 1,
                        totalCoresOwned := P.totalCoresOwned - 1 } ∧
        findThread (evictCore
            (updateProcess
              { s with timerFdToProcessId := alistRemove s.timerFdToProcessId fd }
              pid (fun Q => { Q with threadPreempted := true }))
            t.socket RUNNING_PREEMPTED) t.socket =
          some { t with core := none, state := RUNNING_PREEMPTED } ∧
        (∀ co2 ∈ (evictCore
            (updateProcess
              { s with timerFdToProcessId := alistRemove s.timerFdToProcessId fd }
              pid (fun Q => { Q with threadPreempted := true }))
            t.socket RUNNING_PREEMPTED).exclusiveCores,
          co2.id = c → co2.exclusiveThread = none)) ∧
    (¬ P.coreReleaseCount < P.coreReleaseRequestCount →
      timeoutThreadPreemption s fd =
        { s with timerFdToProcessId := alistRemove s.timerFdToProcessId fd }) := by
  obtain ⟨⟨hW1, hW2, hW4, hW3, hW5⟩, ⟨hL1, hL2, hL3⟩, hPP, hC, hG,
    ⟨hPn, hPo⟩, hQu⟩ := reachable_inv hreach
  obtain ⟨hPmem, hPid⟩ := (findProcess_eq_some_iff hW2).mp hP
  have hP0 : findProcess { s with
      timerFdToProcessId := alistRemove s.timerFdToProcessId fd } pid
      = some P := hP
  constructor
  · intro howed
    obtain ⟨hle, hgap⟩ := hG P hPmem
    have hpos : 0 < pendCount s P.id := by omega
    unfold pendCount at hpos
    rw [List.length_pos] at hpos
    obtain ⟨c0, hc0⟩ := List.exists_mem_of_ne_nil _ hpos
    rw [List.mem_filter] at hc0
    have hown : coreOwnerPid s c0 = some P.id := by
      have h2 := hc0.2
      simpa using h2
    obtain ⟨co0, hfc0, sk0, t0, hex0, hft0, ht0pid⟩ :=
      coreOwnerPid_some_elim hown
    have hco0mem : co0 ∈ s.exclusiveCores := List.mem_of_find?_eq_some hfc0
    obtain ⟨u0, hu0, hu0sk, hu0st, hu0core⟩ := hL3 co0 hco0mem sk0 hex0
    obtain ⟨ht0mem, ht0sk⟩ := (findThread_eq_some_iff hW1).mp hft0
    have hu0t0 : u0 = t0 := nodup_key_eq _ hW1 hu0 ht0mem
      (by rw [hu0sk, ht0sk])
    have ht0st : t0.state = RUNNING_EXCLUSIVE := by
      rw [← hu0t0]
      exact hu0st
    have hfilne : s.threads.filter (fun t2 =>
        decide (t2.processId = pid ∧ t2.state = RUNNING_EXCLUSIVE)) ≠ [] := by
      refine List.ne_nil_of_mem (List.mem_filter.mpr ⟨ht0mem, ?_⟩)
      simp [ht0pid, hPid, ht0st]
    obtain ⟨t, hl⟩ := lowestPrioritySession_isSome hfilne
    obtain ⟨htmem, htpid, htst⟩ := lowestPrioritySession_mem hl
    obtain ⟨co, hcomem, htc0, hcoex⟩ := hL1 t htmem htst
    have hl0 : lowestPrioritySession { s with
        timerFdToProcessId := alistRemove s.timerFdToProcessId fd } pid
        = some t := hl
    have hft1 : findThread (updateProcess { s with
        timerFdToProcessId := alistRemove s.timerFdToProcessId fd } pid
        (fun Q => { Q with threadPreempted := true })) t.socket = some t := by
      have hW1b : ((updateProcess { s with
          timerFdToProcessId := alistRemove s.timerFdToProcessId fd } pid
          (fun Q => { Q with threadPreempted := true })).threads.map
          (fun u => u.socket)).Nodup := hW1
      exact (findThread_eq_some_iff hW1b).mpr ⟨htmem, rfl⟩
    refine ⟨t, co.id, hl, htmem, htpid, htst, htc0,
      lowestPrioritySession_max hl, ?_, ?_, ?_, ?_⟩
    · unfold timeoutThreadPreemption
      rw [hfd]
      show (match findProcess { s with
          timerFdToProcessId := alistRemove s.timerFdToProcessId fd } pid with
        | none =>
          { s with timerFdToProcessId := alistRemove s.timerFdToProcessId fd }
        | some Q =>
          if Q.coreReleaseCount < Q.coreReleaseRequestCount then
            distributeCores (preemptTimeoutCore
              { s with
                timerFdToProcessId := alistRemove s.timerFdToProcessId fd } pid)
          else
            { s with
              timerFdToProcessId := alistRemove s.timerFdToProcessId fd }) = _
      rw [hP0]
      show (if P.coreReleaseCount < P.coreReleaseRequestCount then
          distributeCores (preemptTimeoutCore
            { s with
              timerFdToProcessId := alistRemove s.timerFdToProcessId fd } pid)
        else
          { s with
            timerFdToProcessId := alistRemove s.timerFdToProcessId fd }) = _
      rw [if_pos howed]
      unfold preemptTimeoutCore
      rw [hl0]
    · rw [evictCore_eq RUNNING_PREEMPTED hft1 htc0]
      show ((updKey (fun Q : ProcessInfo => Q.id) t.processId
          (fun Q => { Q with totalCoresOwned := Q.totalCoresOwned - 1,
                             coreReleaseCount :=
                               if Q.coreReleaseCount < Q.coreReleaseRequestCount
                               then Q.coreReleaseCount + 1
                               else Q.coreReleaseCount })
          (updKey (fun Q : ProcessInfo => Q.id) pid
            (fun Q => { Q with threadPreempted := true })
            s.processes)).find? (fun Q => decide (Q.id = pid)))
        = some { P with threadPreempted := true,
                        coreReleaseCount := P.coreReleaseCount + 1,
                        totalCoresOwned := P.totalCoresOwned - 1 }
      rw [htpid]
      have hP2 : s.processes.find? (fun Q => decide (Q.id = pid))
          = some P := hP
      have hmid : (updKey (fun Q : ProcessInfo => Q.id) pid
          (fun Q => { Q with threadPreempted := true })
          s.processes).find? (fun Q => decide (Q.id = pid))
          = some ({ P with threadPreempted := true } : ProcessInfo) :=
        find?_key_updKey_self (fun Q : ProcessInfo => Q.id) pid
          (fun Q => { Q with threadPreempted := true }) (fun Q => rfl) hP2
      have hfin := find?_key_updKey_self (fun Q : ProcessInfo => Q.id) pid
        (fun Q => { Q with totalCoresOwned := Q.totalCoresOwned - 1,
                           coreReleaseCount :=
                             if Q.coreReleaseCount < Q.coreReleaseRequestCount
                             then Q.coreReleaseCount + 1
                             else Q.coreReleaseCount })
        (fun Q => rfl) hmid
      have hfin2 : ((updKey (fun Q : ProcessInfo => Q.id) pid
          (fun Q => { Q with totalCoresOwned := Q.totalCoresOwned - 1,
                             coreReleaseCount :=
                               if Q.coreReleaseCount < Q.coreReleaseRequestCount
                               then Q.coreReleaseCount + 1
                               else Q.coreReleaseCount })
          (updKey (fun Q : ProcessInfo => Q.id) pid
            (fun Q => { Q with threadPreempted := true })
            s.processes)).find? (fun Q => decide (Q.id = pid)))
          = some ({ P with threadPreempted := true,
                           totalCoresOwned := P.totalCoresOwned - 1,
                           coreReleaseCount :=
                             if P.coreReleaseCount < P.coreReleaseRequestCount
                             then P.coreReleaseCount + 1
                             else P.coreReleaseCount } : ProcessInfo) := hfin
      rw [hfin2, if_pos howed]
    · rw [evictCore_eq RUNNING_PREEMPTED hft1 htc0]
      show ((updKey (fun u : ThreadInfo => u.socket) t.socket
          (fun u => { u with core := none, state := RUNNING_PREEMPTED })
          s.threads).find? (fun u => decide (u.socket = t.socket)))
        = some { t with core := none, state := RUNNING_PREEMPTED }
      have hftS : s.threads.find? (fun u => decide (u.socket = t.socket))
          = some t := (findThread_eq_some_iff hW1).mpr ⟨htmem, rfl⟩
      exact find?_key_updKey_self (fun u : ThreadInfo => u.socket) t.socket
        (fun u => { u with core := none, state := RUNNING_PREEMPTED })
        (fun u => rfl) hftS
    · rw [evictCore_eq RUNNING_PREEMPTED hft1 htc0]
      intro co2 hco2 hco2id
      have hco2b : co2 ∈ updKey (fun d : CoreInfo => d.id) co.id
          (fun d => { d with exclusiveThread := none })
          s.exclusiveCores := hco2
      obtain ⟨d, hd, hco2d⟩ := mem_updKey_iff.mp hco2b
      by_cases hdk : d.id = co.id
      · rw [if_pos hdk] at hco2d
        rw [hco2d]
      · rw [if_neg hdk] at hco2d
        rw [hco2d] at hco2id
        exact absurd hco2id hdk
  · intro hnot
    unfold timeoutThreadPreemption
    rw [hfd]
    show (match findProcess { s with
        timerFdToProcessId := alistRemove s.timerFdToProcessId fd } pid with
      | none =>
        { s with timerFdToProcessId := alistRemove s.timerFdToProcessId fd }
      | some Q =>
        if Q.coreReleaseCount < Q.coreReleaseRequestCount then
          distributeCores (preemptTimeoutCore
            { s with
              timerFdToProcessId := alistRemove s.timerFdToProcessId fd } pid)
        else
          { s with
            timerFdToProcessId := alistRemove s.timerFdToProcessId fd }) = _
    rw [hP0]
    show (if P.coreReleaseCount < P.coreReleaseRequestCount then
        distributeCores (preemptTimeoutCore
          { s with
            timerFdToProcessId := alistRemove s.timerFdToProcessId fd } pid)
      else
        { s with
          timerFdToProcessId := alistRemove s.timerFdToProcessId fd }) = _
    rw [if_neg hnot]

theorem timeout_preemption_behavior_witness :
    ∃ t : ThreadInfo, ∃ c : Nat,
      lowestPrioritySession scenarioState 2 = some t ∧
      t ∈ scenarioState.threads ∧ t.processId = 2 ∧
      t.state = RUNNING_EXCLUSIVE ∧ t.core = some c ∧
      (∀ u ∈ scenarioState.threads, u.processId = 2 →
        u.state = RUNNING_EXCLUSIVE →
        threadGrantPriority scenarioState u
          ≤ threadGrantPriority scenarioState t) ∧
      timeoutThreadPreemption scenarioState 0 =
        distributeCores (updateQueueMembership (evictCore
          (updateProcess
            { scenarioState with timerFdToProcessId := alistRemove scenarioState.timerFdToProcessId 0 }
            2 (fun Q => { Q with threadPreempted := true }))
          t.socket RUNNING_PREEMPTED) 2) ∧
      findProcess (evictCore
          (updateProcess
            { scenarioState with timerFdToProcessId := alistRemove scenarioState.timerFdToProcessId 0 }
            2 (fun Q => { Q with threadPreempted := true }))
          t.socket RUNNING_PREEMPTED) 2 =
        some { id := 2, coreReleaseRequestCount := 1, threadPreempted := true,
               coreReleaseCount := 1, totalCoresOwned := 0,
               desiredCorePriorities := [0, 1, 0, 0, 0, 0, 0, 0] } ∧
      findThread (evictCore
          (updateProcess
            { scenarioState with timerFdToProcessId := alistRemove scenarioState.timerFdToProcessId 0 }
            2 (fun Q => { Q with threadPreempted := true }))
          t.socket RUNNING_PREEMPTED) t.socket =
        some { t with core := none, state := RUNNING_PREEMPTED } ∧
      (∀ co2 ∈ (evictCore
          (updateProcess
            { scenarioState with timerFdToProcessId := alistRemove scenarioState.timerFdToProcessId 0 }
            2 (fun Q => { Q with threadPreempted := true }))
          t.socket RUNNING_PREEMPTED).exclusiveCores,
        co2.id = c → co2.exclusiveThread = none) :=
  (timeout_preemption_behavior scenarioState 0 2
    { id := 2, coreReleaseRequestCount := 1, threadPreempted := false,
      coreReleaseCount := 0, totalCoresOwned := 1,
      desiredCorePriorities := [0, 1, 0, 0, 0, 0, 0, 0] }
    scenarioState_reachable (by decide) (by decide)).1 (by decide)

end CoreArbiter
